import Mathlib

/-
  Verification development for a bitboard chess engine
  (board state with reversible make/unmake, pseudo-legal-then-legal
  move generation, perft, MVV-LVA-ordered negamax search).

  The engine's C++ sources are shallowly embedded below.  64-bit
  bitboards become naturals kept below 2^64 (left shifts are reduced
  mod 2^64 exactly where the machine word would wrap).  The twelve
  64-bit piece bitboards `pcs[12]` are modelled as ONE natural below
  2^768 in which piece p's bitboard occupies bits [64p, 64p+64); the
  array access `pcs[p]` is the helper `getP`, and the array updates
  `pcs[p] |= 1<<sq` / `pcs[p] &= ~(1<<sq)` are `updSet` / `updClear`
  on bit 64p+sq.  The mutable Board is a structure passed
  functionally.  Each definition mirrors one function of the sources
  (board.cpp, movegen.cpp, search.cpp, eval.cpp).
-/

namespace Chess

/-- 2^64, the modulus of the C++ `uint64_t` bitboard type. -/
def U64 : Nat := 18446744073709551616

/-- 2^64 - 1: mask extracting one 64-bit lane. -/
def MASK64 : Nat := 18446744073709551615

/-- Complement within 64 bits: models `~x` on `uint64_t` (for x < 2^64). -/
def compl64 (x : Nat) : Nat := x ^^^ MASK64

/-- Complement within 8 bits: models `~(1u<<k)` truncated into `uint8_t`. -/
def compl8 (x : Nat) : Nat := x ^^^ 255

/-- Isolate the least significant set bit: `x & -x` on the machine,
here `x ^ (x & (x-1))` (`lowbit_two_pow` below proves it is the power
of two at the least set bit). -/
def lowbit (x : Nat) : Nat := x ^^^ (x &&& (x - 1))

/-- The 64 six-bit entries of the de Bruijn count-trailing-zeros table,
packed (entry i occupies bits [6i, 6i+6)). -/
def dbTable : Nat := 3762508819988097413073072872543584677525223375037184394338996487988414181932085329055353629958208714152624052174912

/-- `__builtin_ctzll`: index of the least significant set bit, via the
branch-free de Bruijn multiplication technique (the value for input 0,
unspecified in C, is whatever the table yields). -/
def lsb (x : Nat) : Nat :=
  (dbTable >>> (6 * ((lowbit x * 285870213051386505 % U64) >>> 58))) &&& 63

/-- Serialization of a bitboard: the `while(m){ tobb = poplsb(m); s =
lsb(tobb); ... }` loops of the sources, visiting set bits in ascending
order.  `poplsb`'s `b &= b-1` clears the least significant set bit,
here written as xor with that (set) bit.  Fuel 64 suffices for any
64-bit mask. -/
def popAux {a : Type} (f : Nat → a) (fuel : Nat) : Nat → List a :=
  Nat.rec (motive := fun _ => Nat → List a)
    (fun _ => [])
    (fun _ ih mask =>
      bif mask == 0 then []
      else
        let s := lsb mask
        f s :: ih (mask ^^^ (1 <<< s)))
    fuel

/-- The list of set-bit indices of a 64-bit mask, ascending. -/
def bitsOf (mask : Nat) : List Nat := popAux id 64 mask

/-- `__builtin_popcountll` on a 64-bit value. -/
def popcount64 (b : Nat) : Nat := (bitsOf b).length

/-- List concatenation, written out through `List.rec` (equal to `++`
by `catList_eq` below). -/
def catList {a : Type} (l1 l2 : List a) : List a :=
  List.rec l2 (fun x _ ih => x :: ih) l1

/-- List filtering, written out through `List.rec` (equal to
`List.filter` by `filtRec_eq` below). -/
def filtRec {a : Type} (p : a → Bool) (l : List a) : List a :=
  List.rec [] (fun x _ ih => bif p x then x :: ih else ih) l

/-- Flat map, written out through `List.rec` (equal to `List.flatMap`
by `bindRec_eq` below). -/
def bindRec {a b : Type} (f : a → List b) (l : List a) : List b :=
  List.rec [] (fun x _ ih => catList (f x) ih) l

def FILE_A : Nat := 0x0101010101010101
def FILE_H : Nat := 0x8080808080808080
def RANK_2 : Nat := 0x000000000000FF00
def RANK_7 : Nat := 0x00FF000000000000

-- Side to move (enum Color)
def WHITE : Nat := 0
def BLACK : Nat := 1

-- Piece indices into pcs[] (enum Piece)
def WP : Nat := 0
def WN : Nat := 1
def WB : Nat := 2
def WR : Nat := 3
def WQ : Nat := 4
def WK : Nat := 5
def BP : Nat := 6
def BN : Nat := 7
def BB : Nat := 8
def BR : Nat := 9
def BQ : Nat := 10
def BK : Nat := 11
def NO_PIECE : Nat := 12

-- Move flag bits (enum MoveFlags)
def MF_CAPTURE : Nat := 1
def MF_ENPASSANT : Nat := 2
def MF_CASTLE : Nat := 4
def MF_DOUBLE : Nat := 8

/-- The Move value type: from square, to square, promotion piece (0 when
none) and flag bits, as initialized by `Move{from,to,promo,flags}`. -/
structure Move where
  fromSq : Nat
  toSq : Nat
  promo : Nat
  flags : Nat
deriving DecidableEq, Repr

/-- `struct State`: reversible info stored per ply in `hist[]`. -/
structure State where
  last : Move
  captured : Int
  prevEpSquare : Int
  prevCastleRights : Nat
deriving DecidableEq, Repr

/-- `class Board`: the packed piece bitboards, derived occupancies, en
passant target (−1 if none), castling rights, side to move, history and
ply counter. -/
structure Board where
  pcs : Nat
  occW : Nat
  occB : Nat
  occAll : Nat
  epSquare : Int
  castleRights : Nat
  stm : Nat
  hist : Nat → State
  ply : Nat

/-- The array read `pcs[p]`: extract lane p of the packed bitboards. -/
def getP (b : Board) (p : Nat) : Nat := (b.pcs >>> (64 * p)) &&& MASK64

/-- `pcs[p] |= (1ULL << sq)`: set bit 64p+sq of the packed value. -/
def updSet (pcs p sq : Nat) : Nat := pcs ||| (1 <<< (64 * p + sq))

/-- `pcs[p] &= ~(1ULL << sq)`: clear bit 64p+sq of the packed value
(xor with the set part of that bit). -/
def updClear (pcs p sq : Nat) : Nat := pcs ^^^ (pcs &&& (1 <<< (64 * p + sq)))

/-- occupancy of side `c`: `occ[c]`. -/
def occOf (b : Board) (c : Nat) : Nat := if c = WHITE then b.occW else b.occB

/-- `Board::set_occ`: recompute the derived occupancies from `pcs`. -/
def set_occ (b : Board) : Board :=
  let w := getP b WP ||| getP b WN ||| getP b WB ||| getP b WR ||| getP b WQ ||| getP b WK
  let bl := getP b BP ||| getP b BN ||| getP b BB ||| getP b BR ||| getP b BQ ||| getP b BK
  { b with occW := w, occB := bl, occAll := w ||| bl }

/-- `Board::piece_at`: scan `pcs[WP..BK]` (the loop unrolled over the
twelve piece indices) and return the first piece whose bitboard holds
`sq` (bit 64p+sq of the packed value), or `NO_PIECE`. -/
def piece_at (b : Board) (sq : Nat) : Nat :=
  bif b.pcs.testBit sq then 0
  else bif b.pcs.testBit (64 + sq) then 1
  else bif b.pcs.testBit (128 + sq) then 2
  else bif b.pcs.testBit (192 + sq) then 3
  else bif b.pcs.testBit (256 + sq) then 4
  else bif b.pcs.testBit (320 + sq) then 5
  else bif b.pcs.testBit (384 + sq) then 6
  else bif b.pcs.testBit (448 + sq) then 7
  else bif b.pcs.testBit (512 + sq) then 8
  else bif b.pcs.testBit (576 + sq) then 9
  else bif b.pcs.testBit (640 + sq) then 10
  else bif b.pcs.testBit (704 + sq) then 11
  else 12

/-- `Board::clear`: zero the bitboards and scalar state (history is not
touched by the memset in clear()). -/
def clearBoard (b : Board) : Board :=
  { b with pcs := 0, occW := 0, occB := 0, occAll := 0,
           stm := WHITE, ply := 0, epSquare := -1, castleRights := 0 }

/-- A default-constructed `Board` (all member initializers). -/
def initBoard : Board :=
  { pcs := 0, occW := 0, occB := 0, occAll := 0,
    epSquare := -1, castleRights := 0, stm := WHITE,
    hist := fun _ => ⟨⟨0, 0, 0, 0⟩, -1, -1, 0⟩, ply := 0 }

/-- Place bitboard `v` into lane `p`: the assignment `pcs[p] = v` of
`loadFEN` starting from a cleared array. -/
def lane (p v : Nat) : Nat := v <<< (64 * p)

/-- `Board::loadFEN`: clears the board; only the exact string
"startpos" is recognised, in which case the standard start array is
installed and `true` returned; anything else returns `false` with the
board left cleared. -/
def loadFEN (b : Board) (fen : String) : Bool × Board :=
  let c := clearBoard b
  if fen = "startpos" then
    let c := { c with pcs :=
      (lane WR ((1 <<< 0) ||| (1 <<< 7)) |||
      lane WN ((1 <<< 1) ||| (1 <<< 6)) |||
      lane WB ((1 <<< 2) ||| (1 <<< 5)) |||
      lane WQ (1 <<< 3) |||
      lane WK (1 <<< 4) |||
      lane WP 0x000000000000FF00 |||
      lane BR ((1 <<< 56) ||| (1 <<< 63)) |||
      lane BN ((1 <<< 57) ||| (1 <<< 62)) |||
      lane BB ((1 <<< 58) ||| (1 <<< 61)) |||
      lane BQ (1 <<< 59) |||
      lane BK (1 <<< 60) |||
      lane BP 0x00FF000000000000) }
    let c := set_occ c
    (true, { c with stm := WHITE, epSquare := -1, castleRights := 0xF })
  else
    (false, c)

/-- The standard starting position, as the front end builds it. -/
def startBoard : Board := (loadFEN initBoard "startpos").2

/-- The castling-rights updates of `makeMove`: king moves drop both of
the mover's rights; rook moves and rook captures on the four corner
squares drop the matching right. -/
def crAfterMove (cr movingPiece capturedPiece fromSq toSq : Nat) : Nat :=
  let cr1 :=
    bif movingPiece == WK then cr &&& compl8 (1 <<< 0) &&& compl8 (1 <<< 1) else cr
  let cr2 :=
    bif movingPiece == BK then cr1 &&& compl8 (1 <<< 2) &&& compl8 (1 <<< 3) else cr1
  let cr3 :=
    bif movingPiece == WR then
      let a := bif fromSq == 0 then cr2 &&& compl8 (1 <<< 1) else cr2
      bif fromSq == 7 then a &&& compl8 (1 <<< 0) else a
    else cr2
  let cr4 :=
    bif movingPiece == BR then
      let a := bif fromSq == 56 then cr3 &&& compl8 (1 <<< 3) else cr3
      bif fromSq == 63 then a &&& compl8 (1 <<< 2) else a
    else cr3
  let cr5 :=
    bif capturedPiece == WR then
      let a := bif toSq == 0 then cr4 &&& compl8 (1 <<< 1) else cr4
      bif toSq == 7 then a &&& compl8 (1 <<< 0) else a
    else cr4
  bif capturedPiece == BR then
    let a := bif toSq == 56 then cr5 &&& compl8 (1 <<< 3) else cr5
    bif toSq == 63 then a &&& compl8 (1 <<< 2) else a
  else cr5

/-- The captured-piece removal of `makeMove` (en passant removes the
pawn behind the destination). -/
def pcsCapture (pcs stm : Nat) (m : Move) (capturedPiece : Nat) : Nat :=
  bif capturedPiece != NO_PIECE then
    bif m.flags &&& MF_ENPASSANT != 0 then
      updClear pcs capturedPiece (bif stm == WHITE then m.toSq - 8 else m.toSq + 8)
    else updClear pcs capturedPiece m.toSq
  else pcs

/-- The move-execution step of `makeMove`: promotion replaces the pawn
by the promoted piece, castling also relocates the rook, otherwise the
mover is relocated. -/
def pcsExec (pcs stm movingPiece : Nat) (m : Move) : Nat :=
  bif m.promo != 0 then
    updSet (updClear pcs movingPiece m.fromSq) m.promo m.toSq
  else bif m.flags &&& MF_CASTLE != 0 then
    let k := updSet (updClear pcs movingPiece m.fromSq) movingPiece m.toSq
    bif stm == WHITE then
      bif m.toSq == 6 then updSet (updClear k WR 7) WR 5
      else bif m.toSq == 2 then updSet (updClear k WR 0) WR 3
      else k
    else
      bif m.toSq == 62 then updSet (updClear k BR 63) BR 61
      else bif m.toSq == 58 then updSet (updClear k BR 56) BR 59
      else k
  else
    updSet (updClear pcs movingPiece m.fromSq) movingPiece m.toSq

/-- The en-passant-target update of `makeMove`: cleared, then set again
to the skipped square exactly on a (non-promotion, non-castle) pawn
move of two ranks. -/
def epAfterMove (movingPiece : Nat) (m : Move) : Int :=
  bif m.promo != 0 then -1
  else bif m.flags &&& MF_CASTLE != 0 then -1
  else bif movingPiece == WP && m.toSq == m.fromSq + 16 then ((m.fromSq + 8 : Nat) : Int)
  else bif movingPiece == BP && m.fromSq == m.toSq + 16 then ((m.fromSq - 8 : Nat) : Int)
  else -1

/-- `Board::makeMove`: record reversible state in `hist[ply]`, remove
the captured piece, update castling rights and the en-passant target,
execute the move, recompute occupancy, flip the side to move and
advance the ply. -/
def makeMove (b : Board) (m : Move) : Board :=
  let movingPiece := piece_at b m.fromSq
  let capturedPiece :=
    bif m.flags &&& MF_ENPASSANT != 0 then (bif b.stm == WHITE then BP else WP)
    else piece_at b m.toSq
  let b1 := set_occ { b with
    pcs := pcsExec (pcsCapture b.pcs b.stm m capturedPiece) b.stm movingPiece m,
    hist := Function.update b.hist b.ply
      ⟨m, (capturedPiece : Int), b.epSquare, b.castleRights⟩,
    castleRights := crAfterMove b.castleRights movingPiece capturedPiece m.fromSq m.toSq,
    epSquare := epAfterMove movingPiece m }
  { b1 with stm := bif b.stm == WHITE then BLACK else WHITE, ply := b.ply + 1 }

/-- The castling rook rollback of `unmakeMove` (stm1 is the mover). -/
def pcsCastleBack (pcs stm1 : Nat) (m : Move) : Nat :=
  if m.flags &&& MF_CASTLE ≠ 0 then
    if stm1 = WHITE then
      if m.toSq = 6 then updSet (updClear pcs WR 5) WR 7
      else if m.toSq = 2 then updSet (updClear pcs WR 3) WR 0
      else pcs
    else
      if m.toSq = 62 then updSet (updClear pcs BR 61) BR 63
      else if m.toSq = 58 then updSet (updClear pcs BR 59) BR 56
      else pcs
  else pcs

/-- The captured-piece restoration of `unmakeMove` (the en-passant
victim goes back to the offset square). -/
def pcsRestoreCap (pcs stm1 : Nat) (m : Move) (cap : Int) : Nat :=
  if cap ≠ (NO_PIECE : Int) ∧ cap ≠ -1 then
    if m.flags &&& MF_ENPASSANT ≠ 0 then
      updSet pcs cap.toNat (if stm1 = WHITE then m.toSq - 8 else m.toSq + 8)
    else updSet pcs cap.toNat m.toSq
  else pcs

/-- `Board::unmakeMove`: step ply and side back, restore en passant and
castling rights from history, then invert the placement (promotion
rollback demotes to a pawn first; otherwise the piece found on the
destination moves back, the castling rook rolls back, and the captured
piece is restored). -/
def unmakeMove (b : Board) (m : Move) : Board :=
  let ply1 := b.ply - 1
  let stm1 := if b.stm = WHITE then BLACK else WHITE
  let h := b.hist ply1
  if m.promo ≠ 0 then
    let pcs1 := updClear b.pcs m.promo m.toSq
    let pawnPiece := if stm1 = WHITE then BP else WP
    let pcs2 := updSet pcs1 pawnPiece m.fromSq
    let pcs3 :=
      if h.captured ≠ (NO_PIECE : Int) ∧ h.captured ≠ -1 then
        updSet pcs2 h.captured.toNat m.toSq
      else pcs2
    set_occ { b with pcs := pcs3, ply := ply1, stm := stm1,
                     epSquare := h.prevEpSquare, castleRights := h.prevCastleRights }
  else
    let pieceOnTo := piece_at b m.toSq
    let pcs1 := updSet (updClear b.pcs pieceOnTo m.toSq) pieceOnTo m.fromSq
    set_occ { b with
      pcs := pcsRestoreCap (pcsCastleBack pcs1 stm1 m) stm1 m h.captured,
      ply := ply1, stm := stm1,
      epSquare := h.prevEpSquare, castleRights := h.prevCastleRights }

-- ---------------------------------------------------------------------
-- Attack tables and check detection
-- ---------------------------------------------------------------------

def knightDeltas : List (Int × Int) :=
  [(2,1),(2,-1),(-2,1),(-2,-1),(1,2),(1,-2),(-1,2),(-1,-2)]

def kingDeltas : List (Int × Int) :=
  [(-1,-1),(-1,0),(-1,1),(0,-1),(0,1),(1,-1),(1,0),(1,1)]

/-- On-board squares reached from `sq` by the given (rank, file)
deltas: the bounds-checked `rr`/`ff` loops of `initKnight`, `initKing`
and `inCheck`. -/
def deltaSquares (sq : Nat) (ds : List (Int × Int)) : List Nat :=
  ds.filterMap (fun d =>
    let rr : Int := (sq / 8 : Nat) + d.1
    let ff : Int := (sq % 8 : Nat) + d.2
    if 0 ≤ rr ∧ rr < 8 ∧ 0 ≤ ff ∧ ff < 8 then some ((rr * 8 + ff).toNat) else none)

/-- The mask `initKnight` stores in `knightAttacks[sq]`. -/
def knightMaskAt (sq : Nat) : Nat :=
  (deltaSquares sq knightDeltas).foldl (fun m s => m ||| (1 <<< s)) 0

/-- The mask `initKing` stores in `kingAttacks[sq]`. -/
def kingMaskAt (sq : Nat) : Nat :=
  (deltaSquares sq kingDeltas).foldl (fun m s => m ||| (1 <<< s)) 0

/-- The 64 precomputed `knightAttacks[]` entries, packed in 64-bit
lanes (entry sq occupies bits [64 sq, 64 sq + 64)); the theorem
`knightAtt_eq_mask` below proves each lane equals `knightMaskAt`. -/
def knightTableN : Nat := 513939535912691777675632830011314898194612868029098360788517199561153632360406287452469109921090029698114425320511691469180503624690071133954665309682317447505780739491788685048416700897327620659745902605802696430297961450200268425332944049383185148369223528330439800441197926362238200126652358551104433140497789202355307276162240116430102839360120878296204950686823717631493367403576510439598103059035343160276044408216342803499555101107085528045691350899994579156777018351127119723015753172986895766332197406491253478552711097499909679833419414576282712542406106965384281063637808107231968998742999958036519973142249350932304167305501418470704596678220421902490246580304221474909000167222200763169813152501802161863983313579227611473803372101476770760294741791360951077356762934883557847973079680852337689320494327269472839170065566149946887756665039031904635843323511631451053562729556809490860561307009918991079054605855227952036817493563105358979477217702024037472831578118855801448679925611578237463313179849913088468384479981680546071020278998756413789778820890932323795886748438660975812028136352263239122318622786183510870777191943352166511473301685502175834015151244991679547389588504429729025520828055705008466544428032

/-- The 64 precomputed `kingAttacks[]` entries, packed in 64-bit lanes;
`kingAtt_eq_mask` below proves each lane equals `kingMaskAt`. -/
def kingTableN : Nat := 264156953404303221942965456845520169943338131686959457571923483305847700807756015278523080229634291642515512720379625415998002953236261368416231289172962087581631836949632484485374128384042241167767238328839609345999581058902843519220522533010089460509691504134318410705948550815871684624129262584144679450375577516853549321385304640527173977257963981185058145004392430004920757193513662022124161582037751993358113738392556746340778223921459532777419462161470159266292566629421223289735171488785910795161776385657266694147649333362115172351610523231845668460090962715276894573444254369990775232331132268849557724313065912683493668947829856478151951159284505866793138560624849509035187602156442778386411887663101274153823504021964272696893363867973003949169458187179211139044512649965423452258986954306563254194786172624618451824331366376025123799638401059200901742783754479523040980614231175115032572832547924504908033089381101247160924230235416582352026291471553731394765306357524221954697451753155896736924948517990760551476725952332195597056043425041586896526499384433277760923261309259860007430758778948226609719614370898027585215358197905351625343647359059509511991184097756641626351018122181186174494715689259616627757261259522

/-- Table lookup `knightAttacks[sq]`. -/
def knightAtt (sq : Nat) : Nat := (knightTableN >>> (64 * sq)) &&& MASK64

/-- Table lookup `kingAttacks[sq]`. -/
def kingAtt (sq : Nat) : Nat := (kingTableN >>> (64 * sq)) &&& MASK64

/-- One step of a sliding ray, per direction: the result 64 signals
that the walk left the board (the `rr`/`ff` bounds checks of the
source loops).  North = +1 rank; on input 64 every step yields 64. -/
def stepN (sq : Nat) : Nat := bif Nat.ble (sq / 8 + 1) 7 then sq + 8 else 64

def stepS (sq : Nat) : Nat := bif Nat.ble 1 (sq / 8) && Nat.ble sq 63 then sq - 8 else 64

def stepE (sq : Nat) : Nat := bif Nat.ble (sq % 8 + 1) 7 then sq + 1 else 64

def stepW (sq : Nat) : Nat := bif Nat.ble 1 (sq % 8) then sq - 1 else 64

def stepNE (sq : Nat) : Nat :=
  bif Nat.ble (sq / 8 + 1) 7 && Nat.ble (sq % 8 + 1) 7 then sq + 9 else 64

def stepNW (sq : Nat) : Nat :=
  bif Nat.ble (sq / 8 + 1) 7 && Nat.ble 1 (sq % 8) then sq + 7 else 64

def stepSE (sq : Nat) : Nat :=
  bif Nat.ble 1 (sq / 8) && Nat.ble (sq % 8 + 1) 7 then sq - 7 else 64

def stepSW (sq : Nat) : Nat :=
  bif Nat.ble 1 (sq / 8) && Nat.ble 1 (sq % 8) then sq - 9 else 64

/-- One square of a ray walk: 64 keeps the result `false` (the walk
left the board), a blocker decides against `targets`, and an empty
square defers to the continuation. -/
def raySq (occAll targets : Nat) (k : Nat → Bool) (s : Nat) : Bool :=
  bif s == 64 then false
  else bif occAll.testBit s then targets.testBit s else k s

/-- Walk one sliding ray: stop at the first occupied square and report
whether it belongs to `targets` (the ray loops of `inCheck` and
`attackedBy`, unrolled to the geometric maximum of seven steps). -/
def rayHit (occAll targets : Nat) (step : Nat → Nat) (sq : Nat) : Bool :=
  raySq occAll targets (fun s1 =>
    raySq occAll targets (fun s2 =>
      raySq occAll targets (fun s3 =>
        raySq occAll targets (fun s4 =>
          raySq occAll targets (fun s5 =>
            raySq occAll targets (fun s6 =>
              raySq occAll targets (fun _ => false) (step s6)) (step s5)) (step s4))
          (step s3)) (step s2)) (step s1)) (step sq)

/-- All squares on the ray from each square in direction N, packed
in 64-bit lanes; `rayTabN_spec` below ties each lane to `stepN`. -/
def rayTabN : Nat := 38947040667281689383310015378538001764698135463371523459206000656292916333210645379146484052140904581074341816516878696810804559304482979175338404103803922560401511175492923435024172581684911646169055554265620637872375925126877019029006910295375813129422619963975065031857864468068943232762127067575381130679380151905931394878848370247042163252615399162124822194531243694897953959918229966610936957119451232877491967199448162971904637563684624325838541703708741188804819779328932691834574686289296678943551612377858849106677563637744842734898969382222711434569125511419222312385034008573635215175855786670416176065806717740860469157921163179125775681386109166416847555648062799688707784613919232954348058514303181118406800383851416630388813426189982497673112506286576497965656883732715037268059936510315441366045980603428557459941631114981792015090628178339701386203727009256438564845381232586632618611367551086849690653775286674535719735603907613268213856110531615015914609472658613458716069677053351835611194120130356247588837248845959688629142333461544919755708601859265593600

/-- All squares on the ray from each square in direction S, packed
in 64-bit lanes; `rayTabS_spec` below ties each lane to `stepS`. -/
def rayTabS : Nat := 2047821336104220572992654201917439531400305081967526347201206946666321023534605062310463285137918741584705353343512066274400637846302610331122406963996507968441901417990723248943416900972077612242500638755197184230626288639877359410864363210984272102677918502150751004259958336088177857595299777858693826551078012911854952667860220360231110156576418672063360027917240977560141536990510590867210623960991939993957112163350639412197383554273413725019902635903846525608537575872875701804235833560718917716762735337575497043303210297365288390849549278699234107558988849190321192123901549982159401267340965597112608256257559151136561120609529364734034235263524582007091786214633728301515556114265911060042451733644837742870385858177951523117636672198667192734974049117809780917123605132025548063441467713794526188216929559179605482695982385092353914728628936550632399227239149870840822338407009395531280810558567067086795697803459121620906679404338417605260652259643649695571802307387841742298969990444124786252484945525074763418087511847983264684188634161447238749807634244404776784371911494504126958551656805010871455184684297096471715602160959175509241425739437149930925350208475283827815679353945607473680227169645125148780108185600

/-- All squares on the ray from each square in direction E, packed
in 64-bit lanes; `rayTabE_spec` below ties each lane to `stepE`. -/
def rayTabE : Nat := 28308217353696145249217191649726837303262630506725702224674117562350850637635905208738675597916192897771951770525197526975382009120457733308954403204949076945785621901549326980021031414741243640376609277495955962448723283699978488881784325804156039128272450929238851896655238678845602312268421294752413636336303646606308191881008877730459285450159023927368222635836670616119646148202335827343581431512231420767039704850328291694501443486321110868621152006530963810636539565713249548278887465194638524632271907845699346140689710580991782023350055313764200172559392760426936620437370066720365267250664554529741070779695604189374016110925733607481985975472651616887102846438423910504295170697214288213687897002776693960984719571862027731139460296411605709540430438846126972055467917693353567410640748233519132062411444076153808547526167228791204682576729705322380062067129240645480554334078928908235835612646572164729392740683135122980382101587373852416101718281154029990895600363800148050736632864594592825141465444595534354004029991634877317980355308025329273305787534460511240800770878372021773350278862694842849507117571498597524979532195054429871880873813661978405875187227625088358531581634016237754559328420094

/-- All squares on the ray from each square in direction W, packed
in 64-bit lanes; `rayTabW_spec` below ties each lane to `stepW`. -/
def rayTabW : Nat := 518114796638556126380544647060847698784616924420292898730539143827446982520573991179809080140098048320571883179680652027840245677719465871997717747605251407399102929212766104086502415574071204404640108771786059643782008220195514369211981977657665591902091966360405378318503954942036122548115575289335526362450895057819825877359772155198435824810783407454721327734525121927189045726964003028671900412255563549006439108629622866372952509122713318400993871967704625897412711526137085003372445040665071361255651487777942048038650497852106518213171708535922584135058745571855383339285100446741132830779390766675736644849047719525770041366534126193103980799831341886471191247070752188261321690913900128435178115832017401430561734531174190950336811945086544898859625364879787495116654026828893728840008614247361650236271222544430284083255565249856895628128042499260445757442008226211689107700052309665701494636370299496833081555012202488387442438430730412740991581672362339031345875856568133082557893039401978379011256167095077858282130169625081346446270383512142502137839879439986106669120797263054969612475122913741905942536046417123238075836254992791210662011990727031402195663782781250555272873767931239729567105900424683917522476466176

/-- All squares on the ray from each square in direction NE, packed
in 64-bit lanes; `rayTabNE_spec` below ties each lane to `stepNE`. -/
def rayTabNE : Nat := 2111323305167404895032395134196940697420720340540742553277534510942140050607286387744517726759377447829114201060655384287428966563525909391324616015484483905815579891498870265333479335666594762342947856163188409987874023759512855081230871127000098891972789118427987235661497362760085503403843890902411918472566697675307413079566177363351228966712518530412168442393432711037101570539716024327271584228315173717236782477831035290668267460336428679102317392304482307890737481462403996978129835117578944376007013444350457535074472045163231243133356917698756543444903291697117520188021655160169091707831360283924741803000947740469638022268799558579106431913837470479068071991634214709668712599420548244170235607799987009092915528878243819131412665617581791509274261468862514415467798482660384225198951048968377232568923374836092323673572016482860747072250525508605504942861743288427526207717589224765747383201426432168434501714781942149564801925693331832175332991564932774101283292164905932393983791514855002533544800988920683257830098444079616466251125475412017664

/-- All squares on the ray from each square in direction NW, packed
in 64-bit lanes; `rayTabNW_spec` below ties each lane to `stepNW`. -/
def rayTabNW : Nat := 19473520333640844691655007689269000882349067731685761729603000328146458166605322689573242026070452290537170908258439348405402279652241489378356086884561619419917717007675860129999897080646898580490217715808025863732409699888576518360751648195965655667745235294947941214641413291556330735175722004755423466855192659539055536198379090608681587702202650917033173984990001198642027241386849312141470338721104411875333912082042409990317844897390667959759455979553323723697343934038821764311231615974239697747477293524339928741186896860207349578408931402695589413064629308163784684602398800085479113963207636113582214526175874305723242790444945349053897218355229503638712689737468316120892006594817837560842011422579809099359994889330678914996764116629742447499756040218643080541551464388794357349664205849426350012506691955236185667061954673040513516946318457283983391830467742538667640858659451666624631735855105568861598421001398140162735159927352158199462330528109272701510742530970920864542797373787903179381802718260097505569560114534330372337711035792032817210253912584906342400

/-- All squares on the ray from each square in direction SE, packed
in 64-bit lanes; `rayTabSE_spec` below ties each lane to `stepSE`. -/
def rayTabSE : Nat := 110578974037875567373783572696162228710268246369993375079981750168656723510359426568448880954555554176227928563064935635402438628925973111636012886533581644541475126862058248836793642594260497256692128021580203842133433777295242678367329955381987751216262881868397775096385662455704273677908947099649369811810060901016045605198665634699514551159803213130650716714242503790925217431971310802931336726763982525222973208248313203735954708054056406402986851323112706560381087430444790126816690104437429073557846205401238137462017792311492233583480224485864782162208946664849271513466590503691514257860951842913226678996650015499652878679882691000633020199989094985475286374647767174782267906661601455915120983081603491479658100155333670093498855412557579798912484555035488836564957016794666706295222232793856639947846380127525615703552727837091839212186436787947805378035847517934647465347542628572503077791964569088071831319665749578232056183391631541341380410418488138788115723904458048336137510069752626648129898184800608580004698238646720018092623977108431187370834296046949762651042127191386252126101335842576949051330948970174875903397564751428612852267577666949892014727586955578769003781273635261199725625344

/-- All squares on the ray from each square in direction SW, packed
in 64-bit lanes; `rayTabSW_spec` below ties each lane to `stepSW`. -/
def rayTabSW : Nat := 1021906928975687384155409059349839476779416729137354786864700570586805668738669216642276931366121362281736875498067644902134269892410264974696112889860334708270614862870744658839423074335091186599858858609753963611363771833688447793087294205724879590579228391731606048318848630538495472045419153950385005631169740768034386854273822775320626501353930745314316828106212775390059909092619158733923355374426334009606117257192044799516173958372133796471203139935663298470521735270401712644865810997392798594741949061459114545611167116860341973389591172326593109638468688769899295216028362160295207642522694009589399746823577397174187069976082854058407376793783240667529126836316324739796747510079337792701968192931661261439928862609025206762605033937017939050172856135956467298138569855132720403511310145773142215341652912871937103218916527614985379182958387349902709717455578805075009000368761564842948415833241446213047920520273723672509204124103177793659422105152788753562549472371774308954861608254069879142284908556607108800238238657793271816278483510230610951530966412868864903814923687693295289132127518298401647318370578928456650342834310548395781771708114261936303296339488613786438816647096092618808343474011912050066975621120

/-- Extract the 64-bit ray mask of `sq` from a packed ray table. -/
def rayOf (table sq : Nat) : Nat := (table >>> (64 * sq)) &&& MASK64

/-- Ray walk with a quick rejection: when no target piece lies anywhere
on the ray, the walk cannot hit one, so it is skipped (the theorem
`fastRay_eq_rayHit` below proves this equal to the plain walk). -/
def fastRay (occAll targets : Nat) (step : Nat → Nat) (mask sq : Nat) : Bool :=
  bif targets &&& mask == 0 then false else rayHit occAll targets step sq

/-- The four diagonal rays (directions (1,1),(1,-1),(-1,1),(-1,-1)). -/
def diagHit (occAll targets sq : Nat) : Bool :=
  fastRay occAll targets stepNE (rayOf rayTabNE sq) sq ||
  fastRay occAll targets stepNW (rayOf rayTabNW sq) sq ||
  fastRay occAll targets stepSE (rayOf rayTabSE sq) sq ||
  fastRay occAll targets stepSW (rayOf rayTabSW sq) sq

/-- The four orthogonal rays (directions (1,0),(-1,0),(0,1),(0,-1)). -/
def orthoHit (occAll targets sq : Nat) : Bool :=
  fastRay occAll targets stepN (rayOf rayTabN sq) sq ||
  fastRay occAll targets stepS (rayOf rayTabS sq) sq ||
  fastRay occAll targets stepE (rayOf rayTabE sq) sq ||
  fastRay occAll targets stepW (rayOf rayTabW sq) sq

/-- Body of `Board::inCheck` once the king square is known: pawn attack
patterns, the knight/king delta loops (equivalently, the precomputed
masks intersected with the attacker bitboards), and the eight ray
walks. -/
def inCheckAux (b : Board) (c : Nat) (kingSquare : Nat) : Bool :=
  let kingMask := 1 <<< kingSquare
  let pawnHit :=
    bif c == WHITE then
      ((((getP b BP &&& compl64 FILE_H) >>> 7) |||
        ((getP b BP &&& compl64 FILE_A) >>> 9)) &&& kingMask) != 0
    else
      (((((getP b WP &&& compl64 FILE_A) <<< 7) % U64) |||
        (((getP b WP &&& compl64 FILE_H) <<< 9) % U64)) &&& kingMask) != 0
  let knightHit :=
    (knightAtt kingSquare &&& (bif c == WHITE then getP b BN else getP b WN)) != 0
  let kingHit :=
    (kingAtt kingSquare &&& (bif c == WHITE then getP b BK else getP b WK)) != 0
  let dHit := diagHit b.occAll
    (bif c == WHITE then getP b BB ||| getP b BQ else getP b WB ||| getP b WQ) kingSquare
  let oHit := orthoHit b.occAll
    (bif c == WHITE then getP b BR ||| getP b BQ else getP b WR ||| getP b WQ) kingSquare
  pawnHit || knightHit || kingHit || dHit || oHit

/-- `Board::inCheck`: true if side `c`'s king is attacked; `false` when
that king's bitboard is empty. -/
def inCheck (b : Board) (c : Nat) : Bool :=
  bif c == WHITE then
    (bif getP b WK == 0 then false else inCheckAux b c (lsb (getP b WK)))
  else
    (bif getP b BK == 0 then false else inCheckAux b c (lsb (getP b BK)))

/-- `attackedBy` of movegen.cpp: true if `sq` is attacked by side
`by_`. -/
def attackedBy (b : Board) (sq : Nat) (by_ : Nat) : Bool :=
  let target := 1 <<< sq
  let pawnHit :=
    bif by_ == WHITE then
      (((((getP b WP &&& compl64 FILE_A) <<< 7) % U64) |||
        (((getP b WP &&& compl64 FILE_H) <<< 9) % U64)) &&& target) != 0
    else
      ((((getP b BP &&& compl64 FILE_H) >>> 7) |||
        ((getP b BP &&& compl64 FILE_A) >>> 9)) &&& target) != 0
  let knightHit :=
    (knightAtt sq &&& (bif by_ == WHITE then getP b WN else getP b BN)) != 0
  let kingHit :=
    (kingAtt sq &&& (bif by_ == WHITE then getP b WK else getP b BK)) != 0
  let dHit := diagHit b.occAll
    (bif by_ == WHITE then getP b WB ||| getP b WQ else getP b BB ||| getP b BQ) sq
  let oHit := orthoHit b.occAll
    (bif by_ == WHITE then getP b WR ||| getP b WQ else getP b BR ||| getP b BQ) sq
  pawnHit || knightHit || kingHit || dHit || oHit

-- ---------------------------------------------------------------------
-- Move generation (movegen.cpp)
-- ---------------------------------------------------------------------

/-- Serialize the set bits of a 64-bit mask into moves. -/
def serMask (mask : Nat) (f : Nat → Move) : List Move := popAux f 64 mask

/-- `pushMovesFromMask`: flat moves `from → to` for every bit of mask. -/
def pushMovesFromMask (fromSq : Nat) (mask : Nat) : List Move :=
  serMask mask (fun t => ⟨fromSq, t, 0, 0⟩)

/-- `slideInDirection`'s walk along one direction: quiet moves until a
blocker, which is included only when it is an enemy piece (fuel 8
covers the geometric maximum of seven steps). -/
def slideDir (occAll occTheirs fromSq : Nat) (step : Nat → Nat) (fuel : Nat) :
    Nat → List Move :=
  Nat.rec (motive := fun _ => Nat → List Move)
    (fun _ => [])
    (fun _ ih sq =>
      let t := step sq
      bif t == 64 then []
      else bif occAll.testBit t then
        (bif occTheirs.testBit t then [⟨fromSq, t, 0, 0⟩] else [])
      else
        ⟨fromSq, t, 0, 0⟩ :: ih t)
    fuel

/-- The four diagonal `slideInDirection` calls of a bishop or queen, in
source order (1,1), (1,-1), (-1,1), (-1,-1). -/
def slideDiag (occAll occTheirs fromSq : Nat) : List Move :=
  catList (slideDir occAll occTheirs fromSq stepNE 8 fromSq)
    (catList (slideDir occAll occTheirs fromSq stepNW 8 fromSq)
      (catList (slideDir occAll occTheirs fromSq stepSE 8 fromSq)
        (slideDir occAll occTheirs fromSq stepSW 8 fromSq)))

/-- The four orthogonal `slideInDirection` calls of a rook or queen, in
source order (1,0), (-1,0), (0,1), (0,-1). -/
def slideOrtho (occAll occTheirs fromSq : Nat) : List Move :=
  catList (slideDir occAll occTheirs fromSq stepN 8 fromSq)
    (catList (slideDir occAll occTheirs fromSq stepS 8 fromSq)
      (catList (slideDir occAll occTheirs fromSq stepE 8 fromSq)
        (slideDir occAll occTheirs fromSq stepW 8 fromSq)))

/-- White pawn pushes and captures (singles, doubles from rank 2, then
captures toward NW and NE), in source emission order. -/
def wPawnMoves (wp occAll occBlack : Nat) : List Move :=
  let empty := compl64 occAll
  let singles := ((wp <<< 8) % U64) &&& empty
  let doubles := (((singles &&& ((RANK_2 <<< 8) % U64)) <<< 8) % U64) &&& empty
  catList (serMask singles (fun t => ⟨t - 8, t, 0, 0⟩))
    (catList (serMask doubles (fun t => ⟨t - 16, t, 0, 0⟩))
      (catList
        (serMask ((((wp &&& compl64 FILE_A) <<< 7) % U64) &&& occBlack) (fun t => ⟨t - 7, t, 0, 0⟩))
        (serMask ((((wp &&& compl64 FILE_H) <<< 9) % U64) &&& occBlack) (fun t => ⟨t - 9, t, 0, 0⟩))))

/-- Black pawn pushes and captures (singles, doubles from rank 7, then
captures toward SE and SW), in source emission order. -/
def bPawnMoves (bp occAll occWhite : Nat) : List Move :=
  let empty := compl64 occAll
  let singles := (bp >>> 8) &&& empty
  let doubles := ((singles &&& (RANK_7 >>> 8)) >>> 8) &&& empty
  catList (serMask singles (fun t => ⟨t + 8, t, 0, 0⟩))
    (catList (serMask doubles (fun t => ⟨t + 16, t, 0, 0⟩))
      (catList
        (serMask (((bp &&& compl64 FILE_H) >>> 7) &&& occWhite) (fun t => ⟨t + 7, t, 0, 0⟩))
        (serMask (((bp &&& compl64 FILE_A) >>> 9) &&& occWhite) (fun t => ⟨t + 9, t, 0, 0⟩))))

/-- White en-passant capture candidates from the stored target. -/
def wEpMoves (wp : Nat) (ep : Int) : List Move :=
  if ep ≠ -1 then
    let epsq := ep.toNat
    let epMask := 1 <<< epsq
    catList
      (if (wp &&& compl64 FILE_A) &&& (epMask >>> 7) ≠ 0 then
        [⟨epsq - 7, epsq, 0, MF_ENPASSANT ||| MF_CAPTURE⟩] else [])
      (if (wp &&& compl64 FILE_H) &&& (epMask >>> 9) ≠ 0 then
        [⟨epsq - 9, epsq, 0, MF_ENPASSANT ||| MF_CAPTURE⟩] else [])
  else []

/-- Black en-passant capture candidates from the stored target. -/
def bEpMoves (bp : Nat) (ep : Int) : List Move :=
  if ep ≠ -1 then
    let epsq := ep.toNat
    let epMask := 1 <<< epsq
    catList
      (if (bp &&& compl64 FILE_H) &&& ((epMask <<< 7) % U64) ≠ 0 then
        [⟨epsq + 7, epsq, 0, MF_ENPASSANT ||| MF_CAPTURE⟩] else [])
      (if (bp &&& compl64 FILE_A) &&& ((epMask <<< 9) % U64) ≠ 0 then
        [⟨epsq + 9, epsq, 0, MF_ENPASSANT ||| MF_CAPTURE⟩] else [])
  else []

/-- Knight moves: for each knight, quiet moves then captures. -/
def knightMoves (kn occAll occTheirs : Nat) : List Move :=
  bindRec (fun fromSq =>
    let attacks := knightAtt fromSq
    catList (pushMovesFromMask fromSq (attacks &&& compl64 occAll))
      (pushMovesFromMask fromSq (attacks &&& occTheirs))) (bitsOf kn)

/-- King moves from the king's square: quiets then captures. -/
def kingMoves (kb occAll occTheirs : Nat) : List Move :=
  let fromSq := lsb kb
  let attacks := kingAtt fromSq
  catList (pushMovesFromMask fromSq (attacks &&& compl64 occAll))
    (pushMovesFromMask fromSq (attacks &&& occTheirs))

/-- White castling generation: king on e1; for each side, the right
held, the two squares between king and rook empty, the rook on its
corner, and e1 plus the transit and landing squares unattacked. -/
def wCastleMoves (b : Board) : List Move :=
  bif getP b WK &&& (1 <<< 4) != 0 then
    catList
      (bif b.castleRights &&& (1 <<< 0) != 0 &&
          b.occAll &&& ((1 <<< 5) ||| (1 <<< 6)) == 0 && getP b WR &&& (1 <<< 7) != 0 then
        bif !attackedBy b 4 BLACK && !attackedBy b 5 BLACK &&
            !attackedBy b 6 BLACK then [⟨4, 6, 0, MF_CASTLE⟩] else []
       else [])
      (bif b.castleRights &&& (1 <<< 1) != 0 &&
          b.occAll &&& ((1 <<< 3) ||| (1 <<< 2)) == 0 && getP b WR &&& (1 <<< 0) != 0 then
        bif !attackedBy b 4 BLACK && !attackedBy b 3 BLACK &&
            !attackedBy b 2 BLACK then [⟨4, 2, 0, MF_CASTLE⟩] else []
       else [])
  else []

/-- Black castling generation, mirroring `wCastleMoves` on e8. -/
def bCastleMoves (b : Board) : List Move :=
  bif getP b BK &&& (1 <<< 60) != 0 then
    catList
      (bif b.castleRights &&& (1 <<< 2) != 0 &&
          b.occAll &&& ((1 <<< 61) ||| (1 <<< 62)) == 0 && getP b BR &&& (1 <<< 63) != 0 then
        bif !attackedBy b 60 WHITE && !attackedBy b 61 WHITE &&
            !attackedBy b 62 WHITE then [⟨60, 62, 0, MF_CASTLE⟩] else []
       else [])
      (bif b.castleRights &&& (1 <<< 3) != 0 &&
          b.occAll &&& ((1 <<< 59) ||| (1 <<< 58)) == 0 && getP b BR &&& (1 <<< 56) != 0 then
        bif !attackedBy b 60 WHITE && !attackedBy b 59 WHITE &&
            !attackedBy b 58 WHITE then [⟨60, 58, 0, MF_CASTLE⟩] else []
       else [])
  else []

/-- The pseudo-legal move list for White, in source emission order:
pawns, en passant, knights, bishops, rooks, queens, king, castling. -/
def pseudoWhite (b : Board) : List Move :=
  catList (wPawnMoves (getP b WP) b.occAll b.occB)
    (catList (wEpMoves (getP b WP) b.epSquare)
      (catList (knightMoves (getP b WN) b.occAll b.occB)
        (catList (bindRec (fun f => slideDiag b.occAll b.occB f) (bitsOf (getP b WB)))
          (catList (bindRec (fun f => slideOrtho b.occAll b.occB f) (bitsOf (getP b WR)))
            (catList (bindRec
                (fun f => catList (slideDiag b.occAll b.occB f) (slideOrtho b.occAll b.occB f))
                (bitsOf (getP b WQ)))
              (catList (kingMoves (getP b WK) b.occAll b.occB) (wCastleMoves b)))))))

/-- The pseudo-legal move list for Black, in source emission order. -/
def pseudoBlack (b : Board) : List Move :=
  catList (bPawnMoves (getP b BP) b.occAll b.occW)
    (catList (bEpMoves (getP b BP) b.epSquare)
      (catList (knightMoves (getP b BN) b.occAll b.occW)
        (catList (bindRec (fun f => slideDiag b.occAll b.occW f) (bitsOf (getP b BB)))
          (catList (bindRec (fun f => slideOrtho b.occAll b.occW f) (bitsOf (getP b BR)))
            (catList (bindRec
                (fun f => catList (slideDiag b.occAll b.occW f) (slideOrtho b.occAll b.occW f))
                (bitsOf (getP b BQ)))
              (catList (kingMoves (getP b BK) b.occAll b.occW) (bCastleMoves b)))))))

/-- Phase 1 of `generateMoves`: the pseudo-legal enumeration. -/
def pseudoMoves (b : Board) : List Move :=
  if b.stm = WHITE then pseudoWhite b else pseudoBlack b

/-- `generateMoves`: pseudo-legal enumeration followed by the legality
filter (trial-apply on a copy; keep the move when the mover's own king
is not in check afterwards). -/
def generateMoves (b : Board) : List Move :=
  filtRec (fun m => !(inCheck (makeMove b m) b.stm)) (pseudoMoves b)

/-- The node-summing loop of `perft`: `nodes += perft(b, depth-1)` over
the generated moves, `f` being the recursion at one less depth. -/
def pfold (f : Board → Nat) (b : Board) : List Move → Nat → Nat
  | [], nodes => nodes
  | m :: rest, nodes => pfold f b rest (nodes + f (makeMove b m))

/-- `perft`: recursive leaf count; depth 0 returns 1.  (The C++ loop
applies each move to the shared board and relies on `unmakeMove` to
restore it before the next iteration; functionally each recursive call
receives `makeMove b m`.) -/
def perft (b : Board) : Nat → Nat
  | 0 => 1
  | depth + 1 => pfold (fun c => perft c depth) b (generateMoves b) 0

-- ---------------------------------------------------------------------
-- Concrete positions used in the verification
-- ---------------------------------------------------------------------

/-- The position after 1.f3 e5 2.g4 Qh4# (fool's mate): White to move,
in check, with no legal reply. -/
def foolsMate : Board :=
  makeMove (makeMove (makeMove (makeMove startBoard ⟨13, 21, 0, 0⟩)
    ⟨52, 36, 0, 0⟩) ⟨14, 30, 0, 0⟩) ⟨59, 31, 0, 0⟩

/-- White king e1, white pawn a7, black king e8, White to move: the
pawn can push to the last rank. -/
def promoBoard : Board :=
  set_occ { initBoard with pcs :=
    (lane WP (1 <<< 48)) ||| (lane WK (1 <<< 4)) ||| (lane BK (1 <<< 60)) }

/-- White king e1, rook a1, knight b1, black king e8, queenside
castling right only: the b1 square is occupied. -/
def castleBug : Board :=
  set_occ { initBoard with
    pcs := (lane WN (1 <<< 1)) ||| (lane WR (1 <<< 0)) |||
           (lane WK (1 <<< 4)) ||| (lane BK (1 <<< 60)),
    castleRights := 2 }

/-- The position after 1.e4 d5: the pawn on e4 can capture the pawn on
d5. -/
def capPos : Board :=
  makeMove (makeMove startBoard ⟨12, 28, 0, 0⟩) ⟨51, 35, 0, 0⟩

-- ---------------------------------------------------------------------
-- Static evaluation (eval.cpp)
-- ---------------------------------------------------------------------

def PST_PAWN : List Int :=
  [ 0,  0,  0,  0,  0,  0,  0,  0,
   10, 10, 10, 10, 10, 10, 10, 10,
    2,  2,  4,  6,  6,  4,  2,  2,
    1,  1,  2,  5,  5,  2,  1,  1,
    0,  0,  1,  4,  4,  1,  0,  0,
    1, -1,  0,  2,  2,  0, -1,  1,
    1,  2,  2, -2, -2,  2,  2,  1,
    0,  0,  0,  0,  0,  0,  0,  0]

def PST_KNIGHT : List Int :=
  [-5, -4, -3, -3, -3, -3, -4, -5,
   -4, -2,  0,  0,  0,  0, -2, -4,
   -3,  0,  1,  2,  2,  1,  0, -3,
   -3,  1,  2,  3,  3,  2,  1, -3,
   -3,  0,  2,  3,  3,  2,  0, -3,
   -3,  1,  1,  2,  2,  1,  1, -3,
   -4, -2,  0,  1,  1,  0, -2, -4,
   -5, -4, -3, -3, -3, -3, -4, -5]

def PST_BISHOP : List Int :=
  [-2, -1, -1, -1, -1, -1, -1, -2,
   -1,  0,  0,  0,  0,  0,  0, -1,
   -1,  0,  1,  1,  1,  1,  0, -1,
   -1,  1,  1,  2,  2,  1,  1, -1,
   -1,  0,  1,  2,  2,  1,  0, -1,
   -1,  1,  1,  1,  1,  1,  1, -1,
   -1,  0,  0,  0,  0,  0,  0, -1,
   -2, -1, -1, -1, -1, -1, -1, -2]

def PST_ROOK : List Int :=
  [ 0,  0,  1,  2,  2,  1,  0,  0,
   -1,  0,  0,  0,  0,  0,  0, -1,
   -1,  0,  0,  0,  0,  0,  0, -1,
   -1,  0,  0,  0,  0,  0,  0, -1,
   -1,  0,  0,  0,  0,  0,  0, -1,
   -1,  0,  0,  0,  0,  0,  0, -1,
    1,  2,  2,  2,  2,  2,  2,  1,
    0,  0,  0,  1,  1,  0,  0,  0]

def PST_QUEEN : List Int :=
  [-2, -1, -1,  0,  0, -1, -1, -2,
   -1,  0,  0,  0,  0,  0,  0, -1,
   -1,  0,  1,  1,  1,  1,  0, -1,
    0,  0,  1,  1,  1,  1,  0,  0,
   -1,  0,  1,  1,  1,  1,  0, -1,
   -1,  0,  1,  1,  1,  1,  0, -1,
   -1,  0,  0,  0,  0,  0,  0, -1,
   -2, -1, -1,  0,  0, -1, -1, -2]

def PST_KING : List Int :=
  [-3, -4, -4, -5, -5, -4, -4, -3,
   -3, -4, -4, -5, -5, -4, -4, -3,
   -3, -4, -4, -5, -5, -4, -4, -3,
   -3, -4, -4, -5, -5, -4, -4, -3,
   -2, -3, -3, -4, -4, -3, -3, -2,
   -1, -2, -2, -2, -2, -2, -2, -1,
    2,  2,  0,  0,  0,  0,  2,  2,
    2,  3,  1,  0,  0,  1,  3,  2]

/-- `pstSum`: piece-square-table total over the set bits of a bitboard,
mirrored through `sq ^ 56` for Black. -/
def pstSum (pst : List Int) (pieces : Nat) (isWhite : Bool) : Int :=
  (bitsOf pieces).foldl
    (fun s sq => s + pst.getD (if isWhite then sq else sq ^^^ 56) 0) 0

/-- `eval`: material balance plus piece-square tables, reported from the
side to move's perspective. -/
def eval (b : Board) : Int :=
  let score : Int :=
    (popcount64 (getP b WP) : Int) * 100 + (popcount64 (getP b WN) : Int) * 320 +
    (popcount64 (getP b WB) : Int) * 330 + (popcount64 (getP b WR) : Int) * 500 +
    (popcount64 (getP b WQ) : Int) * 900 -
    ((popcount64 (getP b BP) : Int) * 100 + (popcount64 (getP b BN) : Int) * 320 +
     (popcount64 (getP b BB) : Int) * 330 + (popcount64 (getP b BR) : Int) * 500 +
     (popcount64 (getP b BQ) : Int) * 900)
  let pstWhite :=
    pstSum PST_PAWN (getP b WP) true + pstSum PST_KNIGHT (getP b WN) true +
    pstSum PST_BISHOP (getP b WB) true + pstSum PST_ROOK (getP b WR) true +
    pstSum PST_QUEEN (getP b WQ) true + pstSum PST_KING (getP b WK) true
  let pstBlack :=
    pstSum PST_PAWN (getP b BP) false + pstSum PST_KNIGHT (getP b BN) false +
    pstSum PST_BISHOP (getP b BB) false + pstSum PST_ROOK (getP b BR) false +
    pstSum PST_QUEEN (getP b BQ) false + pstSum PST_KING (getP b BK) false
  let score := score + pstWhite - pstBlack
  if b.stm = WHITE then score else -score

-- ---------------------------------------------------------------------
-- Search (search.cpp)
-- ---------------------------------------------------------------------

/-- `pieceValueForMVV`: fixed material values for capture ordering. -/
def pieceValueForMVV (p : Nat) : Int :=
  if p = WP ∨ p = BP then 100
  else if p = WN ∨ p = BN then 320
  else if p = WB ∨ p = BB then 330
  else if p = WR ∨ p = BR then 500
  else if p = WQ ∨ p = BQ then 900
  else 0

/-- `isCapture`: the destination holds an opposing piece, or the move is
flagged en passant. -/
def isCapture (b : Board) (m : Move) : Bool :=
  let them := if b.stm = WHITE then BLACK else WHITE
  (occOf b them &&& (1 <<< m.toSq)) ≠ 0 || (m.flags &&& MF_ENPASSANT) ≠ 0

/-- `mvvLva`: 0 for non-captures; otherwise victim value times 10 minus
attacker value, the en-passant victim resolving to the opposing pawn. -/
def mvvLva (b : Board) (m : Move) : Int :=
  if !(isCapture b m) then 0
  else
    let victim :=
      if m.flags &&& MF_ENPASSANT ≠ 0 then (if b.stm = WHITE then BP else WP)
      else piece_at b m.toSq
    let attacker := piece_at b m.fromSq
    pieceValueForMVV victim * 10 - pieceValueForMVV attacker

/-- Insertion of one move into an ordering-score-descending sorted
list, before the first move that does not beat it: with the
right-to-left fold in `sortMoves` this computes exactly the stable
descending sort `std::stable_sort(begin, end, mvvLva(a) > mvvLva(z))`:
the theorems for the move-ordering claim prove the output is a
permutation, is sorted by descending score, and preserves the input
order of equal-score moves. -/
def insDesc (b : Board) (mv : Move) : List Move → List Move
  | [] => [mv]
  | x :: xs => if mvvLva b mv < mvvLva b x then x :: insDesc b mv xs else mv :: x :: xs

/-- `std::stable_sort` with comparator `mvvLva(a) > mvvLva(z)`: stable
descending sort by ordering score. -/
def sortMoves (b : Board) (l : List Move) : List Move :=
  l.foldr (insDesc b) []

/-- The alpha-beta move loop of `negamax`, with break on alpha ≥ beta.
`f` is the recursive search at one less depth; returns (bestScore,
nodes). -/
def searchLoop (f : Board → Int → Int → Int × Nat) (b : Board) :
    List Move → Int → Int → Int → Nat → Int × Nat
  | [], _, _, best, nodes => (best, nodes)
  | mv :: rest, alpha, beta, best, nodes =>
    let r := f (makeMove b mv) (-beta) (-alpha)
    let score := -r.1
    let nodes1 := nodes + r.2
    let best1 := if best < score then score else best
    let alpha1 := if alpha < score then score else alpha
    if beta ≤ alpha1 then (best1, nodes1)
    else searchLoop f b rest alpha1 beta best1 nodes1

/-- `negamax`: fail-soft alpha-beta; depth 0 evaluates the leaf; with no
legal move returns the ply-adjusted mate score when in check, else 0.
Returns (score, nodes counted). -/
def negamax (b : Board) : Nat → Int → Int → Int × Nat
  | 0, _, _ => (eval b, 1)
  | depth + 1, alpha, beta =>
    let legalMoves := generateMoves b
    if legalMoves.isEmpty then
      ((if inCheck b b.stm then -100000 + (b.ply : Int) else 0), 1)
    else
      searchLoop (fun b2 a2 b3 => negamax b2 depth a2 b3) b
        (sortMoves b legalMoves) alpha beta (-10000000) 0

/-- The move loop of `chooseBestMove` (no beta cutoff; tracks the move
achieving the best score).  Returns (bestMove, nodes). -/
def chooseLoop (f : Board → Int → Int → Int × Nat) (b : Board) :
    List Move → Int → Int → Int → Move → Nat → Move × Nat
  | [], _, _, _, bestMove, nodes => (bestMove, nodes)
  | mv :: rest, alpha, beta, best, bestMove, nodes =>
    let r := f (makeMove b mv) (-beta) (-alpha)
    let score := -r.1
    let nodes1 := nodes + r.2
    let best1 := if best < score then score else best
    let bestMove1 := if best < score then mv else bestMove
    let alpha1 := if alpha < score then score else alpha
    chooseLoop f b rest alpha1 beta best1 bestMove1 nodes1

/-- `chooseBestMove`: the single best move at the given depth, used only
to reconstruct the root principal variation; the empty move when no
legal move exists. -/
def chooseBestMove (b : Board) (depth : Nat) : Move × Nat :=
  let legalMoves := generateMoves b
  if legalMoves.isEmpty then (⟨0, 0, 0, 0⟩, 0)
  else
    chooseLoop (fun b2 a2 b3 => negamax b2 (depth - 1) a2 b3) b
      (sortMoves b legalMoves) (-10000000) 10000000 (-10000000) ⟨0, 0, 0, 0⟩ 0

/-- `struct SearchResult`. -/
structure SearchResult where
  best : Move
  score : Int
  nodes : Nat
  pv : List Move
deriving DecidableEq, Repr

/-- The root move loop of `search_root` (no cutoff; accumulates child
node counts).  Returns (bestScore, bestMove, nodes). -/
def rootLoop (f : Board → Int → Int → Int × Nat) (b : Board) :
    List Move → Int → Int → Int → Move → Nat → Int × Move × Nat
  | [], _, _, best, bestMove, nodes => (best, bestMove, nodes)
  | mv :: rest, alpha, beta, best, bestMove, nodes =>
    let r := f (makeMove b mv) (-beta) (-alpha)
    let score := -r.1
    let nodes1 := nodes + r.2
    let best1 := if best < score then score else best
    let bestMove1 := if best < score then mv else bestMove
    let alpha1 := if alpha < score then score else alpha
    rootLoop f b rest alpha1 beta best1 bestMove1 nodes1

/-- The principal-variation walk of `search_root`: while depth remains,
pick `chooseBestMove` on the walk position, stopping at the empty move
(its probe nodes still counted, as in the source).  Returns (pv tail,
extra nodes). -/
def pvWalk (walk : Board) : Nat → List Move × Nat
  | 0 => ([], 0)
  | d + 1 =>
    let r := chooseBestMove walk (d + 1)
    if r.1.fromSq = 0 ∧ r.1.toSq = 0 then ([], r.2)
    else
      let rest := pvWalk (makeMove walk r.1) d
      (r.1 :: rest.1, r.2 + rest.2)

/-- `search_root`: fixed-depth root search returning best move, score,
node count and the reconstructed principal variation (empty when the
best move is the empty move). -/
def search_root (b : Board) (depth : Nat) : SearchResult :=
  let legalMoves := generateMoves b
  let res := rootLoop (fun b2 a2 b3 => negamax b2 (depth - 1) a2 b3) b
    (sortMoves b legalMoves) (-10000000) 10000000 (-10000000) ⟨0, 0, 0, 0⟩ 0
  let bestScore := res.1
  let bestMove := res.2.1
  let nodes0 := res.2.2
  if bestMove.fromSq ≠ 0 ∨ bestMove.toSq ≠ 0 then
    let w := pvWalk (makeMove b bestMove) (depth - 1)
    { best := bestMove, score := bestScore, nodes := nodes0 + w.2,
      pv := bestMove :: w.1 }
  else
    { best := bestMove, score := bestScore, nodes := nodes0, pv := [] }


-- ---------------------------------------------------------------------
-- Auxiliary definitions for the verification development
-- ---------------------------------------------------------------------

/-- Fuel-indexed form of the unrolled `rayHit` walk (used only in the
proof of `fastRay_eq_rayHit`). -/
def rayIter (occAll targets : Nat) (step : Nat → Nat) : Nat → Nat → Bool
  | 0, _ => false
  | n + 1, s => raySq occAll targets (fun t => rayIter occAll targets step n (step t)) s

/-- The capturedPiece computation of `Board::makeMove` (en passant
forces the opposing pawn; otherwise whatever sits on the target). -/
def capOf (b : Board) (m : Move) : Nat :=
  bif m.flags &&& MF_ENPASSANT != 0 then (bif b.stm == WHITE then BP else WP)
  else piece_at b m.toSq

/-- No square is held by two of the twelve piece bitboards. -/
def lanesDisjoint (b : Board) : Bool :=
  (List.range 12).all (fun p => (List.range p).all (fun q => getP b p &&& getP b q == 0))

/-- Soundness of a stored en-passant target: it lies on the proper rank
for the side to move, the doubled pawn stands behind it and the target
square itself is empty. -/
def epOK (b : Board) : Bool :=
  bif b.epSquare == -1 then true
  else
    bif b.stm == WHITE then
      Nat.ble 40 b.epSquare.toNat && Nat.blt b.epSquare.toNat 48 &&
      (getP b BP).testBit (b.epSquare.toNat - 8) && !b.occAll.testBit b.epSquare.toNat
    else
      Nat.ble 16 b.epSquare.toNat && Nat.blt b.epSquare.toNat 24 &&
      (getP b WP).testBit (b.epSquare.toNat + 8) && !b.occAll.testBit b.epSquare.toNat

/-- The position invariant: the occupancies are the unions `set_occ`
computes, no square is held twice, the side to move is WHITE or BLACK,
and the en-passant target is sound. -/
def Inv (b : Board) : Prop :=
  b.occW = (getP b WP ||| getP b WN ||| getP b WB ||| getP b WR ||| getP b WQ ||| getP b WK) ∧
  b.occB = (getP b BP ||| getP b BN ||| getP b BB ||| getP b BR ||| getP b BQ ||| getP b BK) ∧
  b.occAll = (b.occW ||| b.occB) ∧
  lanesDisjoint b = true ∧
  (b.stm = WHITE ∨ b.stm = BLACK) ∧
  epOK b = true

/-- Positions reachable from the standard start by `makeMove` of
generated legal moves, and by `unmakeMove` of the just-made move. -/
inductive Reachable : Board → Prop where
  | start : Reachable startBoard
  | mk : ∀ {b : Board} (m : Move), Reachable b → m ∈ generateMoves b → Reachable (makeMove b m)
  | undo : ∀ {b : Board} (m : Move), Reachable b → m ∈ generateMoves b →
      Reachable (unmakeMove (makeMove b m) m)

/-- What the generator guarantees about an emitted pseudo-legal move:
the promotion field is empty, the origin is on the board, and per flag
kind the origin piece, destination occupancy and (for double pushes,
en passant and castling) the side conditions the make/unmake analysis
relies on. -/
def MoveOK (b : Board) (m : Move) : Prop :=
  m.promo = 0 ∧ m.fromSq < 64 ∧
  ((m.flags = 0 ∧ m.toSq < 64 ∧
    (b.occAll.testBit m.toSq = false ∨
      (if b.stm = WHITE then b.occB else b.occW).testBit m.toSq = true) ∧
    (piece_at b m.fromSq = WP → m.toSq = m.fromSq + 16 →
      (b.stm = WHITE ∧ 8 ≤ m.fromSq ∧ m.fromSq < 16 ∧ (getP b WP).testBit m.fromSq = true ∧
       b.occAll.testBit (m.fromSq + 8) = false ∧ b.occAll.testBit (m.fromSq + 16) = false)) ∧
    (piece_at b m.fromSq = BP → m.fromSq = m.toSq + 16 →
      (b.stm ≠ WHITE ∧ 48 ≤ m.fromSq ∧ m.fromSq < 56 ∧ (getP b BP).testBit m.fromSq = true ∧
       b.occAll.testBit (m.fromSq - 8) = false ∧ b.occAll.testBit (m.fromSq - 16) = false))) ∨
   (m.flags = (MF_ENPASSANT ||| MF_CAPTURE) ∧ b.epSquare ≠ -1 ∧ m.toSq = b.epSquare.toNat ∧
    (b.stm = WHITE → (getP b WP).testBit m.fromSq = true ∧ 7 ≤ m.toSq ∧
      (m.fromSq = m.toSq - 7 ∨ m.fromSq = m.toSq - 9)) ∧
    (b.stm ≠ WHITE → (getP b BP).testBit m.fromSq = true ∧
      (m.fromSq = m.toSq + 7 ∨ m.fromSq = m.toSq + 9))) ∨
   (m.flags = MF_CASTLE ∧ b.stm = WHITE ∧ m.fromSq = 4 ∧ (getP b WK).testBit 4 = true ∧
    ((m.toSq = 6 ∧ (getP b WR).testBit 7 = true ∧
      b.occAll.testBit 5 = false ∧ b.occAll.testBit 6 = false) ∨
     (m.toSq = 2 ∧ (getP b WR).testBit 0 = true ∧
      b.occAll.testBit 3 = false ∧ b.occAll.testBit 2 = false))) ∨
   (m.flags = MF_CASTLE ∧ b.stm ≠ WHITE ∧ m.fromSq = 60 ∧ (getP b BK).testBit 60 = true ∧
    ((m.toSq = 62 ∧ (getP b BR).testBit 63 = true ∧
      b.occAll.testBit 61 = false ∧ b.occAll.testBit 62 = false) ∨
     (m.toSq = 58 ∧ (getP b BR).testBit 56 = true ∧
      b.occAll.testBit 59 = false ∧ b.occAll.testBit 58 = false))))

-- =====================================================================
-- Theorems
-- =====================================================================

-- Basic facts about the List.rec-based combinators.

theorem catList_eq {a : Type} (l1 l2 : List a) : catList l1 l2 = l1 ++ l2 := by
  induction l1 with
  | nil => rfl
  | cons x t ih =>
    show x :: catList t l2 = (x :: t) ++ l2
    rw [ih]; rfl

theorem filtRec_eq {a : Type} (p : a → Bool) (l : List a) :
    filtRec p l = l.filter p := by
  induction l with
  | nil => rfl
  | cons x t ih =>
    have h : filtRec p (x :: t) = bif p x then x :: filtRec p t else filtRec p t := rfl
    rw [h, List.filter_cons, ih]
    cases p x <;> simp

theorem mem_catList {a : Type} {m : a} {l1 l2 : List a} :
    m ∈ catList l1 l2 ↔ m ∈ l1 ∨ m ∈ l2 := by
  rw [catList_eq]; exact List.mem_append

theorem mem_filtRec {a : Type} {m : a} {p : a → Bool} {l : List a} :
    m ∈ filtRec p l → m ∈ l := by
  rw [filtRec_eq]; exact List.mem_of_mem_filter

theorem mem_bindRec {a b : Type} {m : b} {f : a → List b} {l : List a} :
    m ∈ bindRec f l ↔ ∃ x ∈ l, m ∈ f x := by
  induction l with
  | nil => simp [bindRec]
  | cons x t ih =>
    show m ∈ catList (f x) (bindRec f t) ↔ _
    rw [mem_catList, ih]
    simp

-- The de Bruijn least-significant-bit computation.

theorem testBit_two_mul_zero (a : Nat) : (2 * a).testBit 0 = false := by
  simp [Nat.testBit_zero, Nat.mul_mod_right]

theorem testBit_two_mul_succ (a i : Nat) : (2 * a).testBit (i + 1) = a.testBit i := by
  rw [Nat.testBit_succ]
  congr 1
  omega

theorem testBit_two_mul_add_one_zero (a : Nat) : (2 * a + 1).testBit 0 = true := by
  simp [Nat.testBit_zero, Nat.mul_add_mod]

theorem testBit_two_mul_add_one_succ (a i : Nat) :
    (2 * a + 1).testBit (i + 1) = a.testBit i := by
  rw [Nat.testBit_succ]
  congr 1
  omega

theorem two_mul_land (a b : Nat) : (2 * a) &&& (2 * b) = 2 * (a &&& b) := by
  apply Nat.eq_of_testBit_eq
  intro i
  cases i with
  | zero => simp [Nat.testBit_land, testBit_two_mul_zero]
  | succ j => simp [Nat.testBit_land, testBit_two_mul_succ]

theorem two_mul_xor (a b : Nat) : (2 * a) ^^^ (2 * b) = 2 * (a ^^^ b) := by
  apply Nat.eq_of_testBit_eq
  intro i
  cases i with
  | zero => simp [Nat.testBit_xor, testBit_two_mul_zero]
  | succ j => simp [Nat.testBit_xor, testBit_two_mul_succ]

theorem odd_land_pred (y : Nat) : (2 * y + 1) &&& (2 * y) = 2 * y := by
  apply Nat.eq_of_testBit_eq
  intro i
  cases i with
  | zero => simp [Nat.testBit_land, testBit_two_mul_zero]
  | succ j =>
    simp [Nat.testBit_land, testBit_two_mul_succ, testBit_two_mul_add_one_succ]

/-- The isolated low bit of a nonzero natural is the power of two at
its least significant set bit. -/
theorem lowbit_two_pow (x : Nat) (hx : x ≠ 0) :
    ∃ k, lowbit x = 2 ^ k ∧ x.testBit k = true := by
  induction x using Nat.strong_induction_on with
  | _ x ih =>
    rcases Nat.even_or_odd x with he | ho
    · obtain ⟨y, hy⟩ := he
      have hy2 : x = 2 * y := by omega
      have hyne : y ≠ 0 := by omega
      obtain ⟨k, hk1, hk2⟩ := ih y (by omega) hyne
      refine ⟨k + 1, ?_, ?_⟩
      · have hsub : 2 * y - 1 = 2 * (y - 1) + 1 := by omega
        have hland : (2 * y) &&& (2 * y - 1) = 2 * (y &&& (y - 1)) := by
          rw [hsub]
          apply Nat.eq_of_testBit_eq
          intro i
          cases i with
          | zero => simp [Nat.testBit_land, testBit_two_mul_zero]
          | succ j =>
            simp [Nat.testBit_land, testBit_two_mul_succ, testBit_two_mul_add_one_succ]
        show x ^^^ (x &&& (x - 1)) = 2 ^ (k + 1)
        rw [hy2, hland, two_mul_xor]
        have : y ^^^ (y &&& (y - 1)) = 2 ^ k := hk1
        rw [this]
        ring
      · rw [hy2, testBit_two_mul_succ]
        exact hk2
    · obtain ⟨y, hy⟩ := ho
      refine ⟨0, ?_, ?_⟩
      · show x ^^^ (x &&& (x - 1)) = 1
        have hx1 : x - 1 = 2 * y := by omega
        rw [hx1, hy, odd_land_pred]
        apply Nat.eq_of_testBit_eq
        intro i
        cases i with
        | zero =>
          rw [Nat.testBit_xor, testBit_two_mul_add_one_zero, testBit_two_mul_zero]
          simp [Nat.testBit_zero]
        | succ j =>
          rw [Nat.testBit_xor, testBit_two_mul_add_one_succ, testBit_two_mul_succ]
          rw [Nat.testBit_succ]
          simp [Nat.zero_testBit]
      · rw [hy]
        exact testBit_two_mul_add_one_zero y

theorem two_pow_le_of_testBit {x k : Nat} (h : x.testBit k = true) : 2 ^ k ≤ x := by
  by_contra hlt
  rw [Nat.testBit_lt_two_pow (by omega)] at h
  exact Bool.false_ne_true h

theorem testBit_lt_of_lt {x k n : Nat} (hx : x < 2 ^ n) (h : x.testBit k = true) :
    k < n := by
  by_contra hk
  have h2 : 2 ^ n ≤ 2 ^ k := Nat.pow_le_pow_right (by omega) (by omega)
  have := two_pow_le_of_testBit h
  omega

/-- The de Bruijn table is correct on every 64-bit power of two. -/
theorem db_correct : ∀ k, k < 64 →
    ((dbTable >>> (6 * (((2 ^ k * 285870213051386505) % U64) >>> 58))) &&& 63) = k := by
  decide!

/-- `lsb` returns the index of a set bit (the least one) of any nonzero
64-bit value. -/
theorem lsb_spec {x : Nat} (hx : x ≠ 0) (hlt : x < U64) :
    x.testBit (lsb x) = true ∧ lsb x < 64 := by
  obtain ⟨k, hk1, hk2⟩ := lowbit_two_pow x hx
  have hk64 : k < 64 := testBit_lt_of_lt hlt hk2
  have : lsb x = k := by
    show (dbTable >>> (6 * (((lowbit x * 285870213051386505) % U64) >>> 58))) &&& 63 = k
    rw [hk1]
    exact db_correct k hk64
  rw [this]
  exact ⟨hk2, hk64⟩


-- Serialization membership.

theorem popAux_succ {a : Type} (f : Nat → a) (fuel mask : Nat) :
    popAux f (fuel + 1) mask =
      (bif mask == 0 then []
       else f (lsb mask) :: popAux f fuel (mask ^^^ (1 <<< lsb mask))) := rfl

theorem mem_popAux {a : Type} {m : a} {f : Nat → a} :
    ∀ fuel mask, mask < U64 → m ∈ popAux f fuel mask →
      ∃ i, i < 64 ∧ mask.testBit i = true ∧ m = f i := by
  intro fuel
  induction fuel with
  | zero => intro mask _ h; cases h
  | succ n ih =>
    intro mask hlt h
    rw [popAux_succ] at h
    by_cases hm : mask = 0
    · simp [hm] at h
    · have hbeq : (mask == 0) = false := by simp [hm]
      rw [hbeq] at h
      simp only [cond] at h
      rcases List.mem_cons.mp h with h1 | h2
      · obtain ⟨hbit, h64⟩ := lsb_spec hm hlt
        exact ⟨lsb mask, h64, hbit, h1⟩
      · have hs64 : lsb mask < 64 := (lsb_spec hm hlt).2
        have hshift : (1 <<< lsb mask) = 2 ^ lsb mask := by
          rw [Nat.shiftLeft_eq, one_mul]
        have hlt2 : mask ^^^ (1 <<< lsb mask) < U64 := by
          have h1 : mask < 2 ^ 64 := hlt
          have h2 : (1 <<< lsb mask) < 2 ^ 64 := by
            rw [hshift]
            exact Nat.pow_lt_pow_right (by omega) hs64
          have := Nat.xor_lt_two_pow h1 h2
          exact this
        obtain ⟨i, hi64, hibit, him⟩ := ih (mask ^^^ (1 <<< lsb mask)) hlt2 h2
        refine ⟨i, hi64, ?_, him⟩
        rw [Nat.testBit_xor] at hibit
        by_cases hieq : i = lsb mask
        · rw [hieq, hshift, Nat.testBit_two_pow_self, (lsb_spec hm hlt).1] at hibit
          simp at hibit
        · rw [hshift, Nat.testBit_two_pow_of_ne (Ne.symm hieq)] at hibit
          simpa using hibit

theorem mem_serMask {m : Move} {mask : Nat} {f : Nat → Move} (hlt : mask < U64) :
    m ∈ serMask mask f → ∃ i, i < 64 ∧ mask.testBit i = true ∧ m = f i :=
  mem_popAux 64 mask hlt

theorem mem_bitsOf {i mask : Nat} (hlt : mask < U64) :
    i ∈ bitsOf mask → i < 64 ∧ mask.testBit i = true := by
  intro h
  obtain ⟨j, hj64, hjbit, hij⟩ := mem_popAux 64 mask hlt h
  subst hij
  exact ⟨hj64, hjbit⟩

-- Claim C9.

/-- Claim C9: `loadFEN` returns true exactly on the string "startpos";
on any other input it returns false and leaves the board fully cleared
(empty bitboards and occupancies, White to move, no en-passant target,
no castling rights, ply 0) rather than preserving the previous
position. -/
theorem loadFEN_startpos_only (b : Board) (fen : String) :
    ((loadFEN b fen).1 = true ↔ fen = "startpos") ∧
    ((loadFEN b fen).1 = false →
      (loadFEN b fen).2.pcs = 0 ∧ (loadFEN b fen).2.occW = 0 ∧
      (loadFEN b fen).2.occB = 0 ∧ (loadFEN b fen).2.occAll = 0 ∧
      (loadFEN b fen).2.stm = WHITE ∧ (loadFEN b fen).2.epSquare = -1 ∧
      (loadFEN b fen).2.castleRights = 0 ∧ (loadFEN b fen).2.ply = 0) := by
  by_cases h : fen = "startpos"
  · simp [loadFEN, h]
  · simp [loadFEN, h, clearBoard]

-- Claim C5.

/-- Claim C5 (counterexample to the mate-score part): in the fool's
mate position White is in check with no legal reply, yet the root
search returns the loop sentinel -10000000, not a score within the
mate-score magnitude adjusted by ply. -/
theorem search_root_mate_sentinel_cex :
    generateMoves foolsMate = [] ∧ inCheck foolsMate WHITE = true ∧
    (search_root foolsMate 2).score = -10000000 ∧
    ¬((search_root foolsMate 2).score = -100000 + (foolsMate.ply : Int)) := by
  decide!

/-- Claim C5 (amended): with no legal move at the root, `search_root`
returns the empty/default move, an empty principal variation, zero
nodes, and the score -10000000 (the loop's initial sentinel), whether
or not the side to move is in check; the ply-adjusted mate score
-100000+ply is produced only by `negamax` at interior nodes. -/
theorem search_root_no_moves (b : Board) (depth : Nat)
    (h : generateMoves b = []) :
    search_root b depth = ⟨⟨0, 0, 0, 0⟩, -10000000, 0, []⟩ := by
  simp [search_root, h, sortMoves, rootLoop]

theorem search_root_no_moves_witness :
    search_root foolsMate 2 = ⟨⟨0, 0, 0, 0⟩, -10000000, 0, []⟩ :=
  search_root_no_moves foolsMate 2 (by decide)

-- Perft facts (start position, depths 0 to 3).

theorem perft_depth_zero (b : Board) : perft b 0 = 1 := rfl

theorem perft_start_one : perft startBoard 1 = 20 := by decide!

theorem perft_start_two : perft startBoard 2 = 400 := by decide!

theorem gen_startBoard : generateMoves startBoard =
    [⟨8, 16, 0, 0⟩, ⟨9, 17, 0, 0⟩, ⟨10, 18, 0, 0⟩, ⟨11, 19, 0, 0⟩, ⟨12, 20, 0, 0⟩, ⟨13, 21, 0, 0⟩, ⟨14, 22, 0, 0⟩, ⟨15, 23, 0, 0⟩, ⟨8, 24, 0, 0⟩, ⟨9, 25, 0, 0⟩, ⟨10, 26, 0, 0⟩, ⟨11, 27, 0, 0⟩, ⟨12, 28, 0, 0⟩, ⟨13, 29, 0, 0⟩, ⟨14, 30, 0, 0⟩, ⟨15, 31, 0, 0⟩, ⟨1, 16, 0, 0⟩, ⟨1, 18, 0, 0⟩, ⟨6, 21, 0, 0⟩, ⟨6, 23, 0, 0⟩] := by decide!


-- Claim C6: move ordering.

theorem sortMoves_nil (b : Board) : sortMoves b [] = [] := rfl

theorem sortMoves_cons (b : Board) (x : Move) (l : List Move) :
    sortMoves b (x :: l) = insDesc b x (sortMoves b l) := rfl

theorem perm_insDesc (b : Board) (mv : Move) (l : List Move) :
    (insDesc b mv l).Perm (mv :: l) := by
  induction l with
  | nil => exact List.Perm.refl _
  | cons x xs ih =>
    by_cases h : mvvLva b mv < mvvLva b x
    · simp only [insDesc, if_pos h]
      exact (ih.cons x).trans (List.Perm.swap mv x xs)
    · simp only [insDesc, if_neg h]
      exact List.Perm.refl _

theorem sorted_insDesc (b : Board) (mv : Move) (l : List Move)
    (h : List.Sorted (fun a z => mvvLva b z ≤ mvvLva b a) l) :
    List.Sorted (fun a z => mvvLva b z ≤ mvvLva b a) (insDesc b mv l) := by
  induction l with
  | nil => simp [insDesc]
  | cons x xs ih =>
    rw [List.sorted_cons] at h
    by_cases hc : mvvLva b mv < mvvLva b x
    · simp only [insDesc, if_pos hc]
      rw [List.sorted_cons]
      refine ⟨?_, ih h.2⟩
      intro z hz
      have hz2 : z ∈ mv :: xs := (perm_insDesc b mv xs).mem_iff.mp hz
      rcases List.mem_cons.mp hz2 with rfl | hzx
      · exact le_of_lt hc
      · exact h.1 z hzx
    · simp only [insDesc, if_neg hc]
      rw [List.sorted_cons]
      refine ⟨?_, List.sorted_cons.mpr h⟩
      intro z hz
      rcases List.mem_cons.mp hz with rfl | hzx
      · exact le_of_not_lt hc
      · exact le_trans (h.1 z hzx) (le_of_not_lt hc)

theorem filter_insDesc (b : Board) (mv : Move) (l : List Move) (s : Int) :
    List.filter (fun x => mvvLva b x == s) (insDesc b mv l) =
      (bif mvvLva b mv == s then
        mv :: List.filter (fun x => mvvLva b x == s) l
      else List.filter (fun x => mvvLva b x == s) l) := by
  induction l with
  | nil =>
    simp only [insDesc]
    cases h : (mvvLva b mv == s) <;> simp [List.filter, h]
  | cons x xs ih =>
    by_cases hc : mvvLva b mv < mvvLva b x
    · simp only [insDesc, if_pos hc]
      rw [List.filter_cons, List.filter_cons, ih]
      cases hm : (mvvLva b mv == s)
      · cases hxb : (mvvLva b x == s) <;> simp [hm, hxb]
      · have h1 : mvvLva b mv = s := eq_of_beq hm
        have hxb : (mvvLva b x == s) = false := by
          have h2 : ¬(mvvLva b x = s) := by omega
          simpa [beq_iff_eq] using h2
        simp [hm, hxb]
    · simp only [insDesc, if_neg hc]
      cases hm : (mvvLva b mv == s) <;> simp [List.filter_cons, hm]

/-- Claim C6 (counterexample): after 1.e4 d5 the capture e4xd5 is a
pawn-takes-pawn capture, its ordering score is 900 = 10·100 − 100, and
not 100·100 − 100 = 9900 as the claim's formula states. -/
theorem mvvLva_hundredfold_cex :
    isCapture capPos ⟨28, 35, 0, 0⟩ = true ∧
    piece_at capPos 35 = BP ∧ piece_at capPos 28 = WP ∧
    mvvLva capPos ⟨28, 35, 0, 0⟩ = 900 ∧
    ¬(mvvLva capPos ⟨28, 35, 0, 0⟩ =
        100 * pieceValueForMVV (piece_at capPos 35) -
          pieceValueForMVV (piece_at capPos 28)) := by
  decide

/-- Claim C6 (amended): the move-ordering score of a non-capture is 0;
a capture scores ten times the fixed material value of the victim
(pawn 100, knight 320, bishop 330, rook 500, queen 900) minus the
value of the attacker, an en-passant victim resolving to the opposing
pawn; and the moves are stable-sorted in descending score order (the
sorted output is a permutation of the input that keeps equal-score
moves in their input order). -/
theorem mvvLva_tenfold_and_stable_sort (b : Board) (m : Move) (l : List Move) (s : Int) :
    (mvvLva b m = if isCapture b m = true then
        pieceValueForMVV (if m.flags &&& MF_ENPASSANT ≠ 0 then
          (if b.stm = WHITE then BP else WP) else piece_at b m.toSq) * 10 -
          pieceValueForMVV (piece_at b m.fromSq)
      else 0) ∧
    (sortMoves b l).Perm l ∧
    List.Sorted (fun a z => mvvLva b z ≤ mvvLva b a) (sortMoves b l) ∧
    List.filter (fun x => mvvLva b x == s) (sortMoves b l) =
      List.filter (fun x => mvvLva b x == s) l := by
  refine ⟨?_, ?_, ?_, ?_⟩
  · by_cases hc : isCapture b m <;> simp [mvvLva, hc]
  · induction l with
    | nil => exact List.Perm.refl _
    | cons x xs ih =>
      rw [sortMoves_cons]
      exact (perm_insDesc b x (sortMoves b xs)).trans (ih.cons x)
  · induction l with
    | nil => simp [sortMoves_nil]
    | cons x xs ih =>
      rw [sortMoves_cons]
      exact sorted_insDesc b x (sortMoves b xs) ih
  · induction l with
    | nil => rfl
    | cons x xs ih =>
      rw [sortMoves_cons, filter_insDesc, List.filter_cons, ih]
      cases h : (mvvLva b x == s) <;> simp [h]

-- Claim C2: queenside castling does not check the knight square.

/-- Claim C2 (code bug): with White's king on e1, rook on a1, a knight
still on b1, d1 and c1 empty and the queenside right held, the
generator emits the queenside castling move e1c1 even though b1 — a
square between the king's origin and the rook's home — is occupied. -/
theorem castle_through_occupied_b1 :
    (⟨4, 2, 0, MF_CASTLE⟩ : Move) ∈ generateMoves castleBug ∧
    castleBug.occAll.testBit 1 = true ∧
    castleBug.castleRights &&& (1 <<< 1) ≠ 0 ∧
    castleBug.occAll &&& ((1 <<< 3) ||| (1 <<< 2)) = 0 ∧
    getP castleBug WR &&& (1 <<< 0) ≠ 0 ∧
    getP castleBug WK &&& (1 <<< 4) ≠ 0 := by
  decide

-- Claim C3: promotions are never generated.

/-- Claim C3 (code bug): with a White pawn on a7 able to push to a8,
the generator emits only the plain pawn move a7a8 with promotion piece
0 — no promotion variants (queen/rook/bishop/knight) are generated for
any move of the position. -/
theorem promotion_variants_missing :
    (⟨48, 56, 0, 0⟩ : Move) ∈ generateMoves promoBoard ∧
    (generateMoves promoBoard).all (fun m => m.promo == 0) = true ∧
    getP promoBoard WP = 1 <<< 48 ∧ getP promoBoard WK = 1 <<< 4 := by
  decide


-- Shape of generated moves (for C7 and C10): membership helpers.

theorem mem_bif {a : Type} {m : a} {c : Bool} {l1 l2 : List a}
    (h : m ∈ (bif c then l1 else l2)) : m ∈ l1 ∨ m ∈ l2 := by
  cases c
  · exact Or.inr h
  · exact Or.inl h

theorem mem_ite_list {a : Type} {m : a} {c : Prop} [Decidable c] {l1 l2 : List a}
    (h : m ∈ (if c then l1 else l2)) : m ∈ l1 ∨ m ∈ l2 := by
  by_cases hc : c
  · rw [if_pos hc] at h; exact Or.inl h
  · rw [if_neg hc] at h; exact Or.inr h

theorem mem_popAux_shape {a : Type} {m : a} {f : Nat → a} :
    ∀ fuel mask, m ∈ popAux f fuel mask → ∃ i, m = f i := by
  intro fuel
  induction fuel with
  | zero => intro mask h; cases h
  | succ n ih =>
    intro mask h
    rw [popAux_succ] at h
    rcases mem_bif h with h | h
    · cases h
    · rcases List.mem_cons.mp h with h | h
      · exact ⟨lsb mask, h⟩
      · exact ih _ h

theorem mem_serMask_shape {m : Move} {mask : Nat} {f : Nat → Move}
    (h : m ∈ serMask mask f) : ∃ i, m = f i :=
  mem_popAux_shape 64 mask h

theorem pushMovesFromMask_shape {m : Move} {fromSq mask : Nat}
    (h : m ∈ pushMovesFromMask fromSq mask) : m.promo = 0 ∧ m.flags = 0 := by
  obtain ⟨i, hi⟩ := mem_serMask_shape h
  rw [hi]; exact ⟨rfl, rfl⟩

theorem slideDir_shape {occAll occTheirs fromSq : Nat} {step : Nat → Nat} {m : Move} :
    ∀ fuel sq, m ∈ slideDir occAll occTheirs fromSq step fuel sq →
      m.promo = 0 ∧ m.flags = 0 := by
  intro fuel
  induction fuel with
  | zero => intro sq h; cases h
  | succ n ih =>
    intro sq h
    have hu : slideDir occAll occTheirs fromSq step (n + 1) sq =
        (bif step sq == 64 then []
         else bif occAll.testBit (step sq) then
           (bif occTheirs.testBit (step sq) then [⟨fromSq, step sq, 0, 0⟩] else [])
         else ⟨fromSq, step sq, 0, 0⟩ :: slideDir occAll occTheirs fromSq step n (step sq)) := rfl
    rw [hu] at h
    rcases mem_bif h with h | h
    · cases h
    · rcases mem_bif h with h | h
      · rcases mem_bif h with h | h
        · rw [List.mem_singleton] at h; subst h; exact ⟨rfl, rfl⟩
        · cases h
      · rcases List.mem_cons.mp h with h | h
        · subst h; exact ⟨rfl, rfl⟩
        · exact ih _ h

theorem slideDiag_shape {occAll occTheirs fromSq : Nat} {m : Move}
    (h : m ∈ slideDiag occAll occTheirs fromSq) : m.promo = 0 ∧ m.flags = 0 := by
  unfold slideDiag at h
  rcases mem_catList.mp h with h | h
  · exact slideDir_shape _ _ h
  rcases mem_catList.mp h with h | h
  · exact slideDir_shape _ _ h
  rcases mem_catList.mp h with h | h
  · exact slideDir_shape _ _ h
  · exact slideDir_shape _ _ h

theorem slideOrtho_shape {occAll occTheirs fromSq : Nat} {m : Move}
    (h : m ∈ slideOrtho occAll occTheirs fromSq) : m.promo = 0 ∧ m.flags = 0 := by
  unfold slideOrtho at h
  rcases mem_catList.mp h with h | h
  · exact slideDir_shape _ _ h
  rcases mem_catList.mp h with h | h
  · exact slideDir_shape _ _ h
  rcases mem_catList.mp h with h | h
  · exact slideDir_shape _ _ h
  · exact slideDir_shape _ _ h

theorem wPawnMoves_shape {wp occAll occBlack : Nat} {m : Move}
    (h : m ∈ wPawnMoves wp occAll occBlack) : m.promo = 0 ∧ m.flags = 0 := by
  unfold wPawnMoves at h
  rcases mem_catList.mp h with h | h
  · obtain ⟨i, hi⟩ := mem_serMask_shape h; rw [hi]; exact ⟨rfl, rfl⟩
  rcases mem_catList.mp h with h | h
  · obtain ⟨i, hi⟩ := mem_serMask_shape h; rw [hi]; exact ⟨rfl, rfl⟩
  rcases mem_catList.mp h with h | h
  · obtain ⟨i, hi⟩ := mem_serMask_shape h; rw [hi]; exact ⟨rfl, rfl⟩
  · obtain ⟨i, hi⟩ := mem_serMask_shape h; rw [hi]; exact ⟨rfl, rfl⟩

theorem bPawnMoves_shape {bp occAll occWhite : Nat} {m : Move}
    (h : m ∈ bPawnMoves bp occAll occWhite) : m.promo = 0 ∧ m.flags = 0 := by
  unfold bPawnMoves at h
  rcases mem_catList.mp h with h | h
  · obtain ⟨i, hi⟩ := mem_serMask_shape h; rw [hi]; exact ⟨rfl, rfl⟩
  rcases mem_catList.mp h with h | h
  · obtain ⟨i, hi⟩ := mem_serMask_shape h; rw [hi]; exact ⟨rfl, rfl⟩
  rcases mem_catList.mp h with h | h
  · obtain ⟨i, hi⟩ := mem_serMask_shape h; rw [hi]; exact ⟨rfl, rfl⟩
  · obtain ⟨i, hi⟩ := mem_serMask_shape h; rw [hi]; exact ⟨rfl, rfl⟩

theorem knightMoves_shape {kn occAll occTheirs : Nat} {m : Move}
    (h : m ∈ knightMoves kn occAll occTheirs) : m.promo = 0 ∧ m.flags = 0 := by
  unfold knightMoves at h
  obtain ⟨x, -, hx⟩ := mem_bindRec.mp h
  rcases mem_catList.mp hx with hx | hx <;> exact pushMovesFromMask_shape hx

theorem kingMoves_shape {kb occAll occTheirs : Nat} {m : Move}
    (h : m ∈ kingMoves kb occAll occTheirs) : m.promo = 0 ∧ m.flags = 0 := by
  unfold kingMoves at h
  rcases mem_catList.mp h with h | h <;> exact pushMovesFromMask_shape h

theorem wEpMoves_shape {wp : Nat} {ep : Int} {m : Move} (h : m ∈ wEpMoves wp ep) :
    m.promo = 0 ∧ m.flags = (MF_ENPASSANT ||| MF_CAPTURE) ∧ m.toSq = ep.toNat := by
  unfold wEpMoves at h
  by_cases h1 : ep = -1
  · rw [if_neg (not_not_intro h1)] at h; cases h
  · rw [if_pos h1] at h
    rcases mem_catList.mp h with h | h <;>
      rcases mem_ite_list h with h | h <;>
      first
        | (rw [List.mem_singleton] at h; subst h; exact ⟨rfl, rfl, rfl⟩)
        | cases h

theorem bEpMoves_shape {bp : Nat} {ep : Int} {m : Move} (h : m ∈ bEpMoves bp ep) :
    m.promo = 0 ∧ m.flags = (MF_ENPASSANT ||| MF_CAPTURE) ∧ m.toSq = ep.toNat := by
  unfold bEpMoves at h
  by_cases h1 : ep = -1
  · rw [if_neg (not_not_intro h1)] at h; cases h
  · rw [if_pos h1] at h
    rcases mem_catList.mp h with h | h <;>
      rcases mem_ite_list h with h | h <;>
      first
        | (rw [List.mem_singleton] at h; subst h; exact ⟨rfl, rfl, rfl⟩)
        | cases h

theorem wCastleMoves_shape {b : Board} {m : Move} (h : m ∈ wCastleMoves b) :
    m.promo = 0 ∧ m.flags = MF_CASTLE ∧ m.fromSq = 4 ∧ (m.toSq = 6 ∨ m.toSq = 2) := by
  unfold wCastleMoves at h
  rcases mem_bif h with h | h
  · rcases mem_catList.mp h with h | h
    · rcases mem_bif h with h | h
      · rcases mem_bif h with h | h
        · rw [List.mem_singleton] at h; subst h
          exact ⟨rfl, rfl, rfl, Or.inl rfl⟩
        · cases h
      · cases h
    · rcases mem_bif h with h | h
      · rcases mem_bif h with h | h
        · rw [List.mem_singleton] at h; subst h
          exact ⟨rfl, rfl, rfl, Or.inr rfl⟩
        · cases h
      · cases h
  · cases h

theorem bCastleMoves_shape {b : Board} {m : Move} (h : m ∈ bCastleMoves b) :
    m.promo = 0 ∧ m.flags = MF_CASTLE ∧ m.fromSq = 60 ∧ (m.toSq = 62 ∨ m.toSq = 58) := by
  unfold bCastleMoves at h
  rcases mem_bif h with h | h
  · rcases mem_catList.mp h with h | h
    · rcases mem_bif h with h | h
      · rcases mem_bif h with h | h
        · rw [List.mem_singleton] at h; subst h
          exact ⟨rfl, rfl, rfl, Or.inl rfl⟩
        · cases h
      · cases h
    · rcases mem_bif h with h | h
      · rcases mem_bif h with h | h
        · rw [List.mem_singleton] at h; subst h
          exact ⟨rfl, rfl, rfl, Or.inr rfl⟩
        · cases h
      · cases h
  · cases h

theorem pseudoMoves_shape (b : Board) (m : Move) (h : m ∈ pseudoMoves b) :
    m.promo = 0 ∧
    (m.flags = 0 ∨
     (m.flags = (MF_ENPASSANT ||| MF_CAPTURE) ∧ m.toSq = b.epSquare.toNat) ∨
     (m.flags = MF_CASTLE ∧
       ((m.fromSq = 4 ∧ (m.toSq = 6 ∨ m.toSq = 2)) ∨
        (m.fromSq = 60 ∧ (m.toSq = 62 ∨ m.toSq = 58))))) := by
  unfold pseudoMoves at h
  by_cases hstm : b.stm = WHITE
  · rw [if_pos hstm] at h
    unfold pseudoWhite at h
    rcases mem_catList.mp h with h | h
    · obtain ⟨h1, h2⟩ := wPawnMoves_shape h; exact ⟨h1, Or.inl h2⟩
    rcases mem_catList.mp h with h | h
    · obtain ⟨h1, h2, h3⟩ := wEpMoves_shape h; exact ⟨h1, Or.inr (Or.inl ⟨h2, h3⟩)⟩
    rcases mem_catList.mp h with h | h
    · obtain ⟨h1, h2⟩ := knightMoves_shape h; exact ⟨h1, Or.inl h2⟩
    rcases mem_catList.mp h with h | h
    · obtain ⟨x, -, hx⟩ := mem_bindRec.mp h
      obtain ⟨h1, h2⟩ := slideDiag_shape hx; exact ⟨h1, Or.inl h2⟩
    rcases mem_catList.mp h with h | h
    · obtain ⟨x, -, hx⟩ := mem_bindRec.mp h
      obtain ⟨h1, h2⟩ := slideOrtho_shape hx; exact ⟨h1, Or.inl h2⟩
    rcases mem_catList.mp h with h | h
    · obtain ⟨x, -, hx⟩ := mem_bindRec.mp h
      rcases mem_catList.mp hx with hx | hx
      · obtain ⟨h1, h2⟩ := slideDiag_shape hx; exact ⟨h1, Or.inl h2⟩
      · obtain ⟨h1, h2⟩ := slideOrtho_shape hx; exact ⟨h1, Or.inl h2⟩
    rcases mem_catList.mp h with h | h
    · obtain ⟨h1, h2⟩ := kingMoves_shape h; exact ⟨h1, Or.inl h2⟩
    · obtain ⟨h1, h2, h3, h4⟩ := wCastleMoves_shape h
      exact ⟨h1, Or.inr (Or.inr ⟨h2, Or.inl ⟨h3, h4⟩⟩)⟩
  · rw [if_neg hstm] at h
    unfold pseudoBlack at h
    rcases mem_catList.mp h with h | h
    · obtain ⟨h1, h2⟩ := bPawnMoves_shape h; exact ⟨h1, Or.inl h2⟩
    rcases mem_catList.mp h with h | h
    · obtain ⟨h1, h2, h3⟩ := bEpMoves_shape h; exact ⟨h1, Or.inr (Or.inl ⟨h2, h3⟩)⟩
    rcases mem_catList.mp h with h | h
    · obtain ⟨h1, h2⟩ := knightMoves_shape h; exact ⟨h1, Or.inl h2⟩
    rcases mem_catList.mp h with h | h
    · obtain ⟨x, -, hx⟩ := mem_bindRec.mp h
      obtain ⟨h1, h2⟩ := slideDiag_shape hx; exact ⟨h1, Or.inl h2⟩
    rcases mem_catList.mp h with h | h
    · obtain ⟨x, -, hx⟩ := mem_bindRec.mp h
      obtain ⟨h1, h2⟩ := slideOrtho_shape hx; exact ⟨h1, Or.inl h2⟩
    rcases mem_catList.mp h with h | h
    · obtain ⟨x, -, hx⟩ := mem_bindRec.mp h
      rcases mem_catList.mp hx with hx | hx
      · obtain ⟨h1, h2⟩ := slideDiag_shape hx; exact ⟨h1, Or.inl h2⟩
      · obtain ⟨h1, h2⟩ := slideOrtho_shape hx; exact ⟨h1, Or.inl h2⟩
    rcases mem_catList.mp h with h | h
    · obtain ⟨h1, h2⟩ := kingMoves_shape h; exact ⟨h1, Or.inl h2⟩
    · obtain ⟨h1, h2, h3, h4⟩ := bCastleMoves_shape h
      exact ⟨h1, Or.inr (Or.inr ⟨h2, Or.inr ⟨h3, h4⟩⟩)⟩

theorem mem_generateMoves {b : Board} {m : Move} (h : m ∈ generateMoves b) :
    m ∈ pseudoMoves b :=
  mem_filtRec h


-- Claim C7: en-passant target life cycle.

theorem epAfterMove_spec (p : Nat) (m : Move) (hpromo : m.promo = 0)
    (hcastle : m.flags &&& MF_CASTLE = 0) :
    (epAfterMove p m ≠ -1 ↔
      (p = WP ∧ m.toSq = m.fromSq + 16) ∨ (p = BP ∧ m.fromSq = m.toSq + 16)) ∧
    (p = WP ∧ m.toSq = m.fromSq + 16 →
      epAfterMove p m = ((m.fromSq + 8 : Nat) : Int)) ∧
    (p = BP ∧ m.fromSq = m.toSq + 16 →
      epAfterMove p m = ((m.fromSq - 8 : Nat) : Int)) := by
  have h1 : (m.promo != 0) = false := by rw [hpromo]; rfl
  have h2 : (m.flags &&& MF_CASTLE != 0) = false := by rw [hcastle]; rfl
  simp only [epAfterMove, h1, h2, cond_false]
  cases hc1 : (p == WP && m.toSq == m.fromSq + 16)
  · cases hc2 : (p == BP && m.fromSq == m.toSq + 16)
    · simp only [cond_false]
      refine ⟨⟨fun hne => absurd rfl hne, fun hsh => ?_⟩, fun hsh => ?_, fun hsh => ?_⟩
      · exfalso
        rcases hsh with ⟨hp, ht⟩ | ⟨hp, ht⟩
        · simp [hp, ht] at hc1
        · simp [hp, ht] at hc2
      · exfalso; simp [hsh.1, hsh.2] at hc1
      · exfalso; simp [hsh.1, hsh.2] at hc2
    · simp only [cond_false, cond_true]
      have hc2e : p = BP ∧ m.fromSq = m.toSq + 16 := by
        simpa [Bool.and_eq_true, beq_iff_eq] using hc2
      obtain ⟨hp, ht⟩ := hc2e
      refine ⟨⟨fun _ => Or.inr ⟨hp, ht⟩, fun _ => by omega⟩, fun hsh => ?_, fun _ => by trivial⟩
      exfalso
      obtain ⟨hw, -⟩ := hsh
      subst hp
      exact absurd hw (by decide)
  · simp only [cond_true]
    have hc1e : p = WP ∧ m.toSq = m.fromSq + 16 := by
      simpa [Bool.and_eq_true, beq_iff_eq] using hc1
    obtain ⟨hp, ht⟩ := hc1e
    refine ⟨⟨fun _ => Or.inl ⟨hp, ht⟩, fun _ => by omega⟩, fun _ => by trivial, fun hsh => ?_⟩
    exfalso
    obtain ⟨hb, -⟩ := hsh
    subst hp
    exact absurd hb (by decide)

theorem ep_iff (b : Board) (m : Move) (h : m ∈ generateMoves b) :
    ((makeMove b m).epSquare ≠ -1 ↔
      (piece_at b m.fromSq = WP ∧ m.toSq = m.fromSq + 16) ∨
      (piece_at b m.fromSq = BP ∧ m.fromSq = m.toSq + 16)) ∧
    (piece_at b m.fromSq = WP ∧ m.toSq = m.fromSq + 16 →
      (makeMove b m).epSquare = ((m.fromSq + 8 : Nat) : Int)) ∧
    (piece_at b m.fromSq = BP ∧ m.fromSq = m.toSq + 16 →
      (makeMove b m).epSquare = ((m.fromSq - 8 : Nat) : Int)) := by
  obtain ⟨hpromo, hflags⟩ := pseudoMoves_shape b m (mem_generateMoves h)
  have hep : (makeMove b m).epSquare = epAfterMove (piece_at b m.fromSq) m := rfl
  rcases hflags with h0 | ⟨h3, -⟩ | ⟨h4, hft⟩
  · rw [hep]; exact epAfterMove_spec _ m hpromo (by rw [h0]; rfl)
  · rw [hep]; exact epAfterMove_spec _ m hpromo (by rw [h3]; rfl)
  · have hcm : epAfterMove (piece_at b m.fromSq) m = -1 := by
      have h1 : (m.promo != 0) = false := by rw [hpromo]; rfl
      have h2 : (m.flags &&& MF_CASTLE != 0) = true := by rw [h4]; rfl
      simp only [epAfterMove, h1, h2, cond_false, cond_true]
    rw [hep, hcm]
    refine ⟨⟨fun hne => absurd rfl hne, fun hsh => ?_⟩, fun hsh => ?_, fun hsh => ?_⟩
    · exfalso
      rcases hft with ⟨hf, hto | hto⟩ | ⟨hf, hto | hto⟩ <;>
        rcases hsh with ⟨-, ht⟩ | ⟨-, ht⟩ <;> omega
    · exfalso
      obtain ⟨-, ht⟩ := hsh
      rcases hft with ⟨hf, hto | hto⟩ | ⟨hf, hto | hto⟩ <;> omega
    · exfalso
      obtain ⟨-, ht⟩ := hsh
      rcases hft with ⟨hf, hto | hto⟩ | ⟨hf, hto | hto⟩ <;> omega

/-- Claim C7: after `makeMove` of a generated move the en-passant
target is set (not -1) iff the move is a two-square pawn push, in
which case it is the skipped square (from+8 for White, from-8 for
Black); and a subsequent generated move that is not itself a
two-square pawn push resets the target to -1, so it persists for
exactly one ply. -/
theorem makeMove_ep_one_ply (b : Board) (m : Move) (h : m ∈ generateMoves b) :
    ((makeMove b m).epSquare ≠ -1 ↔
      (piece_at b m.fromSq = WP ∧ m.toSq = m.fromSq + 16) ∨
      (piece_at b m.fromSq = BP ∧ m.fromSq = m.toSq + 16)) ∧
    (piece_at b m.fromSq = WP ∧ m.toSq = m.fromSq + 16 →
      (makeMove b m).epSquare = ((m.fromSq + 8 : Nat) : Int)) ∧
    (piece_at b m.fromSq = BP ∧ m.fromSq = m.toSq + 16 →
      (makeMove b m).epSquare = ((m.fromSq - 8 : Nat) : Int)) ∧
    (∀ m2, m2 ∈ generateMoves (makeMove b m) →
      ¬((piece_at (makeMove b m) m2.fromSq = WP ∧ m2.toSq = m2.fromSq + 16) ∨
        (piece_at (makeMove b m) m2.fromSq = BP ∧ m2.fromSq = m2.toSq + 16)) →
      (makeMove (makeMove b m) m2).epSquare = -1) := by
  refine ⟨(ep_iff b m h).1, (ep_iff b m h).2.1, (ep_iff b m h).2.2, ?_⟩
  intro m2 h2 hn
  by_contra hne
  exact hn ((ep_iff (makeMove b m) m2 h2).1.mp hne)

theorem makeMove_ep_one_ply_witness :
    (⟨12, 28, 0, 0⟩ : Move) ∈ generateMoves startBoard ∧
    (makeMove startBoard ⟨12, 28, 0, 0⟩).epSquare = 20 ∧
    (makeMove startBoard ⟨12, 28, 0, 0⟩).stm = BLACK ∧
    (⟨57, 40, 0, 0⟩ : Move) ∈ generateMoves (makeMove startBoard ⟨12, 28, 0, 0⟩) ∧
    (makeMove (makeMove startBoard ⟨12, 28, 0, 0⟩) ⟨57, 40, 0, 0⟩).epSquare = -1 := by
  refine ⟨by decide, ?_, by decide, by decide, ?_⟩
  · exact (makeMove_ep_one_ply startBoard ⟨12, 28, 0, 0⟩ (by decide)).2.1
      ⟨by decide, rfl⟩
  · exact (makeMove_ep_one_ply startBoard ⟨12, 28, 0, 0⟩ (by decide)).2.2.2
      ⟨57, 40, 0, 0⟩ (by decide) (by decide)

-- Claim C10: flags of generated moves.

/-- Claim C10: every generated move's flags field is empty, the
en-passant combination MF_ENPASSANT|MF_CAPTURE, or MF_CASTLE; the
capture bit is set only on en-passant captures (whose destination is
the stored target square) while ordinary captures carry empty flags;
MF_CASTLE occurs only on the four king castling moves; and no
generated move carries MF_DOUBLE. -/
theorem generateMoves_flags (b : Board) (m : Move) (h : m ∈ generateMoves b) :
    (m.flags = 0 ∨ m.flags = (MF_ENPASSANT ||| MF_CAPTURE) ∨ m.flags = MF_CASTLE) ∧
    (m.flags &&& MF_CAPTURE ≠ 0 →
      m.flags = (MF_ENPASSANT ||| MF_CAPTURE) ∧ m.toSq = b.epSquare.toNat) ∧
    (m.flags = MF_CASTLE →
      (m.fromSq = 4 ∧ (m.toSq = 6 ∨ m.toSq = 2)) ∨
      (m.fromSq = 60 ∧ (m.toSq = 62 ∨ m.toSq = 58))) ∧
    m.flags &&& MF_DOUBLE = 0 := by
  obtain ⟨-, hflags⟩ := pseudoMoves_shape b m (mem_generateMoves h)
  rcases hflags with h0 | ⟨h3, hto⟩ | ⟨h4, hft⟩
  · refine ⟨Or.inl h0, ?_, ?_, ?_⟩
    · intro hc; exact absurd (by rw [h0]; decide) hc
    · intro hc; rw [h0] at hc; exact absurd hc (by decide)
    · rw [h0]; decide
  · refine ⟨Or.inr (Or.inl h3), fun _ => ⟨h3, hto⟩, ?_, ?_⟩
    · intro hc; rw [h3] at hc; exact absurd hc (by decide)
    · rw [h3]; decide
  · refine ⟨Or.inr (Or.inr h4), ?_, fun _ => hft, ?_⟩
    · intro hc; exact absurd (by rw [h4]; decide) hc
    · rw [h4]; decide

theorem generateMoves_flags_witness :
    (⟨8, 16, 0, 0⟩ : Move) ∈ generateMoves startBoard ∧
    ((⟨8, 16, 0, 0⟩ : Move).flags = 0 ∨
     (⟨8, 16, 0, 0⟩ : Move).flags = (MF_ENPASSANT ||| MF_CAPTURE) ∨
     (⟨8, 16, 0, 0⟩ : Move).flags = MF_CASTLE) ∧
    (⟨8, 16, 0, 0⟩ : Move).flags &&& MF_DOUBLE = 0 :=
  ⟨by decide, (generateMoves_flags startBoard ⟨8, 16, 0, 0⟩ (by decide)).1,
   (generateMoves_flags startBoard ⟨8, 16, 0, 0⟩ (by decide)).2.2.2⟩


-- Bit-twiddling facts used by the make/unmake development.

theorem U64_eq : U64 = 2 ^ 64 := by decide

theorem MASK64_eq : MASK64 = 2 ^ 64 - 1 := by decide

theorem testBit_MASK64 (i : Nat) : MASK64.testBit i = decide (i < 64) := by
  rw [MASK64_eq, Nat.testBit_two_pow_sub_one]

theorem testBit_one_shl (n i : Nat) : (1 <<< n).testBit i = decide (n = i) := by
  rw [Nat.shiftLeft_eq, one_mul, Nat.testBit_two_pow]

theorem getP_testBit (b : Board) (p s : Nat) :
    (getP b p).testBit s = (b.pcs.testBit (64 * p + s) && decide (s < 64)) := by
  unfold getP
  rw [Nat.testBit_and, testBit_MASK64, Nat.testBit_shiftRight]

theorem getP_testBit_lt (b : Board) (p s : Nat) (hs : s < 64) :
    (getP b p).testBit s = b.pcs.testBit (64 * p + s) := by
  rw [getP_testBit]
  simp [hs]

theorem getP_lt (b : Board) (p : Nat) : getP b p < U64 :=
  lt_of_le_of_lt Nat.and_le_right (by decide)

theorem testBit_updSet (pcs p sq i : Nat) :
    (updSet pcs p sq).testBit i = (pcs.testBit i || decide (64 * p + sq = i)) := by
  unfold updSet
  rw [Nat.testBit_or, testBit_one_shl]

theorem testBit_updClear (pcs p sq i : Nat) :
    (updClear pcs p sq).testBit i = (pcs.testBit i && !decide (64 * p + sq = i)) := by
  unfold updClear
  rw [Nat.testBit_xor, Nat.testBit_and, testBit_one_shl]
  cases h : decide (64 * p + sq = i) <;> cases hp : pcs.testBit i <;> rfl

theorem updSet_lt {pcs : Nat} (p sq : Nat) (hp : pcs < 2 ^ 768)
    (hidx : 64 * p + sq < 768) : updSet pcs p sq < 2 ^ 768 := by
  refine Nat.or_lt_two_pow hp ?_
  rw [Nat.shiftLeft_eq, one_mul]
  exact Nat.pow_lt_pow_right (by decide) hidx

theorem updClear_lt {pcs : Nat} (p sq : Nat) (hp : pcs < 2 ^ 768) :
    updClear pcs p sq < 2 ^ 768 :=
  Nat.xor_lt_two_pow hp (lt_of_le_of_lt Nat.and_le_left hp)

theorem land_eq_zero_iff {x y : Nat} :
    x &&& y = 0 ↔ ∀ i, ¬(x.testBit i = true ∧ y.testBit i = true) := by
  constructor
  · intro h i hc
    have hb : (x &&& y).testBit i = false := by rw [h]; exact Nat.zero_testBit i
    rw [Nat.testBit_and, hc.1, hc.2] at hb
    cases hb
  · intro h
    apply Nat.eq_of_testBit_eq
    intro i
    rw [Nat.testBit_and, Nat.zero_testBit]
    cases hx : x.testBit i
    · rfl
    · cases hy : y.testBit i
      · rfl
      · exact absurd ⟨hx, hy⟩ (h i)

theorem compl64_testBit (x i : Nat) (hi : i < 64) :
    (compl64 x).testBit i = !x.testBit i := by
  unfold compl64
  rw [Nat.testBit_xor, testBit_MASK64]
  simp [hi]

theorem testBit_lt_64 {x i : Nat} (hx : x < U64) (h : x.testBit i = true) : i < 64 := by
  by_contra hge
  have h1 := Nat.testBit_implies_ge h
  have h2 : (2 : Nat) ^ 64 ≤ 2 ^ i := Nat.pow_le_pow_right (by decide) (by omega)
  rw [U64_eq] at hx
  omega

-- Faithfulness of the packed attack tables and of the fastRay quick
-- rejection (tying the table literals to the init-loop definitions).

theorem knightAtt_spec : ∀ sq, sq < 64 → knightAtt sq = knightMaskAt sq := by decide!

theorem kingAtt_spec : ∀ sq, sq < 64 → kingAtt sq = kingMaskAt sq := by decide!

theorem rayOf_lt (t sq : Nat) : rayOf t sq < U64 :=
  lt_of_le_of_lt Nat.and_le_right (by decide)

theorem rayHit_eq_iter (occAll targets : Nat) (step : Nat → Nat) (sq : Nat) :
    rayHit occAll targets step sq = rayIter occAll targets step 7 (step sq) := rfl

theorem rayIter_false {occAll targets mask : Nat} {step : Nat → Nat}
    (hdis : ∀ s, mask.testBit s = true → targets.testBit s = false)
    (hc : ∀ s, mask.testBit s = true → (step s = 64 ∨ mask.testBit (step s) = true)) :
    ∀ n s, (s = 64 ∨ mask.testBit s = true) → rayIter occAll targets step n s = false := by
  intro n
  induction n with
  | zero => intro s _; rfl
  | succ k ih =>
    intro s hs
    show raySq occAll targets (fun t => rayIter occAll targets step k (step t)) s = false
    unfold raySq
    cases h64 : (s == 64)
    · simp only [cond_false]
      have hsb : mask.testBit s = true := by
        rcases hs with rfl | hs
        · simp at h64
        · exact hs
      cases hocc : occAll.testBit s
      · simp only [cond_false]
        exact ih (step s) (hc s hsb)
      · simp only [cond_true]
        exact hdis s hsb
    · rfl

theorem fastRay_eq_rayHit (occAll targets : Nat) (step : Nat → Nat) (mask sq : Nat)
    (h0 : step sq = 64 ∨ mask.testBit (step sq) = true)
    (hc : ∀ s, mask.testBit s = true → (step s = 64 ∨ mask.testBit (step s) = true)) :
    fastRay occAll targets step mask sq = rayHit occAll targets step sq := by
  unfold fastRay
  cases hz : (targets &&& mask == 0)
  · rfl
  · have h00 : targets &&& mask = 0 := eq_of_beq hz
    have hdis : ∀ s, mask.testBit s = true → targets.testBit s = false := by
      intro s hsb
      cases ht : targets.testBit s
      · rfl
      · exact absurd ⟨ht, hsb⟩ (land_eq_zero_iff.mp h00 s)
    have hfalse : rayHit occAll targets step sq = false := by
      rw [rayHit_eq_iter]
      exact rayIter_false hdis hc 7 (step sq) h0
    rw [hfalse]
    rfl

theorem rayTabN_spec : ∀ sq, sq < 64 →
    (stepN sq = 64 ∨ (rayOf rayTabN sq).testBit (stepN sq) = true) ∧
    (∀ s, s < 64 → (rayOf rayTabN sq).testBit s = true →
      (stepN s = 64 ∨ (rayOf rayTabN sq).testBit (stepN s) = true)) := by decide!

theorem rayTabS_spec : ∀ sq, sq < 64 →
    (stepS sq = 64 ∨ (rayOf rayTabS sq).testBit (stepS sq) = true) ∧
    (∀ s, s < 64 → (rayOf rayTabS sq).testBit s = true →
      (stepS s = 64 ∨ (rayOf rayTabS sq).testBit (stepS s) = true)) := by decide!

theorem rayTabE_spec : ∀ sq, sq < 64 →
    (stepE sq = 64 ∨ (rayOf rayTabE sq).testBit (stepE sq) = true) ∧
    (∀ s, s < 64 → (rayOf rayTabE sq).testBit s = true →
      (stepE s = 64 ∨ (rayOf rayTabE sq).testBit (stepE s) = true)) := by decide!

theorem rayTabW_spec : ∀ sq, sq < 64 →
    (stepW sq = 64 ∨ (rayOf rayTabW sq).testBit (stepW sq) = true) ∧
    (∀ s, s < 64 → (rayOf rayTabW sq).testBit s = true →
      (stepW s = 64 ∨ (rayOf rayTabW sq).testBit (stepW s) = true)) := by decide!

theorem rayTabNE_spec : ∀ sq, sq < 64 →
    (stepNE sq = 64 ∨ (rayOf rayTabNE sq).testBit (stepNE sq) = true) ∧
    (∀ s, s < 64 → (rayOf rayTabNE sq).testBit s = true →
      (stepNE s = 64 ∨ (rayOf rayTabNE sq).testBit (stepNE s) = true)) := by decide!

theorem rayTabNW_spec : ∀ sq, sq < 64 →
    (stepNW sq = 64 ∨ (rayOf rayTabNW sq).testBit (stepNW sq) = true) ∧
    (∀ s, s < 64 → (rayOf rayTabNW sq).testBit s = true →
      (stepNW s = 64 ∨ (rayOf rayTabNW sq).testBit (stepNW s) = true)) := by decide!

theorem rayTabSE_spec : ∀ sq, sq < 64 →
    (stepSE sq = 64 ∨ (rayOf rayTabSE sq).testBit (stepSE sq) = true) ∧
    (∀ s, s < 64 → (rayOf rayTabSE sq).testBit s = true →
      (stepSE s = 64 ∨ (rayOf rayTabSE sq).testBit (stepSE s) = true)) := by decide!

theorem rayTabSW_spec : ∀ sq, sq < 64 →
    (stepSW sq = 64 ∨ (rayOf rayTabSW sq).testBit (stepSW sq) = true) ∧
    (∀ s, s < 64 → (rayOf rayTabSW sq).testBit s = true →
      (stepSW s = 64 ∨ (rayOf rayTabSW sq).testBit (stepSW s) = true)) := by decide!

theorem ray_closure {tab sq : Nat} {step : Nat → Nat}
    (hb : ∀ s, s < 64 → (rayOf tab sq).testBit s = true →
      (step s = 64 ∨ (rayOf tab sq).testBit (step s) = true)) :
    ∀ s, (rayOf tab sq).testBit s = true →
      (step s = 64 ∨ (rayOf tab sq).testBit (step s) = true) := by
  intro s hs
  exact hb s (testBit_lt_64 (rayOf_lt tab sq) hs) hs

theorem diagHit_eq (occAll targets sq : Nat) (hsq : sq < 64) :
    diagHit occAll targets sq =
      (fastRay occAll targets stepNE (rayOf rayTabNE sq) sq ||
       fastRay occAll targets stepNW (rayOf rayTabNW sq) sq ||
       fastRay occAll targets stepSE (rayOf rayTabSE sq) sq ||
       fastRay occAll targets stepSW (rayOf rayTabSW sq) sq) := rfl

theorem diagHit_eq_walk (occAll targets sq : Nat) (hsq : sq < 64) :
    diagHit occAll targets sq =
      (rayHit occAll targets stepNE sq || rayHit occAll targets stepNW sq ||
       rayHit occAll targets stepSE sq || rayHit occAll targets stepSW sq) := by
  rw [diagHit_eq occAll targets sq hsq,
    fastRay_eq_rayHit occAll targets stepNE (rayOf rayTabNE sq) sq
      (rayTabNE_spec sq hsq).1 (ray_closure (rayTabNE_spec sq hsq).2),
    fastRay_eq_rayHit occAll targets stepNW (rayOf rayTabNW sq) sq
      (rayTabNW_spec sq hsq).1 (ray_closure (rayTabNW_spec sq hsq).2),
    fastRay_eq_rayHit occAll targets stepSE (rayOf rayTabSE sq) sq
      (rayTabSE_spec sq hsq).1 (ray_closure (rayTabSE_spec sq hsq).2),
    fastRay_eq_rayHit occAll targets stepSW (rayOf rayTabSW sq) sq
      (rayTabSW_spec sq hsq).1 (ray_closure (rayTabSW_spec sq hsq).2)]

theorem orthoHit_eq_walk (occAll targets sq : Nat) (hsq : sq < 64) :
    orthoHit occAll targets sq =
      (rayHit occAll targets stepN sq || rayHit occAll targets stepS sq ||
       rayHit occAll targets stepE sq || rayHit occAll targets stepW sq) := by
  show (fastRay occAll targets stepN (rayOf rayTabN sq) sq ||
       fastRay occAll targets stepS (rayOf rayTabS sq) sq ||
       fastRay occAll targets stepE (rayOf rayTabE sq) sq ||
       fastRay occAll targets stepW (rayOf rayTabW sq) sq) = _
  rw [fastRay_eq_rayHit occAll targets stepN (rayOf rayTabN sq) sq
      (rayTabN_spec sq hsq).1 (ray_closure (rayTabN_spec sq hsq).2),
    fastRay_eq_rayHit occAll targets stepS (rayOf rayTabS sq) sq
      (rayTabS_spec sq hsq).1 (ray_closure (rayTabS_spec sq hsq).2),
    fastRay_eq_rayHit occAll targets stepE (rayOf rayTabE sq) sq
      (rayTabE_spec sq hsq).1 (ray_closure (rayTabE_spec sq hsq).2),
    fastRay_eq_rayHit occAll targets stepW (rayOf rayTabW sq) sq
      (rayTabW_spec sq hsq).1 (ray_closure (rayTabW_spec sq hsq).2)]


-- Helper facts for extracting generator guarantees from the masks.

theorem mem_bif_cases {a : Type} {m : a} {c : Bool} {l1 l2 : List a}
    (h : m ∈ (bif c then l1 else l2)) :
    (c = true ∧ m ∈ l1) ∨ (c = false ∧ m ∈ l2) := by
  cases c
  · exact Or.inr ⟨rfl, h⟩
  · exact Or.inl ⟨rfl, h⟩

theorem exists_testBit {x : Nat} (hx : x ≠ 0) : ∃ i, x.testBit i = true := by
  obtain ⟨i, -, hi⟩ := Nat.ge_two_pow_implies_high_bit_true (n := 0) (x := x) (by omega)
  exact ⟨i, hi⟩

theorem land_testBit {x y i : Nat} (h : (x &&& y).testBit i = true) :
    x.testBit i = true ∧ y.testBit i = true := by
  rw [Nat.testBit_and] at h
  exact ⟨(Bool.and_eq_true _ _ |>.mp h).1, (Bool.and_eq_true _ _ |>.mp h).2⟩

theorem land_shl_one {x n : Nat} (h : x &&& (1 <<< n) ≠ 0) : x.testBit n = true := by
  obtain ⟨i, hi⟩ := exists_testBit h
  obtain ⟨h1, h2⟩ := land_testBit hi
  rw [testBit_one_shl] at h2
  have : n = i := of_decide_eq_true h2
  rw [this]
  exact h1

theorem shl_mod_testBit {x n i : Nat} (h : ((x <<< n) % U64).testBit i = true) :
    n ≤ i ∧ i < 64 ∧ x.testBit (i - n) = true := by
  rw [U64_eq, Nat.testBit_mod_two_pow, Nat.testBit_shiftLeft] at h
  simp only [Bool.and_eq_true, decide_eq_true_eq] at h
  exact ⟨h.2.1, h.1, h.2.2⟩

theorem shr_testBit {x n i : Nat} (h : (x >>> n).testBit i = true) :
    x.testBit (n + i) = true := by
  rw [Nat.testBit_shiftRight] at h
  exact h

theorem compl64_false {x i : Nat} (hi : i < 64) (h : (compl64 x).testBit i = true) :
    x.testBit i = false := by
  rw [compl64_testBit x i hi] at h
  cases hx : x.testBit i
  · rfl
  · rw [hx] at h; cases h

theorem shl_mod_lt (x n : Nat) : (x <<< n) % U64 < U64 := Nat.mod_lt _ (by decide)

theorem lsb_lt (x : Nat) : lsb x < 64 := lt_of_le_of_lt Nat.and_le_right (by decide)

theorem knightAtt_lt (sq : Nat) : knightAtt sq < U64 :=
  lt_of_le_of_lt Nat.and_le_right (by decide)

theorem kingAtt_lt (sq : Nat) : kingAtt sq < U64 :=
  lt_of_le_of_lt Nat.and_le_right (by decide)

theorem RANK_2_range : ∀ j, j < 64 → RANK_2.testBit j = true → (8 ≤ j ∧ j < 16) := by
  decide

theorem RANK_7_range : ∀ j, j < 64 → RANK_7.testBit j = true → (48 ≤ j ∧ j < 56) := by
  decide

theorem knightAtt_no16 : ∀ f, f < 64 → ∀ t, t < 64 → (knightAtt f).testBit t = true →
    (t ≠ f + 16 ∧ f ≠ t + 16 ∧ f ≠ t) := by decide!

theorem kingAtt_no16 : ∀ f, f < 64 → ∀ t, t < 64 → (kingAtt f).testBit t = true →
    (t ≠ f + 16 ∧ f ≠ t + 16 ∧ f ≠ t) := by decide!

-- Per-component generator facts (White pawns shown; Black mirrored).

theorem wPawnMoves_facts {b : Board} {m : Move}
    (h : m ∈ wPawnMoves (getP b WP) b.occAll b.occB) :
    m.promo = 0 ∧ m.flags = 0 ∧ m.fromSq < 64 ∧ m.toSq < 64 ∧
    (getP b WP).testBit m.fromSq = true ∧
    (b.occAll.testBit m.toSq = false ∨ b.occB.testBit m.toSq = true) ∧
    ((m.toSq = m.fromSq + 8 ∧ b.occAll.testBit m.toSq = false) ∨
     (m.toSq = m.fromSq + 16 ∧ 8 ≤ m.fromSq ∧ m.fromSq < 16 ∧
       b.occAll.testBit (m.fromSq + 8) = false ∧ b.occAll.testBit m.toSq = false) ∨
     ((m.toSq = m.fromSq + 7 ∨ m.toSq = m.fromSq + 9) ∧ b.occB.testBit m.toSq = true)) := by
  unfold wPawnMoves at h
  rcases mem_catList.mp h with h | h
  · -- single pushes
    obtain ⟨t, ht64, htb, hm⟩ := mem_serMask (lt_of_le_of_lt Nat.and_le_left (shl_mod_lt _ 8)) h
    obtain ⟨h1, h2⟩ := land_testBit htb
    obtain ⟨hge, -, hwp⟩ := shl_mod_testBit h1
    have hocc := compl64_false ht64 h2
    subst hm
    dsimp only
    refine ⟨rfl, rfl, by omega, ht64, hwp, Or.inl hocc, Or.inl ⟨by omega, hocc⟩⟩
  rcases mem_catList.mp h with h | h
  · -- double pushes
    obtain ⟨t, ht64, htb, hm⟩ := mem_serMask (lt_of_le_of_lt Nat.and_le_left (shl_mod_lt _ 8)) h
    obtain ⟨h1, h2⟩ := land_testBit htb
    obtain ⟨hge, -, hx⟩ := shl_mod_testBit h1
    obtain ⟨hsing, hrank⟩ := land_testBit hx
    obtain ⟨hs1, hs2⟩ := land_testBit hsing
    obtain ⟨hge2, hlt2, hwp⟩ := shl_mod_testBit hs1
    have hoccMid := compl64_false hlt2 hs2
    obtain ⟨-, -, hr2⟩ := shl_mod_testBit hrank
    have hr := RANK_2_range (t - 8 - 8) (by omega) hr2
    have hocc := compl64_false ht64 h2
    subst hm
    dsimp only
    refine ⟨rfl, rfl, by omega, ht64, ?_, Or.inl hocc,
      Or.inr (Or.inl ⟨by omega, by omega, by omega, ?_, hocc⟩)⟩
    · have : t - 16 = t - 8 - 8 := by omega
      rw [this]; exact hwp
    · have : t - 16 + 8 = t - 8 := by omega
      rw [this]; exact hoccMid
  rcases mem_catList.mp h with h | h
  · -- captures toward +7
    obtain ⟨t, ht64, htb, hm⟩ := mem_serMask (lt_of_le_of_lt Nat.and_le_left (shl_mod_lt _ 7)) h
    obtain ⟨h1, h2⟩ := land_testBit htb
    obtain ⟨hge, -, hx⟩ := shl_mod_testBit h1
    obtain ⟨hwp, -⟩ := land_testBit hx
    subst hm
    dsimp only
    exact ⟨rfl, rfl, by omega, ht64, hwp, Or.inr h2, Or.inr (Or.inr ⟨Or.inl (by omega), h2⟩)⟩
  · -- captures toward +9
    obtain ⟨t, ht64, htb, hm⟩ := mem_serMask (lt_of_le_of_lt Nat.and_le_left (shl_mod_lt _ 9)) h
    obtain ⟨h1, h2⟩ := land_testBit htb
    obtain ⟨hge, -, hx⟩ := shl_mod_testBit h1
    obtain ⟨hwp, -⟩ := land_testBit hx
    subst hm
    dsimp only
    exact ⟨rfl, rfl, by omega, ht64, hwp, Or.inr h2, Or.inr (Or.inr ⟨Or.inr (by omega), h2⟩)⟩

theorem shiftRight_le (x n : Nat) : x >>> n ≤ x := by
  rw [Nat.shiftRight_eq_div_pow]
  exact Nat.div_le_self _ _

theorem bPawnMoves_facts {b : Board} {m : Move}
    (h : m ∈ bPawnMoves (getP b BP) b.occAll b.occW) :
    m.promo = 0 ∧ m.flags = 0 ∧ m.fromSq < 64 ∧ m.toSq < 64 ∧
    (getP b BP).testBit m.fromSq = true ∧
    (b.occAll.testBit m.toSq = false ∨ b.occW.testBit m.toSq = true) ∧
    ((m.fromSq = m.toSq + 8 ∧ b.occAll.testBit m.toSq = false) ∨
     (m.fromSq = m.toSq + 16 ∧ 48 ≤ m.fromSq ∧ m.fromSq < 56 ∧
       b.occAll.testBit (m.toSq + 8) = false ∧ b.occAll.testBit m.toSq = false) ∨
     ((m.fromSq = m.toSq + 7 ∨ m.fromSq = m.toSq + 9) ∧ b.occW.testBit m.toSq = true)) := by
  have hbp := getP_lt b BP
  unfold bPawnMoves at h
  rcases mem_catList.mp h with h | h
  · -- single pushes
    obtain ⟨t, ht64, htb, hm⟩ := mem_serMask
      (lt_of_le_of_lt (le_trans Nat.and_le_left (shiftRight_le _ _)) hbp) h
    obtain ⟨h1, h2⟩ := land_testBit htb
    have hbpbit := shr_testBit h1
    have hocc := compl64_false ht64 h2
    have hfrom64 : 8 + t < 64 := testBit_lt_64 hbp hbpbit
    subst hm
    dsimp only
    exact ⟨rfl, rfl, by omega, ht64, by rw [show t + 8 = 8 + t by omega]; exact hbpbit,
      Or.inl hocc, Or.inl ⟨by omega, hocc⟩⟩
  rcases mem_catList.mp h with h | h
  · -- double pushes
    obtain ⟨t, ht64, htb, hm⟩ := mem_serMask
      (lt_of_le_of_lt (le_trans Nat.and_le_left
        (le_trans (shiftRight_le _ _) (le_trans Nat.and_le_left
          (le_trans Nat.and_le_left (shiftRight_le _ _))))) hbp) h
    obtain ⟨h1, h2⟩ := land_testBit htb
    have hx := shr_testBit h1
    obtain ⟨hsing, hrank⟩ := land_testBit hx
    obtain ⟨hs1, hs2⟩ := land_testBit hsing
    have hbpbit := shr_testBit hs1
    have hr7 := shr_testBit hrank
    have hfrom64 : 8 + (8 + t) < 64 := testBit_lt_64 hbp hbpbit
    have hmid64 : 8 + t < 64 := by omega
    have hoccMid := compl64_false hmid64 hs2
    have hr := RANK_7_range (8 + (8 + t)) (by omega) hr7
    have hocc := compl64_false ht64 h2
    subst hm
    dsimp only
    refine ⟨rfl, rfl, by omega, ht64,
      by rw [show t + 16 = 8 + (8 + t) by omega]; exact hbpbit, Or.inl hocc,
      Or.inr (Or.inl ⟨rfl, by omega, by omega,
        by rw [show t + 8 = 8 + t by omega]; exact hoccMid, hocc⟩)⟩
  rcases mem_catList.mp h with h | h
  · -- captures toward -7
    obtain ⟨t, ht64, htb, hm⟩ := mem_serMask
      (lt_of_le_of_lt (le_trans Nat.and_le_left
        (le_trans (shiftRight_le _ _) Nat.and_le_left)) hbp) h
    obtain ⟨h1, h2⟩ := land_testBit htb
    have hx := shr_testBit h1
    obtain ⟨hbpbit, -⟩ := land_testBit hx
    have hfrom64 : 7 + t < 64 := testBit_lt_64 hbp hbpbit
    subst hm
    dsimp only
    exact ⟨rfl, rfl, by omega, ht64, by rw [show t + 7 = 7 + t by omega]; exact hbpbit,
      Or.inr h2, Or.inr (Or.inr ⟨Or.inl rfl, h2⟩)⟩
  · -- captures toward -9
    obtain ⟨t, ht64, htb, hm⟩ := mem_serMask
      (lt_of_le_of_lt (le_trans Nat.and_le_left
        (le_trans (shiftRight_le _ _) Nat.and_le_left)) hbp) h
    obtain ⟨h1, h2⟩ := land_testBit htb
    have hx := shr_testBit h1
    obtain ⟨hbpbit, -⟩ := land_testBit hx
    have hfrom64 : 9 + t < 64 := testBit_lt_64 hbp hbpbit
    subst hm
    dsimp only
    exact ⟨rfl, rfl, by omega, ht64, by rw [show t + 9 = 9 + t by omega]; exact hbpbit,
      Or.inr h2, Or.inr (Or.inr ⟨Or.inr rfl, h2⟩)⟩


-- En-passant and castling generator facts.

theorem mem_ite_cases {a : Type} {m : a} {c : Prop} [Decidable c] {l1 l2 : List a}
    (h : m ∈ (if c then l1 else l2)) : (c ∧ m ∈ l1) ∨ (¬c ∧ m ∈ l2) := by
  by_cases hc : c
  · rw [if_pos hc] at h; exact Or.inl ⟨hc, h⟩
  · rw [if_neg hc] at h; exact Or.inr ⟨hc, h⟩

theorem wEpMoves_facts {b : Board} {m : Move}
    (h : m ∈ wEpMoves (getP b WP) b.epSquare) :
    m.promo = 0 ∧ m.flags = (MF_ENPASSANT ||| MF_CAPTURE) ∧ b.epSquare ≠ -1 ∧
    m.toSq = b.epSquare.toNat ∧ (getP b WP).testBit m.fromSq = true ∧ 7 ≤ m.toSq ∧
    (m.fromSq = m.toSq - 7 ∨ m.fromSq = m.toSq - 9) ∧ m.fromSq < 64 := by
  unfold wEpMoves at h
  by_cases h1 : b.epSquare = -1
  · rw [if_neg (not_not_intro h1)] at h; cases h
  · rw [if_pos h1] at h
    rcases mem_catList.mp h with h | h
    · rcases mem_ite_cases h with ⟨hc, h⟩ | ⟨-, h⟩
      · rw [List.mem_singleton] at h; subst h; dsimp only
        obtain ⟨i, hi⟩ := exists_testBit hc
        obtain ⟨hx, hsh⟩ := land_testBit hi
        obtain ⟨hwp, -⟩ := land_testBit hx
        have h2 := shr_testBit hsh
        rw [testBit_one_shl] at h2
        have he : b.epSquare.toNat = 7 + i := of_decide_eq_true h2
        have hi64 : i < 64 := testBit_lt_64 (getP_lt b WP) hwp
        refine ⟨rfl, rfl, h1, rfl, ?_, by omega, Or.inl rfl, by omega⟩
        rw [he, show 7 + i - 7 = i by omega]
        exact hwp
      · cases h
    · rcases mem_ite_cases h with ⟨hc, h⟩ | ⟨-, h⟩
      · rw [List.mem_singleton] at h; subst h; dsimp only
        obtain ⟨i, hi⟩ := exists_testBit hc
        obtain ⟨hx, hsh⟩ := land_testBit hi
        obtain ⟨hwp, -⟩ := land_testBit hx
        have h2 := shr_testBit hsh
        rw [testBit_one_shl] at h2
        have he : b.epSquare.toNat = 9 + i := of_decide_eq_true h2
        have hi64 : i < 64 := testBit_lt_64 (getP_lt b WP) hwp
        refine ⟨rfl, rfl, h1, rfl, ?_, by omega, Or.inr (by omega), by omega⟩
        rw [he, show 9 + i - 9 = i by omega]
        exact hwp
      · cases h

theorem bEpMoves_facts {b : Board} {m : Move}
    (h : m ∈ bEpMoves (getP b BP) b.epSquare) :
    m.promo = 0 ∧ m.flags = (MF_ENPASSANT ||| MF_CAPTURE) ∧ b.epSquare ≠ -1 ∧
    m.toSq = b.epSquare.toNat ∧ (getP b BP).testBit m.fromSq = true ∧
    (m.fromSq = m.toSq + 7 ∨ m.fromSq = m.toSq + 9) ∧ m.fromSq < 64 := by
  unfold bEpMoves at h
  by_cases h1 : b.epSquare = -1
  · rw [if_neg (not_not_intro h1)] at h; cases h
  · rw [if_pos h1] at h
    rcases mem_catList.mp h with h | h
    · rcases mem_ite_cases h with ⟨hc, h⟩ | ⟨-, h⟩
      · rw [List.mem_singleton] at h; subst h; dsimp only
        obtain ⟨i, hi⟩ := exists_testBit hc
        obtain ⟨hx, hsh⟩ := land_testBit hi
        obtain ⟨hbp, -⟩ := land_testBit hx
        obtain ⟨hge, hi64, h2⟩ := shl_mod_testBit hsh
        rw [testBit_one_shl] at h2
        have he : b.epSquare.toNat = i - 7 := of_decide_eq_true h2
        refine ⟨rfl, rfl, h1, rfl, ?_, Or.inl (by omega), by omega⟩
        rw [he, show i - 7 + 7 = i by omega]
        exact hbp
      · cases h
    · rcases mem_ite_cases h with ⟨hc, h⟩ | ⟨-, h⟩
      · rw [List.mem_singleton] at h; subst h; dsimp only
        obtain ⟨i, hi⟩ := exists_testBit hc
        obtain ⟨hx, hsh⟩ := land_testBit hi
        obtain ⟨hbp, -⟩ := land_testBit hx
        obtain ⟨hge, hi64, h2⟩ := shl_mod_testBit hsh
        rw [testBit_one_shl] at h2
        have he : b.epSquare.toNat = i - 9 := of_decide_eq_true h2
        refine ⟨rfl, rfl, h1, rfl, ?_, Or.inr (by omega), by omega⟩
        rw [he, show i - 9 + 9 = i by omega]
        exact hbp
      · cases h

theorem wCastleMoves_facts {b : Board} {m : Move} (h : m ∈ wCastleMoves b) :
    m.promo = 0 ∧ m.flags = MF_CASTLE ∧ m.fromSq = 4 ∧ (getP b WK).testBit 4 = true ∧
    ((m.toSq = 6 ∧ (getP b WR).testBit 7 = true ∧
      b.occAll.testBit 5 = false ∧ b.occAll.testBit 6 = false) ∨
     (m.toSq = 2 ∧ (getP b WR).testBit 0 = true ∧
      b.occAll.testBit 3 = false ∧ b.occAll.testBit 2 = false)) := by
  unfold wCastleMoves at h
  rcases mem_bif_cases h with ⟨hk, h⟩ | ⟨-, h⟩
  · have hkb : (getP b WK).testBit 4 = true := land_shl_one (bne_iff_ne.mp hk)
    rcases mem_catList.mp h with h | h
    · rcases mem_bif_cases h with ⟨hc, h⟩ | ⟨-, h⟩
      · rcases mem_bif_cases h with ⟨-, h⟩ | ⟨-, h⟩
        · rw [List.mem_singleton] at h; subst h; dsimp only
          obtain ⟨h12, h3⟩ := Bool.and_eq_true _ _ |>.mp hc
          obtain ⟨-, h2⟩ := Bool.and_eq_true _ _ |>.mp h12
          have hocc0 : b.occAll &&& ((1 <<< 5) ||| (1 <<< 6)) = 0 := eq_of_beq h2
          have h5 : b.occAll.testBit 5 = false := by
            cases ho : b.occAll.testBit 5
            · rfl
            · exact absurd ⟨ho, by decide⟩ (land_eq_zero_iff.mp hocc0 5)
          have h6 : b.occAll.testBit 6 = false := by
            cases ho : b.occAll.testBit 6
            · rfl
            · exact absurd ⟨ho, by decide⟩ (land_eq_zero_iff.mp hocc0 6)
          have hrook : (getP b WR).testBit 7 = true := land_shl_one (bne_iff_ne.mp h3)
          exact ⟨rfl, rfl, rfl, hkb, Or.inl ⟨rfl, hrook, h5, h6⟩⟩
        · cases h
      · cases h
    · rcases mem_bif_cases h with ⟨hc, h⟩ | ⟨-, h⟩
      · rcases mem_bif_cases h with ⟨-, h⟩ | ⟨-, h⟩
        · rw [List.mem_singleton] at h; subst h; dsimp only
          obtain ⟨h12, h3⟩ := Bool.and_eq_true _ _ |>.mp hc
          obtain ⟨-, h2⟩ := Bool.and_eq_true _ _ |>.mp h12
          have hocc0 : b.occAll &&& ((1 <<< 3) ||| (1 <<< 2)) = 0 := eq_of_beq h2
          have h3e : b.occAll.testBit 3 = false := by
            cases ho : b.occAll.testBit 3
            · rfl
            · exact absurd ⟨ho, by decide⟩ (land_eq_zero_iff.mp hocc0 3)
          have h2e : b.occAll.testBit 2 = false := by
            cases ho : b.occAll.testBit 2
            · rfl
            · exact absurd ⟨ho, by decide⟩ (land_eq_zero_iff.mp hocc0 2)
          have hrook : (getP b WR).testBit 0 = true := land_shl_one (bne_iff_ne.mp h3)
          exact ⟨rfl, rfl, rfl, hkb, Or.inr ⟨rfl, hrook, h3e, h2e⟩⟩
        · cases h
      · cases h
  · cases h

theorem bCastleMoves_facts {b : Board} {m : Move} (h : m ∈ bCastleMoves b) :
    m.promo = 0 ∧ m.flags = MF_CASTLE ∧ m.fromSq = 60 ∧ (getP b BK).testBit 60 = true ∧
    ((m.toSq = 62 ∧ (getP b BR).testBit 63 = true ∧
      b.occAll.testBit 61 = false ∧ b.occAll.testBit 62 = false) ∨
     (m.toSq = 58 ∧ (getP b BR).testBit 56 = true ∧
      b.occAll.testBit 59 = false ∧ b.occAll.testBit 58 = false)) := by
  unfold bCastleMoves at h
  rcases mem_bif_cases h with ⟨hk, h⟩ | ⟨-, h⟩
  · have hkb : (getP b BK).testBit 60 = true := land_shl_one (bne_iff_ne.mp hk)
    rcases mem_catList.mp h with h | h
    · rcases mem_bif_cases h with ⟨hc, h⟩ | ⟨-, h⟩
      · rcases mem_bif_cases h with ⟨-, h⟩ | ⟨-, h⟩
        · rw [List.mem_singleton] at h; subst h; dsimp only
          obtain ⟨h12, h3⟩ := Bool.and_eq_true _ _ |>.mp hc
          obtain ⟨-, h2⟩ := Bool.and_eq_true _ _ |>.mp h12
          have hocc0 : b.occAll &&& ((1 <<< 61) ||| (1 <<< 62)) = 0 := eq_of_beq h2
          have h5 : b.occAll.testBit 61 = false := by
            cases ho : b.occAll.testBit 61
            · rfl
            · exact absurd ⟨ho, by decide⟩ (land_eq_zero_iff.mp hocc0 61)
          have h6 : b.occAll.testBit 62 = false := by
            cases ho : b.occAll.testBit 62
            · rfl
            · exact absurd ⟨ho, by decide⟩ (land_eq_zero_iff.mp hocc0 62)
          have hrook : (getP b BR).testBit 63 = true := land_shl_one (bne_iff_ne.mp h3)
          exact ⟨rfl, rfl, rfl, hkb, Or.inl ⟨rfl, hrook, h5, h6⟩⟩
        · cases h
      · cases h
    · rcases mem_bif_cases h with ⟨hc, h⟩ | ⟨-, h⟩
      · rcases mem_bif_cases h with ⟨-, h⟩ | ⟨-, h⟩
        · rw [List.mem_singleton] at h; subst h; dsimp only
          obtain ⟨h12, h3⟩ := Bool.and_eq_true _ _ |>.mp hc
          obtain ⟨-, h2⟩ := Bool.and_eq_true _ _ |>.mp h12
          have hocc0 : b.occAll &&& ((1 <<< 59) ||| (1 <<< 58)) = 0 := eq_of_beq h2
          have h3e : b.occAll.testBit 59 = false := by
            cases ho : b.occAll.testBit 59
            · rfl
            · exact absurd ⟨ho, by decide⟩ (land_eq_zero_iff.mp hocc0 59)
          have h2e : b.occAll.testBit 58 = false := by
            cases ho : b.occAll.testBit 58
            · rfl
            · exact absurd ⟨ho, by decide⟩ (land_eq_zero_iff.mp hocc0 58)
          have hrook : (getP b BR).testBit 56 = true := land_shl_one (bne_iff_ne.mp h3)
          exact ⟨rfl, rfl, rfl, hkb, Or.inr ⟨rfl, hrook, h3e, h2e⟩⟩
        · cases h
      · cases h
  · cases h

-- Sliding, knight and king component facts.

theorem stepN_ok : ∀ s, s < 64 → (stepN s = 64 ∨ stepN s < 64) := by decide

theorem stepS_ok : ∀ s, s < 64 → (stepS s = 64 ∨ stepS s < 64) := by decide

theorem stepE_ok : ∀ s, s < 64 → (stepE s = 64 ∨ stepE s < 64) := by decide

theorem stepW_ok : ∀ s, s < 64 → (stepW s = 64 ∨ stepW s < 64) := by decide

theorem stepNE_ok : ∀ s, s < 64 → (stepNE s = 64 ∨ stepNE s < 64) := by decide

theorem stepNW_ok : ∀ s, s < 64 → (stepNW s = 64 ∨ stepNW s < 64) := by decide

theorem stepSE_ok : ∀ s, s < 64 → (stepSE s = 64 ∨ stepSE s < 64) := by decide

theorem stepSW_ok : ∀ s, s < 64 → (stepSW s = 64 ∨ stepSW s < 64) := by decide

theorem slideDir_facts {occAll occTheirs fromSq : Nat} {f : Nat → Nat} {m : Move}
    (hstep : ∀ s, s < 64 → (f s = 64 ∨ f s < 64)) :
    ∀ n s, s < 64 → m ∈ slideDir occAll occTheirs fromSq f n s →
      m.fromSq = fromSq ∧ m.toSq < 64 ∧
      (occAll.testBit m.toSq = false ∨ occTheirs.testBit m.toSq = true) := by
  intro n
  induction n with
  | zero => intro s hs h; cases h
  | succ k ih =>
    intro s hs h
    have hu : slideDir occAll occTheirs fromSq f (k + 1) s =
        (bif f s == 64 then []
         else bif occAll.testBit (f s) then
           (bif occTheirs.testBit (f s) then [⟨fromSq, f s, 0, 0⟩] else [])
         else ⟨fromSq, f s, 0, 0⟩ :: slideDir occAll occTheirs fromSq f k (f s)) := rfl
    rw [hu] at h
    rcases mem_bif_cases h with ⟨-, h⟩ | ⟨hc, h⟩
    · cases h
    · have hf64 : f s < 64 := by
        rcases hstep s hs with h64 | hlt
        · rw [h64] at hc; cases hc
        · exact hlt
      rcases mem_bif_cases h with ⟨ho, h⟩ | ⟨ho, h⟩
      · rcases mem_bif_cases h with ⟨ht, h⟩ | ⟨-, h⟩
        · rw [List.mem_singleton] at h; subst h; dsimp only
          exact ⟨rfl, hf64, Or.inr ht⟩
        · cases h
      · rcases List.mem_cons.mp h with h | h
        · subst h; dsimp only
          exact ⟨rfl, hf64, Or.inl ho⟩
        · exact ih (f s) hf64 h

theorem slideDiag_facts {occAll occTheirs fromSq : Nat} {m : Move}
    (hf : fromSq < 64) (h : m ∈ slideDiag occAll occTheirs fromSq) :
    m.promo = 0 ∧ m.flags = 0 ∧ m.fromSq = fromSq ∧ m.toSq < 64 ∧
    (occAll.testBit m.toSq = false ∨ occTheirs.testBit m.toSq = true) := by
  obtain ⟨hp, hfl⟩ := slideDiag_shape h
  unfold slideDiag at h
  rcases mem_catList.mp h with h | h
  · obtain ⟨h1, h2, h3⟩ := slideDir_facts stepNE_ok 8 fromSq hf h
    exact ⟨hp, hfl, h1, h2, h3⟩
  rcases mem_catList.mp h with h | h
  · obtain ⟨h1, h2, h3⟩ := slideDir_facts stepNW_ok 8 fromSq hf h
    exact ⟨hp, hfl, h1, h2, h3⟩
  rcases mem_catList.mp h with h | h
  · obtain ⟨h1, h2, h3⟩ := slideDir_facts stepSE_ok 8 fromSq hf h
    exact ⟨hp, hfl, h1, h2, h3⟩
  · obtain ⟨h1, h2, h3⟩ := slideDir_facts stepSW_ok 8 fromSq hf h
    exact ⟨hp, hfl, h1, h2, h3⟩

theorem slideOrtho_facts {occAll occTheirs fromSq : Nat} {m : Move}
    (hf : fromSq < 64) (h : m ∈ slideOrtho occAll occTheirs fromSq) :
    m.promo = 0 ∧ m.flags = 0 ∧ m.fromSq = fromSq ∧ m.toSq < 64 ∧
    (occAll.testBit m.toSq = false ∨ occTheirs.testBit m.toSq = true) := by
  obtain ⟨hp, hfl⟩ := slideOrtho_shape h
  unfold slideOrtho at h
  rcases mem_catList.mp h with h | h
  · obtain ⟨h1, h2, h3⟩ := slideDir_facts stepN_ok 8 fromSq hf h
    exact ⟨hp, hfl, h1, h2, h3⟩
  rcases mem_catList.mp h with h | h
  · obtain ⟨h1, h2, h3⟩ := slideDir_facts stepS_ok 8 fromSq hf h
    exact ⟨hp, hfl, h1, h2, h3⟩
  rcases mem_catList.mp h with h | h
  · obtain ⟨h1, h2, h3⟩ := slideDir_facts stepE_ok 8 fromSq hf h
    exact ⟨hp, hfl, h1, h2, h3⟩
  · obtain ⟨h1, h2, h3⟩ := slideDir_facts stepW_ok 8 fromSq hf h
    exact ⟨hp, hfl, h1, h2, h3⟩

theorem knightMoves_facts {kn occAll occTheirs : Nat} {m : Move} (hkn : kn < U64)
    (h : m ∈ knightMoves kn occAll occTheirs) :
    m.promo = 0 ∧ m.flags = 0 ∧ m.fromSq < 64 ∧ m.toSq < 64 ∧
    kn.testBit m.fromSq = true ∧
    (occAll.testBit m.toSq = false ∨ occTheirs.testBit m.toSq = true) ∧
    (knightAtt m.fromSq).testBit m.toSq = true := by
  unfold knightMoves at h
  obtain ⟨x, hxmem, hx⟩ := mem_bindRec.mp h
  obtain ⟨hx64, hxbit⟩ := mem_bitsOf hkn hxmem
  rcases mem_catList.mp hx with hx | hx
  · obtain ⟨t, ht64, htb, hm⟩ := mem_serMask (lt_of_le_of_lt Nat.and_le_left (knightAtt_lt x)) hx
    obtain ⟨hatt, hemp⟩ := land_testBit htb
    have hocc := compl64_false ht64 hemp
    subst hm
    dsimp only
    exact ⟨rfl, rfl, hx64, ht64, hxbit, Or.inl hocc, hatt⟩
  · obtain ⟨t, ht64, htb, hm⟩ := mem_serMask (lt_of_le_of_lt Nat.and_le_left (knightAtt_lt x)) hx
    obtain ⟨hatt, hth⟩ := land_testBit htb
    subst hm
    dsimp only
    exact ⟨rfl, rfl, hx64, ht64, hxbit, Or.inr hth, hatt⟩

theorem kingMoves_facts {kb occAll occTheirs : Nat} {m : Move}
    (h : m ∈ kingMoves kb occAll occTheirs) :
    m.promo = 0 ∧ m.flags = 0 ∧ m.fromSq = lsb kb ∧ m.fromSq < 64 ∧ m.toSq < 64 ∧
    (occAll.testBit m.toSq = false ∨ occTheirs.testBit m.toSq = true) ∧
    (kingAtt m.fromSq).testBit m.toSq = true := by
  unfold kingMoves at h
  rcases mem_catList.mp h with h | h
  · obtain ⟨t, ht64, htb, hm⟩ := mem_serMask (lt_of_le_of_lt Nat.and_le_left (kingAtt_lt _)) h
    obtain ⟨hatt, hemp⟩ := land_testBit htb
    have hocc := compl64_false ht64 hemp
    subst hm
    dsimp only
    exact ⟨rfl, rfl, rfl, lsb_lt kb, ht64, Or.inl hocc, hatt⟩
  · obtain ⟨t, ht64, htb, hm⟩ := mem_serMask (lt_of_le_of_lt Nat.and_le_left (kingAtt_lt _)) h
    obtain ⟨hatt, hth⟩ := land_testBit htb
    subst hm
    dsimp only
    exact ⟨rfl, rfl, rfl, lsb_lt kb, ht64, Or.inr hth, hatt⟩

-- Characterization of piece_at as the first lane holding the square.

theorem piece_at_cases (b : Board) (s : Nat) :
    (piece_at b s < 12 ∧ b.pcs.testBit (64 * piece_at b s + s) = true ∧
      (∀ q, q < piece_at b s → b.pcs.testBit (64 * q + s) = false)) ∨
    (piece_at b s = 12 ∧ ∀ q, q < 12 → b.pcs.testBit (64 * q + s) = false) := by
  unfold piece_at
  cases h0 : b.pcs.testBit s with
  | true =>
    simp only [cond_true, cond_false]
    refine Or.inl ⟨by omega, by simpa using h0, ?_⟩
    intro q hq
    exact absurd hq (Nat.not_lt_zero q)
  | false =>
    cases h1 : b.pcs.testBit (64 + s) with
    | true =>
      simp only [cond_true, cond_false]
      refine Or.inl ⟨by omega, by simpa using h1, ?_⟩
      intro q hq
      interval_cases q
      · simpa using h0
    | false =>
      cases h2 : b.pcs.testBit (128 + s) with
      | true =>
        simp only [cond_true, cond_false]
        refine Or.inl ⟨by omega, by simpa using h2, ?_⟩
        intro q hq
        interval_cases q
        · simpa using h0
        · simpa using h1
      | false =>
        cases h3 : b.pcs.testBit (192 + s) with
        | true =>
          simp only [cond_true, cond_false]
          refine Or.inl ⟨by omega, by simpa using h3, ?_⟩
          intro q hq
          interval_cases q
          · simpa using h0
          · simpa using h1
          · simpa using h2
        | false =>
          cases h4 : b.pcs.testBit (256 + s) with
          | true =>
            simp only [cond_true, cond_false]
            refine Or.inl ⟨by omega, by simpa using h4, ?_⟩
            intro q hq
            interval_cases q
            · simpa using h0
            · simpa using h1
            · simpa using h2
            · simpa using h3
          | false =>
            cases h5 : b.pcs.testBit (320 + s) with
            | true =>
              simp only [cond_true, cond_false]
              refine Or.inl ⟨by omega, by simpa using h5, ?_⟩
              intro q hq
              interval_cases q
              · simpa using h0
              · simpa using h1
              · simpa using h2
              · simpa using h3
              · simpa using h4
            | false =>
              cases h6 : b.pcs.testBit (384 + s) with
              | true =>
                simp only [cond_true, cond_false]
                refine Or.inl ⟨by omega, by simpa using h6, ?_⟩
                intro q hq
                interval_cases q
                · simpa using h0
                · simpa using h1
                · simpa using h2
                · simpa using h3
                · simpa using h4
                · simpa using h5
              | false =>
                cases h7 : b.pcs.testBit (448 + s) with
                | true =>
                  simp only [cond_true, cond_false]
                  refine Or.inl ⟨by omega, by simpa using h7, ?_⟩
                  intro q hq
                  interval_cases q
                  · simpa using h0
                  · simpa using h1
                  · simpa using h2
                  · simpa using h3
                  · simpa using h4
                  · simpa using h5
                  · simpa using h6
                | false =>
                  cases h8 : b.pcs.testBit (512 + s) with
                  | true =>
                    simp only [cond_true, cond_false]
                    refine Or.inl ⟨by omega, by simpa using h8, ?_⟩
                    intro q hq
                    interval_cases q
                    · simpa using h0
                    · simpa using h1
                    · simpa using h2
                    · simpa using h3
                    · simpa using h4
                    · simpa using h5
                    · simpa using h6
                    · simpa using h7
                  | false =>
                    cases h9 : b.pcs.testBit (576 + s) with
                    | true =>
                      simp only [cond_true, cond_false]
                      refine Or.inl ⟨by omega, by simpa using h9, ?_⟩
                      intro q hq
                      interval_cases q
                      · simpa using h0
                      · simpa using h1
                      · simpa using h2
                      · simpa using h3
                      · simpa using h4
                      · simpa using h5
                      · simpa using h6
                      · simpa using h7
                      · simpa using h8
                    | false =>
                      cases h10 : b.pcs.testBit (640 + s) with
                      | true =>
                        simp only [cond_true, cond_false]
                        refine Or.inl ⟨by omega, by simpa using h10, ?_⟩
                        intro q hq
                        interval_cases q
                        · simpa using h0
                        · simpa using h1
                        · simpa using h2
                        · simpa using h3
                        · simpa using h4
                        · simpa using h5
                        · simpa using h6
                        · simpa using h7
                        · simpa using h8
                        · simpa using h9
                      | false =>
                        cases h11 : b.pcs.testBit (704 + s) with
                        | true =>
                          simp only [cond_true, cond_false]
                          refine Or.inl ⟨by omega, by simpa using h11, ?_⟩
                          intro q hq
                          interval_cases q
                          · simpa using h0
                          · simpa using h1
                          · simpa using h2
                          · simpa using h3
                          · simpa using h4
                          · simpa using h5
                          · simpa using h6
                          · simpa using h7
                          · simpa using h8
                          · simpa using h9
                          · simpa using h10
                        | false =>
                          simp only [cond_true, cond_false]
                          refine Or.inr ⟨by trivial, ?_⟩
                          intro q hq
                          interval_cases q
                          · simpa using h0
                          · simpa using h1
                          · simpa using h2
                          · simpa using h3
                          · simpa using h4
                          · simpa using h5
                          · simpa using h6
                          · simpa using h7
                          · simpa using h8
                          · simpa using h9
                          · simpa using h10
                          · simpa using h11

theorem piece_at_bit {b : Board} {s p : Nat} (hp : p < 12) (h : piece_at b s = p) :
    b.pcs.testBit (64 * p + s) = true := by
  rcases piece_at_cases b s with ⟨h1, h2, h3⟩ | ⟨h1, h2⟩
  · rw [h] at h2; exact h2
  · rw [h] at h1; omega

theorem piece_at_lower {b : Board} {s p q : Nat} (h : piece_at b s = p) (hq : q < p) :
    b.pcs.testBit (64 * q + s) = false := by
  rcases piece_at_cases b s with ⟨h1, h2, h3⟩ | ⟨h1, h3⟩
  · rw [h] at h3; exact h3 q hq
  · rw [h] at h1
    exact h3 q (by omega)

theorem lanesDisjoint_spec {b : Board} (h : lanesDisjoint b = true) :
    ∀ p q, p < 12 → q < p → getP b p &&& getP b q = 0 := by
  intro p q hp hq
  rw [lanesDisjoint, List.all_eq_true] at h
  have h1 := h p (List.mem_range.mpr hp)
  rw [List.all_eq_true] at h1
  exact eq_of_beq (h1 q (List.mem_range.mpr hq))

theorem lanes_disj_bits {b : Board} (h : lanesDisjoint b = true) {p q s : Nat}
    (hp : p < 12) (hq : q < 12) (hne : p ≠ q) :
    ¬((getP b p).testBit s = true ∧ (getP b q).testBit s = true) := by
  intro ⟨hbp, hbq⟩
  rcases Nat.lt_or_ge p q with hlt | hge
  · exact land_eq_zero_iff.mp (lanesDisjoint_spec h q p hq hlt) s ⟨hbq, hbp⟩
  · have hlt : q < p := by omega
    exact land_eq_zero_iff.mp (lanesDisjoint_spec h p q hp hlt) s ⟨hbp, hbq⟩

theorem piece_at_eq_lane {b : Board} {s q : Nat} (hs : s < 64) (hq : q < 12)
    (hds : lanesDisjoint b = true) (hbit : (getP b q).testBit s = true) :
    piece_at b s = q := by
  have hpcs : b.pcs.testBit (64 * q + s) = true := by
    rw [getP_testBit_lt b q s hs] at hbit; exact hbit
  rcases Nat.lt_trichotomy (piece_at b s) q with hlt | heq | hgt
  · have hplt : piece_at b s < 12 := by omega
    have hpbit : (getP b (piece_at b s)).testBit s = true := by
      rw [getP_testBit_lt b _ s hs]
      exact piece_at_bit hplt rfl
    exact absurd ⟨hpbit, hbit⟩ (lanes_disj_bits hds hplt hq (by omega))
  · exact heq
  · have := piece_at_lower rfl hgt
    simp [this] at hpcs


theorem pseudo_MoveOK (b : Board) (m : Move) (hds : lanesDisjoint b = true)
    (h : m ∈ pseudoMoves b) : MoveOK b m := by
  unfold pseudoMoves at h
  by_cases hstm : b.stm = WHITE
  · rw [if_pos hstm] at h
    unfold pseudoWhite at h
    rcases mem_catList.mp h with h | h
    · obtain ⟨hp, hfl, hf64, ht64, hwp, hocc, hshape⟩ := wPawnMoves_facts h
      refine ⟨hp, hf64, Or.inl ⟨hfl, ht64, by rw [if_pos hstm]; exact hocc, ?_, ?_⟩⟩
      · intro hpat h16
        rcases hshape with ⟨hto, -⟩ | ⟨hto, h8, h16r, hmid, htoE⟩ | ⟨hto, -⟩
        · omega
        · refine ⟨hstm, h8, h16r, hwp, hmid, ?_⟩
          rw [← h16]; exact htoE
        · rcases hto with hto | hto <;> omega
      · intro hpat hsh2
        have hwpl := piece_at_eq_lane hf64 (by decide) hds hwp
        rw [hpat] at hwpl
        exact absurd hwpl (by decide)
    rcases mem_catList.mp h with h | h
    · obtain ⟨hp, hfl, hne, hto, hwp, h7, hfr, hf64⟩ := wEpMoves_facts h
      exact ⟨hp, hf64, Or.inr (Or.inl ⟨hfl, hne, hto, fun _ => ⟨hwp, h7, hfr⟩,
        fun hc => absurd hstm hc⟩)⟩
    rcases mem_catList.mp h with h | h
    · obtain ⟨hp, hfl, hf64, ht64, hkn, hocc, hatt⟩ := knightMoves_facts (getP_lt b WN) h
      refine ⟨hp, hf64, Or.inl ⟨hfl, ht64, by rw [if_pos hstm]; exact hocc, ?_, ?_⟩⟩
      · intro _ h16
        have := (knightAtt_no16 m.fromSq hf64 m.toSq ht64 hatt).1
        omega
      · intro _ h16
        have := (knightAtt_no16 m.fromSq hf64 m.toSq ht64 hatt).2.1
        omega
    rcases mem_catList.mp h with h | h
    · obtain ⟨x, hxmem, hx⟩ := mem_bindRec.mp h
      obtain ⟨hx64, hxbit⟩ := mem_bitsOf (getP_lt b WB) hxmem
      obtain ⟨hp, hfl, hfr, ht64, hocc⟩ := slideDiag_facts hx64 hx
      subst hfr
      refine ⟨hp, hx64, Or.inl ⟨hfl, ht64, by rw [if_pos hstm]; exact hocc, ?_, ?_⟩⟩
      · intro hpat _
        have hl := piece_at_eq_lane hx64 (by decide) hds hxbit
        rw [hpat] at hl
        exact absurd hl (by decide)
      · intro hpat _
        have hl := piece_at_eq_lane hx64 (by decide) hds hxbit
        rw [hpat] at hl
        exact absurd hl (by decide)
    rcases mem_catList.mp h with h | h
    · obtain ⟨x, hxmem, hx⟩ := mem_bindRec.mp h
      obtain ⟨hx64, hxbit⟩ := mem_bitsOf (getP_lt b WR) hxmem
      obtain ⟨hp, hfl, hfr, ht64, hocc⟩ := slideOrtho_facts hx64 hx
      subst hfr
      refine ⟨hp, hx64, Or.inl ⟨hfl, ht64, by rw [if_pos hstm]; exact hocc, ?_, ?_⟩⟩
      · intro hpat _
        have hl := piece_at_eq_lane hx64 (by decide) hds hxbit
        rw [hpat] at hl
        exact absurd hl (by decide)
      · intro hpat _
        have hl := piece_at_eq_lane hx64 (by decide) hds hxbit
        rw [hpat] at hl
        exact absurd hl (by decide)
    rcases mem_catList.mp h with h | h
    · obtain ⟨x, hxmem, hx⟩ := mem_bindRec.mp h
      obtain ⟨hx64, hxbit⟩ := mem_bitsOf (getP_lt b WQ) hxmem
      rcases mem_catList.mp hx with hx | hx
      · obtain ⟨hp, hfl, hfr, ht64, hocc⟩ := slideDiag_facts hx64 hx
        subst hfr
        refine ⟨hp, hx64, Or.inl ⟨hfl, ht64, by rw [if_pos hstm]; exact hocc, ?_, ?_⟩⟩
        · intro hpat _
          have hl := piece_at_eq_lane hx64 (by decide) hds hxbit
          rw [hpat] at hl
          exact absurd hl (by decide)
        · intro hpat _
          have hl := piece_at_eq_lane hx64 (by decide) hds hxbit
          rw [hpat] at hl
          exact absurd hl (by decide)
      · obtain ⟨hp, hfl, hfr, ht64, hocc⟩ := slideOrtho_facts hx64 hx
        subst hfr
        refine ⟨hp, hx64, Or.inl ⟨hfl, ht64, by rw [if_pos hstm]; exact hocc, ?_, ?_⟩⟩
        · intro hpat _
          have hl := piece_at_eq_lane hx64 (by decide) hds hxbit
          rw [hpat] at hl
          exact absurd hl (by decide)
        · intro hpat _
          have hl := piece_at_eq_lane hx64 (by decide) hds hxbit
          rw [hpat] at hl
          exact absurd hl (by decide)
    rcases mem_catList.mp h with h | h
    · obtain ⟨hp, hfl, -, hf64, ht64, hocc, hatt⟩ := kingMoves_facts h
      refine ⟨hp, hf64, Or.inl ⟨hfl, ht64, by rw [if_pos hstm]; exact hocc, ?_, ?_⟩⟩
      · intro _ h16
        have := (kingAtt_no16 m.fromSq hf64 m.toSq ht64 hatt).1
        omega
      · intro _ h16
        have := (kingAtt_no16 m.fromSq hf64 m.toSq ht64 hatt).2.1
        omega
    · obtain ⟨hp, hfl, hfr, hkb, hca⟩ := wCastleMoves_facts h
      exact ⟨hp, by omega, Or.inr (Or.inr (Or.inl ⟨hfl, hstm, hfr, hkb, hca⟩))⟩
  · rw [if_neg hstm] at h
    unfold pseudoBlack at h
    rcases mem_catList.mp h with h | h
    · obtain ⟨hp, hfl, hf64, ht64, hbp, hocc, hshape⟩ := bPawnMoves_facts h
      refine ⟨hp, hf64, Or.inl ⟨hfl, ht64, by rw [if_neg hstm]; exact hocc, ?_, ?_⟩⟩
      · intro hpat hsh2
        have hbpl := piece_at_eq_lane hf64 (by decide) hds hbp
        rw [hpat] at hbpl
        exact absurd hbpl (by decide)
      · intro hpat h16
        rcases hshape with ⟨hto, -⟩ | ⟨hto, h48, h56, hmid, htoE⟩ | ⟨hto, -⟩
        · omega
        · refine ⟨hstm, h48, h56, hbp, ?_, ?_⟩
          · rw [show m.fromSq - 8 = m.toSq + 8 by omega]; exact hmid
          · rw [show m.fromSq - 16 = m.toSq by omega]; exact htoE
        · rcases hto with hto | hto <;> omega
    rcases mem_catList.mp h with h | h
    · obtain ⟨hp, hfl, hne, hto, hbp, hfr, hf64⟩ := bEpMoves_facts h
      exact ⟨hp, hf64, Or.inr (Or.inl ⟨hfl, hne, hto, fun hc => absurd hc hstm,
        fun _ => ⟨hbp, hfr⟩⟩)⟩
    rcases mem_catList.mp h with h | h
    · obtain ⟨hp, hfl, hf64, ht64, hkn, hocc, hatt⟩ := knightMoves_facts (getP_lt b BN) h
      refine ⟨hp, hf64, Or.inl ⟨hfl, ht64, by rw [if_neg hstm]; exact hocc, ?_, ?_⟩⟩
      · intro _ h16
        have := (knightAtt_no16 m.fromSq hf64 m.toSq ht64 hatt).1
        omega
      · intro _ h16
        have := (knightAtt_no16 m.fromSq hf64 m.toSq ht64 hatt).2.1
        omega
    rcases mem_catList.mp h with h | h
    · obtain ⟨x, hxmem, hx⟩ := mem_bindRec.mp h
      obtain ⟨hx64, hxbit⟩ := mem_bitsOf (getP_lt b BB) hxmem
      obtain ⟨hp, hfl, hfr, ht64, hocc⟩ := slideDiag_facts hx64 hx
      subst hfr
      refine ⟨hp, hx64, Or.inl ⟨hfl, ht64, by rw [if_neg hstm]; exact hocc, ?_, ?_⟩⟩
      · intro hpat _
        have hl := piece_at_eq_lane hx64 (by decide) hds hxbit
        rw [hpat] at hl
        exact absurd hl (by decide)
      · intro hpat _
        have hl := piece_at_eq_lane hx64 (by decide) hds hxbit
        rw [hpat] at hl
        exact absurd hl (by decide)
    rcases mem_catList.mp h with h | h
    · obtain ⟨x, hxmem, hx⟩ := mem_bindRec.mp h
      obtain ⟨hx64, hxbit⟩ := mem_bitsOf (getP_lt b BR) hxmem
      obtain ⟨hp, hfl, hfr, ht64, hocc⟩ := slideOrtho_facts hx64 hx
      subst hfr
      refine ⟨hp, hx64, Or.inl ⟨hfl, ht64, by rw [if_neg hstm]; exact hocc, ?_, ?_⟩⟩
      · intro hpat _
        have hl := piece_at_eq_lane hx64 (by decide) hds hxbit
        rw [hpat] at hl
        exact absurd hl (by decide)
      · intro hpat _
        have hl := piece_at_eq_lane hx64 (by decide) hds hxbit
        rw [hpat] at hl
        exact absurd hl (by decide)
    rcases mem_catList.mp h with h | h
    · obtain ⟨x, hxmem, hx⟩ := mem_bindRec.mp h
      obtain ⟨hx64, hxbit⟩ := mem_bitsOf (getP_lt b BQ) hxmem
      rcases mem_catList.mp hx with hx | hx
      · obtain ⟨hp, hfl, hfr, ht64, hocc⟩ := slideDiag_facts hx64 hx
        subst hfr
        refine ⟨hp, hx64, Or.inl ⟨hfl, ht64, by rw [if_neg hstm]; exact hocc, ?_, ?_⟩⟩
        · intro hpat _
          have hl := piece_at_eq_lane hx64 (by decide) hds hxbit
          rw [hpat] at hl
          exact absurd hl (by decide)
        · intro hpat _
          have hl := piece_at_eq_lane hx64 (by decide) hds hxbit
          rw [hpat] at hl
          exact absurd hl (by decide)
      · obtain ⟨hp, hfl, hfr, ht64, hocc⟩ := slideOrtho_facts hx64 hx
        subst hfr
        refine ⟨hp, hx64, Or.inl ⟨hfl, ht64, by rw [if_neg hstm]; exact hocc, ?_, ?_⟩⟩
        · intro hpat _
          have hl := piece_at_eq_lane hx64 (by decide) hds hxbit
          rw [hpat] at hl
          exact absurd hl (by decide)
        · intro hpat _
          have hl := piece_at_eq_lane hx64 (by decide) hds hxbit
          rw [hpat] at hl
          exact absurd hl (by decide)
    rcases mem_catList.mp h with h | h
    · obtain ⟨hp, hfl, -, hf64, ht64, hocc, hatt⟩ := kingMoves_facts h
      refine ⟨hp, hf64, Or.inl ⟨hfl, ht64, by rw [if_neg hstm]; exact hocc, ?_, ?_⟩⟩
      · intro _ h16
        have := (kingAtt_no16 m.fromSq hf64 m.toSq ht64 hatt).1
        omega
      · intro _ h16
        have := (kingAtt_no16 m.fromSq hf64 m.toSq ht64 hatt).2.1
        omega
    · obtain ⟨hp, hfl, hfr, hkb, hca⟩ := bCastleMoves_facts h
      exact ⟨hp, by omega, Or.inr (Or.inr (Or.inr ⟨hfl, hstm, hfr, hkb, hca⟩))⟩


-- Projections of makeMove and the update pipelines.

theorem makeMove_pcs (b : Board) (m : Move) :
    (makeMove b m).pcs =
      pcsExec (pcsCapture b.pcs b.stm m (capOf b m)) b.stm (piece_at b m.fromSq) m := rfl

theorem makeMove_castleRights (b : Board) (m : Move) :
    (makeMove b m).castleRights =
      crAfterMove b.castleRights (piece_at b m.fromSq) (capOf b m) m.fromSq m.toSq := rfl

theorem makeMove_stm (b : Board) (m : Move) :
    (makeMove b m).stm = (bif b.stm == WHITE then BLACK else WHITE) := rfl

theorem makeMove_ply (b : Board) (m : Move) : (makeMove b m).ply = b.ply + 1 := rfl

theorem makeMove_hist (b : Board) (m : Move) :
    (makeMove b m).hist =
      Function.update b.hist b.ply ⟨m, ((capOf b m : Nat) : Int), b.epSquare, b.castleRights⟩ := rfl

theorem makeMove_epSq (b : Board) (m : Move) :
    (makeMove b m).epSquare = epAfterMove (piece_at b m.fromSq) m := rfl

theorem makeMove_occW (b : Board) (m : Move) :
    (makeMove b m).occW =
      (getP (makeMove b m) WP ||| getP (makeMove b m) WN ||| getP (makeMove b m) WB |||
       getP (makeMove b m) WR ||| getP (makeMove b m) WQ ||| getP (makeMove b m) WK) := rfl

theorem makeMove_occB (b : Board) (m : Move) :
    (makeMove b m).occB =
      (getP (makeMove b m) BP ||| getP (makeMove b m) BN ||| getP (makeMove b m) BB |||
       getP (makeMove b m) BR ||| getP (makeMove b m) BQ ||| getP (makeMove b m) BK) := rfl

theorem makeMove_occAll (b : Board) (m : Move) :
    (makeMove b m).occAll = ((makeMove b m).occW ||| (makeMove b m).occB) := rfl

theorem unmakeMove_promo0 (b : Board) (m : Move) (h : m.promo = 0) :
    unmakeMove b m =
      set_occ { b with
        pcs := pcsRestoreCap
          (pcsCastleBack
            (updSet (updClear b.pcs (piece_at b m.toSq) m.toSq) (piece_at b m.toSq) m.fromSq)
            (if b.stm = WHITE then BLACK else WHITE) m)
          (if b.stm = WHITE then BLACK else WHITE) m ((b.hist (b.ply - 1)).captured),
        ply := b.ply - 1, stm := if b.stm = WHITE then BLACK else WHITE,
        epSquare := (b.hist (b.ply - 1)).prevEpSquare,
        castleRights := (b.hist (b.ply - 1)).prevCastleRights } := by
  simp only [unmakeMove]
  rw [if_neg (fun hc => hc h)]

theorem set_occ_pcs (y : Board) : (set_occ y).pcs = y.pcs := rfl

theorem set_occ_occW (y : Board) :
    (set_occ y).occW =
      (getP (set_occ y) WP ||| getP (set_occ y) WN ||| getP (set_occ y) WB |||
       getP (set_occ y) WR ||| getP (set_occ y) WQ ||| getP (set_occ y) WK) := rfl

theorem set_occ_occB (y : Board) :
    (set_occ y).occB =
      (getP (set_occ y) BP ||| getP (set_occ y) BN ||| getP (set_occ y) BB |||
       getP (set_occ y) BR ||| getP (set_occ y) BQ ||| getP (set_occ y) BK) := rfl

theorem set_occ_occAll (y : Board) :
    (set_occ y).occAll = ((set_occ y).occW ||| (set_occ y).occB) := rfl

theorem capOf_noEp (b : Board) (m : Move) (h : m.flags &&& MF_ENPASSANT = 0) :
    capOf b m = piece_at b m.toSq := by
  unfold capOf
  rw [show (m.flags &&& MF_ENPASSANT != 0) = false by rw [h]; rfl]
  rfl

theorem capOf_ep (b : Board) (m : Move) (h : m.flags &&& MF_ENPASSANT ≠ 0) :
    capOf b m = (bif b.stm == WHITE then BP else WP) := by
  unfold capOf
  rw [show (m.flags &&& MF_ENPASSANT != 0) = true from bne_iff_ne.mpr h]
  rfl

theorem pcsCapture_12 (pcs stm : Nat) (m : Move) : pcsCapture pcs stm m 12 = pcs := rfl

theorem pcsCapture_normal (pcs stm cp : Nat) (m : Move) (hcp : cp < 12)
    (hfl : m.flags &&& MF_ENPASSANT = 0) :
    pcsCapture pcs stm m cp = updClear pcs cp m.toSq := by
  unfold pcsCapture
  rw [show (cp != NO_PIECE) = true from bne_iff_ne.mpr (by simp only [NO_PIECE]; omega),
      show (m.flags &&& MF_ENPASSANT != 0) = false by rw [hfl]; rfl]
  rfl

theorem pcsCapture_epW (pcs : Nat) (m : Move) (cp : Nat) (hcp : cp < 12)
    (hfl : m.flags &&& MF_ENPASSANT ≠ 0) :
    pcsCapture pcs WHITE m cp = updClear pcs cp (m.toSq - 8) := by
  unfold pcsCapture
  rw [show (cp != NO_PIECE) = true from bne_iff_ne.mpr (by simp only [NO_PIECE]; omega),
      show (m.flags &&& MF_ENPASSANT != 0) = true from bne_iff_ne.mpr hfl]
  rfl

theorem pcsCapture_epB (pcs : Nat) (m : Move) (cp stm : Nat) (hcp : cp < 12)
    (hstm : stm ≠ WHITE) (hfl : m.flags &&& MF_ENPASSANT ≠ 0) :
    pcsCapture pcs stm m cp = updClear pcs cp (m.toSq + 8) := by
  unfold pcsCapture
  rw [show (cp != NO_PIECE) = true from bne_iff_ne.mpr (by simp only [NO_PIECE]; omega),
      show (m.flags &&& MF_ENPASSANT != 0) = true from bne_iff_ne.mpr hfl,
      show (stm == WHITE) = false from beq_eq_false_iff_ne.mpr hstm]
  rfl

theorem pcsExec_normal (pcs stm mp : Nat) (m : Move) (hpromo : m.promo = 0)
    (hfl : m.flags &&& MF_CASTLE = 0) :
    pcsExec pcs stm mp m = updSet (updClear pcs mp m.fromSq) mp m.toSq := by
  unfold pcsExec
  rw [show (m.promo != 0) = false by rw [hpromo]; rfl,
      show (m.flags &&& MF_CASTLE != 0) = false by rw [hfl]; rfl]
  rfl

theorem pcsExec_castleW6 (pcs mp : Nat) (m : Move) (hpromo : m.promo = 0)
    (hfl : m.flags &&& MF_CASTLE ≠ 0) (hto : m.toSq = 6) :
    pcsExec pcs WHITE mp m =
      updSet (updClear (updSet (updClear pcs mp m.fromSq) mp m.toSq) WR 7) WR 5 := by
  unfold pcsExec
  rw [show (m.promo != 0) = false by rw [hpromo]; rfl,
      show (m.flags &&& MF_CASTLE != 0) = true from bne_iff_ne.mpr hfl, hto]
  rfl

theorem pcsExec_castleW2 (pcs mp : Nat) (m : Move) (hpromo : m.promo = 0)
    (hfl : m.flags &&& MF_CASTLE ≠ 0) (hto : m.toSq = 2) :
    pcsExec pcs WHITE mp m =
      updSet (updClear (updSet (updClear pcs mp m.fromSq) mp m.toSq) WR 0) WR 3 := by
  unfold pcsExec
  rw [show (m.promo != 0) = false by rw [hpromo]; rfl,
      show (m.flags &&& MF_CASTLE != 0) = true from bne_iff_ne.mpr hfl, hto]
  rfl

theorem pcsExec_castleB62 (pcs mp stm : Nat) (m : Move) (hpromo : m.promo = 0)
    (hfl : m.flags &&& MF_CASTLE ≠ 0) (hstm : stm ≠ WHITE) (hto : m.toSq = 62) :
    pcsExec pcs stm mp m =
      updSet (updClear (updSet (updClear pcs mp m.fromSq) mp m.toSq) BR 63) BR 61 := by
  unfold pcsExec
  rw [show (m.promo != 0) = false by rw [hpromo]; rfl,
      show (m.flags &&& MF_CASTLE != 0) = true from bne_iff_ne.mpr hfl,
      show (stm == WHITE) = false from beq_eq_false_iff_ne.mpr hstm, hto]
  rfl

theorem pcsExec_castleB58 (pcs mp stm : Nat) (m : Move) (hpromo : m.promo = 0)
    (hfl : m.flags &&& MF_CASTLE ≠ 0) (hstm : stm ≠ WHITE) (hto : m.toSq = 58) :
    pcsExec pcs stm mp m =
      updSet (updClear (updSet (updClear pcs mp m.fromSq) mp m.toSq) BR 56) BR 59 := by
  unfold pcsExec
  rw [show (m.promo != 0) = false by rw [hpromo]; rfl,
      show (m.flags &&& MF_CASTLE != 0) = true from bne_iff_ne.mpr hfl,
      show (stm == WHITE) = false from beq_eq_false_iff_ne.mpr hstm, hto]
  rfl

theorem pcsCastleBack_0 (pcs stm1 : Nat) (m : Move) (h : m.flags &&& MF_CASTLE = 0) :
    pcsCastleBack pcs stm1 m = pcs := by
  unfold pcsCastleBack
  rw [if_neg (fun hc => hc h)]

theorem pcsCastleBack_W6 (pcs : Nat) (m : Move) (hfl : m.flags &&& MF_CASTLE ≠ 0)
    (hto : m.toSq = 6) :
    pcsCastleBack pcs WHITE m = updSet (updClear pcs WR 5) WR 7 := by
  unfold pcsCastleBack
  rw [if_pos hfl, if_pos rfl, if_pos hto]

theorem pcsCastleBack_W2 (pcs : Nat) (m : Move) (hfl : m.flags &&& MF_CASTLE ≠ 0)
    (hto : m.toSq = 2) :
    pcsCastleBack pcs WHITE m = updSet (updClear pcs WR 3) WR 0 := by
  unfold pcsCastleBack
  rw [if_pos hfl, if_pos rfl, if_neg (by omega), if_pos hto]

theorem pcsCastleBack_B62 (pcs stm1 : Nat) (m : Move) (hfl : m.flags &&& MF_CASTLE ≠ 0)
    (hstm : stm1 ≠ WHITE) (hto : m.toSq = 62) :
    pcsCastleBack pcs stm1 m = updSet (updClear pcs BR 61) BR 63 := by
  unfold pcsCastleBack
  rw [if_pos hfl, if_neg hstm, if_pos hto]

theorem pcsCastleBack_B58 (pcs stm1 : Nat) (m : Move) (hfl : m.flags &&& MF_CASTLE ≠ 0)
    (hstm : stm1 ≠ WHITE) (hto : m.toSq = 58) :
    pcsCastleBack pcs stm1 m = updSet (updClear pcs BR 59) BR 56 := by
  unfold pcsCastleBack
  rw [if_pos hfl, if_neg hstm, if_neg (by omega), if_pos hto]

theorem pcsRestoreCap_none (pcs stm1 : Nat) (m : Move) :
    pcsRestoreCap pcs stm1 m ((12 : Nat) : Int) = pcs := by
  unfold pcsRestoreCap
  rw [if_neg]
  intro hc
  exact hc.1 rfl

theorem pcsRestoreCap_normal (pcs stm1 cp : Nat) (m : Move) (hcp : cp < 12)
    (hfl : m.flags &&& MF_ENPASSANT = 0) :
    pcsRestoreCap pcs stm1 m ((cp : Nat) : Int) = updSet pcs cp m.toSq := by
  unfold pcsRestoreCap
  rw [if_pos ⟨by simp only [NO_PIECE]; omega, by omega⟩, if_neg (fun hc => hc hfl)]
  norm_num

theorem pcsRestoreCap_epW (pcs cp : Nat) (m : Move) (hcp : cp < 12)
    (hfl : m.flags &&& MF_ENPASSANT ≠ 0) :
    pcsRestoreCap pcs WHITE m ((cp : Nat) : Int) = updSet pcs cp (m.toSq - 8) := by
  unfold pcsRestoreCap
  rw [if_pos ⟨by simp only [NO_PIECE]; omega, by omega⟩, if_pos hfl, if_pos rfl]
  norm_num

theorem pcsRestoreCap_epB (pcs cp stm1 : Nat) (m : Move) (hcp : cp < 12)
    (hstm : stm1 ≠ WHITE) (hfl : m.flags &&& MF_ENPASSANT ≠ 0) :
    pcsRestoreCap pcs stm1 m ((cp : Nat) : Int) = updSet pcs cp (m.toSq + 8) := by
  unfold pcsRestoreCap
  rw [if_pos ⟨by simp only [NO_PIECE]; omega, by omega⟩, if_pos hfl, if_neg hstm]
  norm_num

-- Small piece_at corollaries.

theorem piece_at_zero {b : Board} {s : Nat} (h : b.pcs.testBit s = true) :
    piece_at b s = WP := by
  unfold piece_at
  rw [h]
  rfl

theorem piece_at_unique {b : Board} (hds : lanesDisjoint b = true) {s q : Nat} (hs : s < 64)
    (hq : q < 12) (hne : piece_at b s ≠ q) : b.pcs.testBit (64 * q + s) = false := by
  cases hbit : b.pcs.testBit (64 * q + s)
  · rfl
  · have hb2 : (getP b q).testBit s = true := by
      rw [getP_testBit_lt _ _ _ hs]; exact hbit
    exact absurd (piece_at_eq_lane hs hq hds hb2) hne

theorem occAll_false_lanes {b : Board} (hInv : Inv b) {s : Nat}
    (h : b.occAll.testBit s = false) : ∀ p, p < 12 → (getP b p).testBit s = false := by
  obtain ⟨hW, hB, hA, -, -, -⟩ := hInv
  rw [hA, Nat.testBit_or, hW, hB] at h
  simp only [Nat.testBit_or, Bool.or_eq_false_iff] at h
  intro p hp
  interval_cases p
  · exact h.1.1.1.1.1.1
  · exact h.1.1.1.1.1.2
  · exact h.1.1.1.1.2
  · exact h.1.1.1.2
  · exact h.1.1.2
  · exact h.1.2
  · exact h.2.1.1.1.1.1
  · exact h.2.1.1.1.1.2
  · exact h.2.1.1.1.2
  · exact h.2.1.1.2
  · exact h.2.1.2
  · exact h.2.2

theorem piece_at_empty {b : Board} (hInv : Inv b) {s : Nat} (hs : s < 64)
    (h : b.occAll.testBit s = false) : piece_at b s = 12 := by
  rcases piece_at_cases b s with ⟨h1, h2, -⟩ | ⟨h1, -⟩
  · exfalso
    have := occAll_false_lanes hInv h (piece_at b s) h1
    rw [getP_testBit_lt _ _ _ hs] at this
    rw [this] at h2
    cases h2
  · exact h1

theorem lane_in_occAll {b : Board} (hInv : Inv b) {p s : Nat} (hp : p < 12)
    (h : (getP b p).testBit s = true) : b.occAll.testBit s = true := by
  cases ho : b.occAll.testBit s
  · rw [occAll_false_lanes hInv ho p hp] at h
    cases h
  · rfl

theorem occB_lane {b : Board} (hInv : Inv b) {s : Nat} (h : b.occB.testBit s = true) :
    ∃ p, 6 ≤ p ∧ p < 12 ∧ (getP b p).testBit s = true := by
  obtain ⟨-, hB, -, -, -, -⟩ := hInv
  rw [hB] at h
  simp only [Nat.testBit_or, Bool.or_eq_true] at h
  rcases h with ((((h | h) | h) | h) | h) | h
  · exact ⟨6, by omega, by omega, h⟩
  · exact ⟨7, by omega, by omega, h⟩
  · exact ⟨8, by omega, by omega, h⟩
  · exact ⟨9, by omega, by omega, h⟩
  · exact ⟨10, by omega, by omega, h⟩
  · exact ⟨11, by omega, by omega, h⟩

theorem occW_lane {b : Board} (hInv : Inv b) {s : Nat} (h : b.occW.testBit s = true) :
    ∃ p, p < 6 ∧ (getP b p).testBit s = true := by
  obtain ⟨hW, -, -, -, -, -⟩ := hInv
  rw [hW] at h
  simp only [Nat.testBit_or, Bool.or_eq_true] at h
  rcases h with ((((h | h) | h) | h) | h) | h
  · exact ⟨0, by omega, h⟩
  · exact ⟨1, by omega, h⟩
  · exact ⟨2, by omega, h⟩
  · exact ⟨3, by omega, h⟩
  · exact ⟨4, by omega, h⟩
  · exact ⟨5, by omega, h⟩


theorem makeMove_pcs_normal_cap (b : Board) (m : Move) (hfl : m.flags = 0)
    (hpromo : m.promo = 0) (hcap : piece_at b m.toSq < 12) :
    (makeMove b m).pcs =
      updSet (updClear (updClear b.pcs (piece_at b m.toSq) m.toSq)
        (piece_at b m.fromSq) m.fromSq) (piece_at b m.fromSq) m.toSq := by
  rw [makeMove_pcs, capOf_noEp b m (by rw [hfl]; rfl),
      pcsCapture_normal _ _ _ _ hcap (by rw [hfl]; rfl),
      pcsExec_normal _ _ _ _ hpromo (by rw [hfl]; rfl)]

theorem makeMove_pcs_normal_quiet (b : Board) (m : Move) (hfl : m.flags = 0)
    (hpromo : m.promo = 0) (hcap : piece_at b m.toSq = 12) :
    (makeMove b m).pcs =
      updSet (updClear b.pcs (piece_at b m.fromSq) m.fromSq) (piece_at b m.fromSq) m.toSq := by
  rw [makeMove_pcs, capOf_noEp b m (by rw [hfl]; rfl), hcap, pcsCapture_12,
      pcsExec_normal _ _ _ _ hpromo (by rw [hfl]; rfl)]

theorem piece_at_of {b : Board} {s p : Nat} (hp : p < 12)
    (hbit : b.pcs.testBit (64 * p + s) = true)
    (hlow : ∀ q, q < p → b.pcs.testBit (64 * q + s) = false) : piece_at b s = p := by
  rcases piece_at_cases b s with ⟨h1, h2, h3⟩ | ⟨h1, h3⟩
  · rcases Nat.lt_trichotomy (piece_at b s) p with hlt | heq | hgt
    · rw [hlow _ hlt] at h2
      cases h2
    · exact heq
    · rw [h3 p hgt] at hbit
      cases hbit
  · rw [h3 p hp] at hbit
    cases hbit

theorem piece_at_none {b : Board} {s : Nat}
    (h : ∀ q, q < 12 → b.pcs.testBit (64 * q + s) = false) : piece_at b s = 12 := by
  rcases piece_at_cases b s with ⟨h1, h2, -⟩ | ⟨h1, -⟩
  · rw [h _ h1] at h2
    cases h2
  · exact h1

-- The column of the destination square after a normal (flag-free) move:
-- only the moving piece's lane holds it.

theorem normal_colTo (b : Board) (m : Move) (hInv : Inv b)
    (hfl : m.flags = 0) (hpromo : m.promo = 0) (hf64 : m.fromSq < 64) (ht64 : m.toSq < 64) :
    ∀ q, q < 12 → (makeMove b m).pcs.testBit (64 * q + m.toSq) =
      decide (q = piece_at b m.fromSq) := by
  intro q hq
  have hds := hInv.2.2.2.1
  rcases piece_at_cases b m.toSq with ⟨hc12, hcbit, -⟩ | ⟨hc12, hcnone⟩
  · rw [makeMove_pcs_normal_cap b m hfl hpromo hc12]
    simp only [testBit_updSet, testBit_updClear]
    by_cases hqmp : q = piece_at b m.fromSq
    · subst hqmp
      simp
    · have d1 : ¬(64 * piece_at b m.fromSq + m.toSq = 64 * q + m.toSq) := by omega
      have d2 : ¬(64 * piece_at b m.fromSq + m.fromSq = 64 * q + m.toSq) := by
        intro he
        exact hqmp (by omega)
      by_cases hqc : q = piece_at b m.toSq
      · subst hqc
        simp [d1, d2, hqmp]
      · have d3 : ¬(64 * piece_at b m.toSq + m.toSq = 64 * q + m.toSq) := by
          intro he
          exact hqc (by omega)
        have hv : b.pcs.testBit (64 * q + m.toSq) = false :=
          piece_at_unique hds ht64 hq (fun he => hqc he.symm)
        simp [d1, d2, d3, hqmp, hv]
  · rw [makeMove_pcs_normal_quiet b m hfl hpromo hc12]
    simp only [testBit_updSet, testBit_updClear]
    by_cases hqmp : q = piece_at b m.fromSq
    · subst hqmp
      simp
    · have d1 : ¬(64 * piece_at b m.fromSq + m.toSq = 64 * q + m.toSq) := by omega
      have d2 : ¬(64 * piece_at b m.fromSq + m.fromSq = 64 * q + m.toSq) := by
        intro he
        exact hqmp (by omega)
      have hv : b.pcs.testBit (64 * q + m.toSq) = false := hcnone q hq
      simp [d1, d2, hqmp, hv]

theorem pieceOnTo_normal (b : Board) (m : Move) (hInv : Inv b)
    (hfl : m.flags = 0) (hpromo : m.promo = 0) (hf64 : m.fromSq < 64) (ht64 : m.toSq < 64) :
    piece_at (makeMove b m) m.toSq = piece_at b m.fromSq := by
  have hcol := normal_colTo b m hInv hfl hpromo hf64 ht64
  rcases piece_at_cases b m.fromSq with ⟨hm12, -, -⟩ | ⟨hm12, -⟩
  · apply piece_at_of hm12
    · rw [hcol _ hm12]
      simp
    · intro q hq
      rw [hcol q (by omega)]
      simp
      omega
  · rw [hm12]
    apply piece_at_none
    intro q hq
    rw [hcol q hq, hm12]
    simp
    omega


theorem roundtrip_normal (b : Board) (m : Move) (hInv : Inv b)
    (hfl : m.flags = 0) (hpromo : m.promo = 0) (hf64 : m.fromSq < 64) (ht64 : m.toSq < 64) :
    ∀ i, (piece_at b m.fromSq = 12 → i < 768) →
      (unmakeMove (makeMove b m) m).pcs.testBit i = b.pcs.testBit i := by
  have hds := hInv.2.2.2.1
  have hr : piece_at (makeMove b m) m.toSq = piece_at b m.fromSq :=
    pieceOnTo_normal b m hInv hfl hpromo hf64 ht64
  have hply : (makeMove b m).ply - 1 = b.ply := by
    rw [makeMove_ply]
    omega
  have hcapI : ((makeMove b m).hist ((makeMove b m).ply - 1)).captured =
      ((piece_at b m.toSq : Nat) : Int) := by
    rw [hply, makeMove_hist, Function.update_same, capOf_noEp b m (by rw [hfl]; rfl)]
  have hupcs : (unmakeMove (makeMove b m) m).pcs =
      pcsRestoreCap
        (pcsCastleBack
          (updSet (updClear (makeMove b m).pcs (piece_at b m.fromSq) m.toSq)
            (piece_at b m.fromSq) m.fromSq)
          (if (makeMove b m).stm = WHITE then BLACK else WHITE) m)
        (if (makeMove b m).stm = WHITE then BLACK else WHITE) m
        ((piece_at b m.toSq : Nat) : Int) := by
    rw [unmakeMove_promo0 (makeMove b m) m hpromo, set_occ_pcs]
    dsimp only
    rw [hr, hcapI]
  rw [pcsCastleBack_0 _ _ _ (by rw [hfl]; rfl)] at hupcs
  intro i hi
  rcases piece_at_cases b m.toSq with ⟨hc12, -, -⟩ | ⟨hc12, hcnone⟩
  · rw [pcsRestoreCap_normal _ _ _ _ hc12 (by rw [hfl]; rfl)] at hupcs
    rw [hupcs, makeMove_pcs_normal_cap b m hfl hpromo hc12]
    simp only [testBit_updSet, testBit_updClear]
    by_cases dC : 64 * piece_at b m.toSq + m.toSq = i
    · subst dC
      have hv := piece_at_bit hc12 (rfl : piece_at b m.toSq = piece_at b m.toSq)
      simp [hv]
    · by_cases dB : 64 * piece_at b m.fromSq + m.fromSq = i
      · have hm12 : piece_at b m.fromSq < 12 := by
          rcases piece_at_cases b m.fromSq with ⟨h1, -, -⟩ | ⟨h1, -⟩
          · exact h1
          · exfalso
            have hlt := hi h1
            rw [h1] at dB
            omega
        subst dB
        have hv := piece_at_bit hm12 (rfl : piece_at b m.fromSq = piece_at b m.fromSq)
        simp [hv]
      · by_cases dA : 64 * piece_at b m.fromSq + m.toSq = i
        · have hm12 : piece_at b m.fromSq < 12 := by
            rcases piece_at_cases b m.fromSq with ⟨h1, -, -⟩ | ⟨h1, -⟩
            · exact h1
            · exfalso
              have hlt := hi h1
              rw [h1] at dA
              omega
          subst dA
          have hne : piece_at b m.toSq ≠ piece_at b m.fromSq := by
            intro he
            exact dC (by rw [he])
          have hv : b.pcs.testBit (64 * piece_at b m.fromSq + m.toSq) = false :=
            piece_at_unique hds ht64 hm12 hne
          simp [dB, dC, hv]
        · simp [dA, dB, dC]
  · rw [hc12] at hupcs
    rw [pcsRestoreCap_none] at hupcs
    rw [hupcs, makeMove_pcs_normal_quiet b m hfl hpromo hc12]
    simp only [testBit_updSet, testBit_updClear]
    by_cases dB : 64 * piece_at b m.fromSq + m.fromSq = i
    · have hm12 : piece_at b m.fromSq < 12 := by
        rcases piece_at_cases b m.fromSq with ⟨h1, -, -⟩ | ⟨h1, -⟩
        · exact h1
        · exfalso
          have hlt := hi h1
          rw [h1] at dB
          omega
      subst dB
      have hv := piece_at_bit hm12 (rfl : piece_at b m.fromSq = piece_at b m.fromSq)
      simp [hv]
    · by_cases dA : 64 * piece_at b m.fromSq + m.toSq = i
      · have hm12 : piece_at b m.fromSq < 12 := by
          rcases piece_at_cases b m.fromSq with ⟨h1, -, -⟩ | ⟨h1, -⟩
          · exact h1
          · exfalso
            have hlt := hi h1
            rw [h1] at dA
            omega
        subst dA
        have hv : b.pcs.testBit (64 * piece_at b m.fromSq + m.toSq) = false :=
          hcnone (piece_at b m.fromSq) hm12
        simp [dB, hv]
      · simp [dA, dB]

end Chess
